import Mathlib

/-!
# logrus_fluent: the value-conversion engine of reflect.go

A shallow embedding of `reflect.go` (ConvertToValue and its helpers) together
with the small part of Go's `reflect`, `strings` and `fmt` packages the file
relies on.

## Model of Go values

`Value` plays the role of `reflect.Value`: the content of a Go variable
together with what reflection can observe of its type.

* `Value.nil` is the zero `reflect.Value` (`IsValid() == false`, kind Invalid).
  It is also what `reflect.ValueOf(p)` yields for a nil `interface{}`, so it
  stands for the nil / absent output as well.
* `Value.iface d` is a variable of interface type holding the dynamic value
  `d` (`Value.iface Value.nil` is a nil interface).  Elements of
  `[]interface{}` and of `map[string]interface{}` are such variables.
* every other constructor carries a flag `m` telling whether the dynamic type
  has the method set of `msgp.Marshaler`.
* a struct is the list of its fields in declaration order, each with the
  `reflect.StructField` descriptor and the field's value.
* a map is the list of its entries in the order `MapKeys` returns them for
  this call; keys are restricted to strings, integers, booleans and the
  float64 NaN (`Key.nan`), the one key that is not equal to itself.

Kinds that are not modelled (functions, complex and floating-point numbers
other than a NaN map key, unsafe pointers, unsigned and sized integers) fall
in the `default` branch of ConvertToValue like `bool`, `int`, `string` and
arrays do.

Panics of the Go runtime are explicit: every function that can panic returns
`Except Panic _`.  In the model ConvertToValue panics on a value only when
the conversion reaches a map with a NaN key (`rv.MapIndex(key)` finds nothing
and `kv.Interface()` is called on the zero Value) or a storage position that
holds the zero Value, which no Go value has.  The properties of the result of
a conversion are stated for the inputs on which the nested conversions
return.
-/

namespace LogrusFluent

/-- Run-time panics that the operations used by reflect.go can raise -/
inductive Panic where
  /-- reflect: call of reflect.Value.Interface on zero Value -/
  | interfaceOnZeroValue
  /-- reflect.Value.Interface: cannot return value obtained from unexported field or method -/
  | interfaceOnUnexported
  /-- reflect: call of reflect.Value.Type on zero Value -/
  | typeOnZeroValue
  /-- runtime error: index out of range -/
  | indexOutOfRange
  deriving DecidableEq, Repr

/-- Map keys of the model: string, int, bool and the float64 NaN -/
inductive Key where
  | str (s : String)
  | int (n : Int)
  | bool (b : Bool)
  | nan
  deriving DecidableEq, Repr

/-- The descriptor reflect.StructField of one struct field.  `Tag` is the
struct tag as its list of `key:"value"` pairs, in the order written. -/
structure StructField where
  Name : String
  PkgPath : String
  Anonymous : Bool
  Tag : List (String × String)
  deriving DecidableEq, Repr

/-- Go values as reflection sees them (see the header for the conventions) -/
inductive Value where
  | nil : Value
  | iface (dyn : Value) : Value
  | bool (m : Bool) (b : Bool) : Value
  | int (m : Bool) (n : Int) : Value
  | str (m : Bool) (s : String) : Value
  | chan (m : Bool) (addr : Nat) : Value
  | ptr (m : Bool) (elem : Option Value) : Value
  | array (m : Bool) (elems : List Value) : Value
  | slice (m : Bool) (elems : Option (List Value)) : Value
  | map (m : Bool) (entries : Option (List (Key × Value))) : Value
  | struct (m : Bool) (fields : List (StructField × Value)) : Value

instance : Inhabited Value := ⟨Value.nil⟩

/-- The kinds of reflect.Kind that the model distinguishes -/
inductive Kind where
  | Invalid | Bool | Int | String | Chan | Interface | Ptr | Array | Slice | Map | Struct
  deriving DecidableEq, Repr

/-- The struct conversionConfiguration of reflect.go -/
structure conversionConfiguration where
  tagName : String
  useMsgPack : Bool
  deriving DecidableEq, Repr

/-- The type `options` of reflect.go: the tag segments after the name -/
abbrev options := List String

/-- The method reflect.Value.Kind -/
def Value.Kind : Value → Kind
  | .nil => .Invalid
  | .iface _ => .Interface
  | .bool _ _ => .Bool
  | .int _ _ => .Int
  | .str _ _ => .String
  | .chan _ _ => .Chan
  | .ptr _ _ => .Ptr
  | .array _ _ => .Array
  | .slice _ _ => .Slice
  | .map _ _ => .Map
  | .struct _ _ => .Struct

/-- The method reflect.Value.IsValid -/
def Value.IsValid (v : Value) : Bool :=
  match v with
  | .nil => false
  | _ => true

/-- The type switch `case msgp.Marshaler` of ConvertToValue: whether the
dynamic type of the interface value implements msgp.Marshaler -/
def Value.isMarshaler : Value → Bool
  | .nil => false
  | .iface _ => false
  | .bool m _ => m
  | .int m _ => m
  | .str m _ => m
  | .chan m _ => m
  | .ptr m _ => m
  | .array m _ => m
  | .slice m _ => m
  | .map m _ => m
  | .struct m _ => m

/-- The method reflect.Value.Elem on a pointer: the pointee, or the zero
Value for a nil pointer -/
def Value.Elem : Value → Value
  | .ptr _ (some v) => v
  | .ptr _ none => .nil
  | .iface d => d
  | _ => .nil

/-- The method reflect.Value.Interface.  The flag `ro` tells that the value
was read from an unexported struct field (flagRO).  The call panics on the
zero Value and on a read-only value; on an interface variable it returns the
dynamic value. -/
def Value.Interface (ro : Bool) : Value → Except Panic Value
  | .nil => .error .interfaceOnZeroValue
  | .iface d => if ro then .error .interfaceOnUnexported else .ok d
  | v => if ro then .error .interfaceOnUnexported else .ok v

/-- The struct fields of a value of kind Struct (empty otherwise) -/
def Value.fields : Value → List (StructField × Value)
  | .struct _ fs => fs
  | _ => []

/-- The key comparison of Go maps: NaN differs from every key, itself included -/
def Key.goEq (a b : Key) : Bool :=
  a ≠ Key.nan && a = b

/-- The function fmt.Sprint on a key of the model -/
def Sprint : Key → String
  | .str s => s
  | .int n => toString n
  | .bool b => if b then "true" else "false"
  | .nan => "NaN"

/-- The method reflect.Value.MapIndex on the entries of a map: the value
stored under a key equal to `key`, or the zero Value -/
def MapIndex : List (Key × Value) → Key → Value
  | [], _ => .nil
  | (k, v) :: rest, key => if Key.goEq k key then v else MapIndex rest key

/-- The map assignment `m[k] = v` of Go on the entries of a map -/
def mapassign (k : Key) (v : Value) : List (Key × Value) → List (Key × Value)
  | [] => [(k, v)]
  | (k', v') :: rest =>
    if Key.goEq k' k then (k', v) :: rest else (k', v') :: mapassign k v rest

/-- The function strings.Split(s, ",") on the characters of s -/
def splitComma : List Char → List (List Char)
  | [] => [[]]
  | c :: cs =>
    if c = ',' then [] :: splitComma cs
    else match splitComma cs with
      | [] => [[c]]
      | seg :: segs => (c :: seg) :: segs

/-- The function strings.Split with the separator "," -/
def stringsSplit (s : String) : List String :=
  (splitComma s.data).map String.mk

/-- The method reflect.StructTag.Get: the value of the first pair stored
under the key, or the empty string -/
def tagGet : List (String × String) → String → String
  | [], _ => ""
  | (k, v) :: rest, key => if k = key then v else tagGet rest key

/-- The function toValue of reflect.go -/
def toValue (p : Value) : Value :=
  let v := p
  if v.Kind = Kind.Ptr then v.Elem else v

/-- The method options.Has of reflect.go -/
def options.Has : options → String → Bool
  | [], _ => false
  | opt :: rest, tag => if opt = tag then true else options.Has rest tag

/-- The function splitTags of reflect.go: `res[0], res[1:]` -/
def splitTags (tags : String) : Except Panic (String × options) :=
  match stringsSplit tags with
  | [] => .error .indexOutOfRange
  | r :: rest => .ok (r, rest)

/-- The function getTagValues of reflect.go -/
def getTagValues (f : StructField) (tag : String) : String :=
  tagGet f.Tag tag

/-- The function parseTag of reflect.go -/
def parseTag (f : StructField) (tag : String) : Except Panic (String × options) :=
  splitTags (getTagValues f tag)

/-- The function getNameFromTag of reflect.go -/
def getNameFromTag (f : StructField) (tagName : String) : Except Panic String := do
  let (tag, _) ← parseTag f tagName
  if tag ≠ "" then
    return tag
  return f.Name

mutual
/-- The zero value `reflect.Zero(v.Type())` of the type of v, read off the
shape of v (a zero Value, which has no type, is mapped to itself) -/
def Zero : Value → Value
  | .nil => .nil
  | .iface _ => .iface .nil
  | .bool m _ => .bool m false
  | .int m _ => .int m 0
  | .str m _ => .str m ""
  | .chan m _ => .chan m 0
  | .ptr m _ => .ptr m none
  | .array m xs => .array m (ZeroList xs)
  | .slice m _ => .slice m none
  | .map m _ => .map m none
  | .struct m fs => .struct m (ZeroFields fs)
termination_by structural v => v
/-- Zero on the elements of an array -/
def ZeroList : List Value → List Value
  | [] => []
  | x :: xs => Zero x :: ZeroList xs
termination_by structural xs => xs
/-- Zero on the fields of a struct -/
def ZeroFields : List (StructField × Value) → List (StructField × Value)
  | [] => []
  | (f, v) :: rest => (f, Zero v) :: ZeroFields rest
termination_by structural fs => fs
end

mutual
/-- The function reflect.DeepEqual on two values.  Equal flags `m` and equal
field descriptors stand for the identity of the two types; two pointers are
deeply equal when their pointees are. -/
def DeepEqual : Value → Value → Bool
  | .nil, .nil => true
  | .iface a, .iface b => DeepEqual a b
  | .bool m a, .bool n b => m == n && a == b
  | .int m a, .int n b => m == n && a == b
  | .str m a, .str n b => m == n && a == b
  | .chan m a, .chan n b => m == n && a == b
  | .ptr m none, .ptr n none => m == n
  | .ptr m (some a), .ptr n (some b) => m == n && DeepEqual a b
  | .array m xs, .array n ys => m == n && DeepEqualList xs ys
  | .slice m none, .slice n none => m == n
  | .slice m (some xs), .slice n (some ys) => m == n && DeepEqualList xs ys
  | .map m none, .map n none => m == n
  | .map m (some xs), .map n (some ys) =>
    m == n && xs.length == ys.length && DeepEqualMap xs ys
  | .struct m fs, .struct n gs => m == n && DeepEqualFields fs gs
  | _, _ => false
termination_by structural x => x
/-- DeepEqual on the elements of two arrays or slices, index by index -/
def DeepEqualList : List Value → List Value → Bool
  | [], [] => true
  | x :: xs, y :: ys => DeepEqual x y && DeepEqualList xs ys
  | _, _ => false
termination_by structural xs => xs
/-- DeepEqual on two maps of the same length: every key of the first maps to
a deeply equal value in the second -/
def DeepEqualMap : List (Key × Value) → List (Key × Value) → Bool
  | [], _ => true
  | (k, v) :: rest, ys => DeepEqual v (MapIndex ys k) && DeepEqualMap rest ys
termination_by structural xs => xs
/-- DeepEqual on the fields of two structs, field by field -/
def DeepEqualFields : List (StructField × Value) → List (StructField × Value) → Bool
  | [], [] => true
  | (f, v) :: fs, (g, w) :: gs => f == g && DeepEqual v w && DeepEqualFields fs gs
  | _, _ => false
termination_by structural fs => fs
end

/-- The function isZero of reflect.go, on a value read from a struct field
(`ro` is its flagRO).  `v.Type()` panics on the zero Value. -/
def isZero (ro : Bool) (v : Value) : Except Panic Bool := do
  if !v.IsValid then throw Panic.typeOnZeroValue
  let zero ← (Zero v).Interface false
  let value ← v.Interface ro
  return DeepEqual value zero

/-- The statement `result = append(result, x)` on a slice of interface{} -/
def sliceAppend (result : Option (List Value)) (x : Value) : Option (List Value) :=
  some (result.getD [] ++ [x])

mutual
/-- The function ConvertToValue of reflect.go.  The patterns spell out
`rv := toValue(p)` (one pointer level removed) followed by the switch on
`rv.Kind()`, and `convertFromStruct` is unfolded in the struct case, so that
the recursion is structural; `ConvertToValue_eq_switch` below restates the
function as the escape hatch followed by `kindSwitch config (toValue p)`.
In the loops, the three-way match on a reflected value v is the call
`ConvertToValue(v.Interface(), config)`, see `convertInterface`. -/
def ConvertToValue (config : conversionConfiguration) (p : Value) : Except Panic Value :=
  if config.useMsgPack && p.isMarshaler then .ok p
  else match p with
    | .ptr _ (some (.struct _ fs)) | .struct _ fs =>
      (convertFromStructDeep config fs []).map (fun result => Value.map false (some result))
    | .ptr _ (some (.map _ es)) | .map _ es => convertFromMap config es
    | .ptr _ (some (.slice _ xs)) | .slice _ xs => convertFromSlice config xs
    | .ptr _ (some (.chan _ _)) | .chan _ _ => .ok .nil
    | .ptr _ none | .ptr _ (some .nil) | .nil => .ok .nil
    | .ptr _ (some (.iface d)) | .iface d => .ok d
    | .ptr _ (some rv) => .ok rv
    | rv => .ok rv
termination_by structural p
/-- The function convertFromMap of reflect.go: a nil map has no keys -/
def convertFromMap (config : conversionConfiguration) :
    Option (List (Key × Value)) → Except Panic Value
  | none => .ok (Value.map false (some []))
  | some es =>
    (convertFromMapLoop config es []).map (fun result => Value.map false (some result))
termination_by structural es => es
/-- The loop over `rv.MapKeys()` in convertFromMap, on the entries still to
visit.  `rv.MapIndex(key)` is the value of the entry unless the key is NaN,
where it is the zero Value, on which `Interface` panics. -/
def convertFromMapLoop (config : conversionConfiguration) :
    List (Key × Value) → List (Key × Value) → Except Panic (List (Key × Value))
  | [], result => .ok result
  | (key, v) :: rest, result => do
    let o ←
      if key = Key.nan then throw Panic.interfaceOnZeroValue
      else match v with
        | .nil => throw Panic.interfaceOnZeroValue
        | .iface d => ConvertToValue config d
        | kv => ConvertToValue config kv
    convertFromMapLoop config rest (mapassign (Key.str (Sprint key)) (Value.iface o) result)
termination_by structural es => es
/-- The function convertFromSlice of reflect.go: a nil slice has length 0 -/
def convertFromSlice (config : conversionConfiguration) :
    Option (List Value) → Except Panic Value
  | none => .ok (Value.slice false none)
  | some xs => convertFromSliceLoop config xs none
termination_by structural xs => xs
/-- The loop of convertFromSlice on the elements still to visit -/
def convertFromSliceLoop (config : conversionConfiguration) :
    List Value → Option (List Value) → Except Panic Value
  | [], result => .ok (Value.slice false result)
  | x :: xs, result => do
    let o ←
      match x with
        | .nil => throw Panic.interfaceOnZeroValue
        | .iface d => ConvertToValue config d
        | e => ConvertToValue config e
    convertFromSliceLoop config xs (sliceAppend result (Value.iface o))
termination_by structural xs => xs
/-- The function convertFromStructDeep of reflect.go on the fields still to
visit: the descriptor `t.Field(i)` paired with the value `values.Field(i)`.
The check `!values.IsValid()` is on the struct itself, which is valid here. -/
def convertFromStructDeep (config : conversionConfiguration) :
    List (StructField × Value) → List (Key × Value) → Except Panic (List (Key × Value))
  | [], result => .ok result
  | (f, v) :: rest, result =>
    if f.PkgPath ≠ "" && !f.Anonymous then
      convertFromStructDeep config rest result
    else if f.Anonymous then
      match v with
      | .ptr _ (some (.struct _ fs)) | .struct _ fs => do
        let result ← convertFromStructDeep config fs result
        convertFromStructDeep config rest result
      | _ => convertFromStructDeep config rest result
    else do
      let (tag, opts) ← parseTag f config.tagName
      if tag = "-" then
        convertFromStructDeep config rest result
      else
        let ro := decide (f.PkgPath ≠ "")
        let skip ← if options.Has opts "omitempty" then isZero ro v else pure false
        if skip then
          convertFromStructDeep config rest result
        else
          let name ← getNameFromTag f config.tagName
          let o ←
            if ro then throw Panic.interfaceOnUnexported
            else match v with
              | .nil => throw Panic.interfaceOnZeroValue
              | .iface d => ConvertToValue config d
              | fv => ConvertToValue config fv
          convertFromStructDeep config rest (mapassign (Key.str name) (Value.iface o) result)
termination_by structural fs => fs
end

/-- The function convertFromStruct of reflect.go -/
def convertFromStruct (p : Value) (config : conversionConfiguration) : Except Panic Value :=
  (convertFromStructDeep config (toValue p).fields []).map
    (fun result => Value.map false (some result))

/-- The map entries of a value of kind Map (none for a nil map or another kind) -/
def Value.mapEntries : Value → Option (List (Key × Value))
  | .map _ es => es
  | _ => none

/-- The elements of a value of kind Slice (none for a nil slice or another kind) -/
def Value.sliceItems : Value → Option (List Value)
  | .slice _ xs => xs
  | _ => none

/-- The switch on `rv.Kind()` of ConvertToValue, lines 27 to 40 of reflect.go -/
def kindSwitch (config : conversionConfiguration) (rv : Value) : Except Panic Value :=
  match rv.Kind with
  | .Struct => convertFromStruct rv config
  | .Map => convertFromMap config rv.mapEntries
  | .Slice => convertFromSlice config rv.sliceItems
  | .Chan => .ok .nil
  | .Invalid => .ok .nil
  | _ => rv.Interface false

/-! ## Notions used to state the properties -/

/-- The expression `ConvertToValue(v.Interface(), config)` of reflect.go on a
reflected value v whose read-only flag is ro -/
def convertInterface (config : conversionConfiguration) (ro : Bool) (v : Value) :
    Except Panic Value :=
  v.Interface ro >>= ConvertToValue config

/-- The tag name of a field: the first result of parseTag -/
def tagNameOf (f : StructField) (tagName : String) : String :=
  match parseTag f tagName with
  | .ok (tag, _) => tag
  | .error _ => ""

/-- The tag options of a field: the second result of parseTag -/
def tagOptionsOf (f : StructField) (tagName : String) : options :=
  match parseTag f tagName with
  | .ok (_, opts) => opts
  | .error _ => []

/-- The output key of a field: the result of getNameFromTag -/
def outputKey (f : StructField) (tagName : String) : String :=
  match getNameFromTag f tagName with
  | .ok name => name
  | .error _ => ""

/-- The verdict of isZero on the value of an exported field -/
def isZeroValue (v : Value) : Bool :=
  match isZero false v with
  | .ok b => b
  | .error _ => false

/-- A named field is kept (not skipped) when it is exported, its tag name is
not "-", and it is not both tagged omitempty and zero -/
def kept (config : conversionConfiguration) (fv : StructField × Value) : Bool :=
  fv.1.PkgPath = "" && tagNameOf fv.1 config.tagName ≠ "-" &&
    !(options.Has (tagOptionsOf fv.1 config.tagName) "omitempty" && isZeroValue fv.2)

mutual
/-- The named fields that an anonymous field holding v contributes: those of
the embedded struct, held directly or through one non-nil pointer -/
def embedded : Value → List (StructField × Value)
  | .ptr _ (some (.struct _ fs)) | .struct _ fs => processed fs
  | _ => []
termination_by structural v => v
/-- The named fields of a struct in processing order: declaration order, the
fields of an embedded struct taking the place of the anonymous field, any
other anonymous field dropped -/
def processed : List (StructField × Value) → List (StructField × Value)
  | [] => []
  | (f, v) :: rest =>
    if f.Anonymous then embedded v ++ processed rest
    else (f, v) :: processed rest
termination_by structural fs => fs
end

/-- The nested calls made for a list of named fields return: the call
`ConvertToValue(v.Interface(), config)` on the value of every kept field
returns -/
def FieldsConvert (config : conversionConfiguration) (fs : List (StructField × Value)) : Prop :=
  ∀ fv ∈ fs, kept config fv = true → ∃ o, convertInterface config false fv.2 = .ok o

/-- The effect of one iteration of the struct loop on a named (not
anonymous) field: the result map after the iteration -/
def namedField (config : conversionConfiguration) (f : StructField) (v : Value)
    (result : List (Key × Value)) : Except Panic (List (Key × Value)) :=
  if f.PkgPath ≠ "" then .ok result
  else if tagNameOf f config.tagName = "-" then .ok result
  else
    (if options.Has (tagOptionsOf f config.tagName) "omitempty" then isZero false v
      else .ok false) >>= fun skip =>
    if skip then .ok result
    else convertInterface config false v >>= fun o =>
      .ok (mapassign (Key.str (outputKey f config.tagName)) (Value.iface o) result)

/-- The effect of one iteration of the struct loop on an anonymous field
holding v: the result map after the iteration -/
def anonymousField (config : conversionConfiguration) (v : Value)
    (result : List (Key × Value)) : Except Panic (List (Key × Value)) :=
  match v with
  | .ptr _ (some (.struct _ fs)) | .struct _ fs => convertFromStructDeep config fs result
  | _ => .ok result

/-- The effect of one iteration of the struct loop -/
def fieldStep (config : conversionConfiguration) (f : StructField) (v : Value)
    (result : List (Key × Value)) : Except Panic (List (Key × Value)) :=
  if f.Anonymous then anonymousField config v result else namedField config f v result

/-- The dynamic value that `ConvertToValue(v.Interface(), config)` returns
(the zero Value when the call panics) -/
def convertedValue (config : conversionConfiguration) (v : Value) : Value :=
  match convertInterface config false v with
  | .ok o => o
  | .error _ => .nil

/-- The map assignments that the struct loop makes for a list of named
fields: one for every kept field, in order -/
def assignFields (config : conversionConfiguration) :
    List (StructField × Value) → List (Key × Value) → List (Key × Value)
  | [], result => result
  | fv :: rest, result =>
    assignFields config rest
      (if kept config fv then
        mapassign (Key.str (outputKey fv.1 config.tagName))
          (Value.iface (convertedValue config fv.2)) result
      else result)

/-- The configuration used in the examples: tag namespace "fluent", escape
hatch off -/
def fluentConfig : conversionConfiguration := ⟨"fluent", false⟩

/-- The configuration used in the examples with the escape hatch on -/
def msgpConfig : conversionConfiguration := ⟨"fluent", true⟩

/-- An exported named field with the tag `fluent:"<tag>"` -/
def taggedField (name tag : String) : StructField := ⟨name, "", false, [("fluent", tag)]⟩

/-- The fields of the example struct
`struct { Name string "fluent:name"; secret int; Skip int "fluent:-";
Age int "fluent:age,omitempty"; City string }` with Name "bob", Age 0 -/
def recordFields : List (StructField × Value) :=
  [(taggedField "Name" "name", Value.str false "bob"),
   (⟨"secret", "example", false, []⟩, Value.int false 1),
   (taggedField "Skip" "-", Value.int false 2),
   (taggedField "Age" "age,omitempty", Value.int false 0),
   (⟨"City", "", false, []⟩, Value.str false "x")]

/-- The example struct `Person{Name string "fluent:name"; Age int
"fluent:age,omitempty"}` of the specification -/
def person (name : String) (age : Int) : Value :=
  Value.struct false
    [(taggedField "Name" "name", Value.str false name),
     (taggedField "Age" "age,omitempty", Value.int false age)]

/-- The fields of the example struct `Inner{A int}` with A = 1 -/
def innerFields : List (StructField × Value) :=
  [(⟨"A", "", false, []⟩, Value.int false 1)]

/-- The descriptor of the anonymous field of an embedded `Inner` carrying
the struct tag given -/
def innerField (tag : List (String × String)) : StructField := ⟨"Inner", "", true, tag⟩

/-- The example struct `Outer{Name string; Inner}` where `Inner{Name string}`:
the outer struct declares its own field Name before it embeds Inner -/
def outerFirst (own inner : String) : Value :=
  Value.struct false
    [(⟨"Name", "", false, []⟩, Value.str false own),
     (innerField [], Value.struct false [(⟨"Name", "", false, []⟩, Value.str false inner)])]

/-- The example struct `Outer{Inner; Name string}` where `Inner{Name string}`:
the outer struct declares its own field Name after it embeds Inner -/
def outerLast (own inner : String) : Value :=
  Value.struct false
    [(innerField [], Value.struct false [(⟨"Name", "", false, []⟩, Value.str false inner)]),
     (⟨"Name", "", false, []⟩, Value.str false own)]

/-- The value `rv.MapIndex(key)` that the loop of convertFromMap reads for
an entry of the map: the value of the entry, or the zero Value when the key
is NaN and therefore not found -/
def entryValue (e : Key × Value) : Value :=
  if e.1 = Key.nan then Value.nil else e.2

/-- The map assignments that the loop of convertFromMap makes for a list of
entries, in order -/
def assignEntries (config : conversionConfiguration) :
    List (Key × Value) → List (Key × Value) → List (Key × Value)
  | [], result => result
  | e :: rest, result =>
    assignEntries config rest
      (mapassign (Key.str (Sprint e.1)) (Value.iface (convertedValue config (entryValue e)))
        result)

/-- The elements of a slice (none for a nil slice or another kind) -/
def Value.elems : Value → List Value
  | .slice _ (some xs) => xs
  | _ => []

/-- The entries of the example map `map[interface{}]interface{}{1: "a",
"k": nil, true: &2}` in one iteration order -/
def sampleEntries : List (Key × Value) :=
  [(Key.int 1, Value.iface (Value.str false "a")),
   (Key.str "k", Value.iface Value.nil),
   (Key.bool true, Value.iface (Value.ptr false (some (Value.int false 2))))]

/-- The elements of the example slice `[]interface{}{1, nil, (*int)(nil), "s"}` -/
def sampleElems : List Value :=
  [Value.iface (Value.int false 1), Value.iface Value.nil,
   Value.iface (Value.ptr false none), Value.iface (Value.str false "s")]

/-- The keys of the entries of a map -/
def keysOf (entries : List (Key × Value)) : List Key :=
  entries.map Prod.fst

/-- The example struct `struct { Counter; io.Writer; *Inner; A int }` whose
anonymous fields hold a named integer, an interface holding a struct and a
nil pointer -/
def embeddedOthers : List (StructField × Value) :=
  [(⟨"Counter", "", true, []⟩, Value.int false 3),
   (⟨"Writer", "", true, []⟩, Value.iface (Value.struct false innerFields)),
   (innerField [], Value.ptr false none),
   (⟨"A", "", false, []⟩, Value.int false 1)]

/-- The segments of a tag joined again with commas: the inverse reading of
"comma-separated segments" -/
def joinComma : List (List Char) → List Char
  | [] => []
  | [seg] => seg
  | seg :: rest => seg ++ ',' :: joinComma rest

mutual
/-- The conversion of the dynamic value p reaches no panic: no map that it
iterates has a NaN key and no storage position that it reads holds the zero
Value.  The predicate follows ConvertToValue with the escape hatch off (a
value passed through by the hatch is not entered at all). -/
def PanicFree : Value → Bool
  | .ptr _ (some (.struct _ fs)) | .struct _ fs => PanicFreeFields fs
  | .ptr _ (some (.map _ (some es))) | .map _ (some es) => PanicFreeEntries es
  | .ptr _ (some (.slice _ (some xs))) | .slice _ (some xs) => PanicFreeElems xs
  | _ => true
termination_by structural p => p
/-- PanicFree for the elements of a slice -/
def PanicFreeElems : List Value → Bool
  | [] => true
  | x :: xs =>
    (match x with
      | .nil => false
      | .iface d => PanicFree d
      | e => PanicFree e) && PanicFreeElems xs
termination_by structural xs => xs
/-- PanicFree for the entries of a map: no key is NaN -/
def PanicFreeEntries : List (Key × Value) → Bool
  | [] => true
  | (k, v) :: rest =>
    decide (k ≠ Key.nan) &&
    (match v with
      | .nil => false
      | .iface d => PanicFree d
      | e => PanicFree e) && PanicFreeEntries rest
termination_by structural es => es
/-- PanicFree for the fields of a struct: the embedded structs and the values
of the exported named fields -/
def PanicFreeFields : List (StructField × Value) → Bool
  | [] => true
  | (f, v) :: rest =>
    (if f.Anonymous then
      match v with
      | .ptr _ (some (.struct _ fs)) | .struct _ fs => PanicFreeFields fs
      | _ => true
    else if f.PkgPath ≠ "" then true
    else
      match v with
      | .nil => false
      | .iface d => PanicFree d
      | e => PanicFree e) && PanicFreeFields rest
termination_by structural fs => fs
end

/-- PanicFree for a storage position read with `Interface`: the position holds
a valid value whose dynamic value is PanicFree -/
def PanicFreeSlot (v : Value) : Bool :=
  match v with
  | .nil => false
  | .iface d => PanicFree d
  | e => PanicFree e

/-- PanicFree for the value of an anonymous field -/
def PanicFreeAnonymous (v : Value) : Bool :=
  match v with
  | .ptr _ (some (.struct _ fs)) | .struct _ fs => PanicFreeFields fs
  | _ => true

/-- The example map `map[float64]int{math.NaN(): 1}` -/
def nanMap : Value := Value.map false (some [(Key.nan, Value.int false 1)])

/-- The three ways in which the conversion reads a value: as the argument of
ConvertToValue, through `Interface` from a storage position, and as the value
of an anonymous field -/
def ReturnsOn (config : conversionConfiguration) (v : Value) : Prop :=
  (PanicFree v = true → ∃ o, ConvertToValue config v = .ok o) ∧
  (PanicFreeSlot v = true → ∃ o, convertInterface config false v = .ok o) ∧
  (PanicFreeAnonymous v = true →
    ∀ result, ∃ r, anonymousField config v result = .ok r)

mutual
/-- Neither p nor any value that the conversion of p passes to ConvertToValue
(the values of the kept fields, the map values, the slice elements) satisfies
the custom-marshal capability.  Which fields are kept depends on the tag key
only. -/
def NoMarshaler (tagName : String) (p : Value) : Bool :=
  !p.isMarshaler &&
  match p with
  | .ptr _ (some (.struct _ fs)) | .struct _ fs => NoMarshalerFields tagName fs
  | .ptr _ (some (.map _ (some es))) | .map _ (some es) => NoMarshalerEntries tagName es
  | .ptr _ (some (.slice _ (some xs))) | .slice _ (some xs) => NoMarshalerElems tagName xs
  | _ => true
termination_by structural p
/-- NoMarshaler for the elements of a slice -/
def NoMarshalerElems (tagName : String) : List Value → Bool
  | [] => true
  | x :: xs =>
    (match x with
      | .nil => true
      | .iface d => NoMarshaler tagName d
      | e => NoMarshaler tagName e) && NoMarshalerElems tagName xs
termination_by structural xs => xs
/-- NoMarshaler for the values of a map -/
def NoMarshalerEntries (tagName : String) : List (Key × Value) → Bool
  | [] => true
  | (_, v) :: rest =>
    (match v with
      | .nil => true
      | .iface d => NoMarshaler tagName d
      | e => NoMarshaler tagName e) && NoMarshalerEntries tagName rest
termination_by structural es => es
/-- NoMarshaler for the fields of a struct: the fields of the embedded structs
and the values of the kept named fields -/
def NoMarshalerFields (tagName : String) : List (StructField × Value) → Bool
  | [] => true
  | (f, v) :: rest =>
    (if f.Anonymous then
      match v with
      | .ptr _ (some (.struct _ fs)) | .struct _ fs => NoMarshalerFields tagName fs
      | _ => true
    else if kept ⟨tagName, false⟩ (f, v) then
      match v with
      | .nil => true
      | .iface d => NoMarshaler tagName d
      | e => NoMarshaler tagName e
    else true) && NoMarshalerFields tagName rest
termination_by structural fs => fs
end

/-- NoMarshaler for a storage position read with `Interface` -/
def NoMarshalerSlot (tagName : String) (v : Value) : Bool :=
  match v with
  | .nil => true
  | .iface d => NoMarshaler tagName d
  | e => NoMarshaler tagName e

/-- NoMarshaler for the value of an anonymous field -/
def NoMarshalerAnonymous (tagName : String) (v : Value) : Bool :=
  match v with
  | .ptr _ (some (.struct _ fs)) | .struct _ fs => NoMarshalerFields tagName fs
  | _ => true

/-- The two settings of the escape hatch agree on the three ways in which the
conversion reads a value -/
def HatchFree (tagName : String) (v : Value) : Prop :=
  (NoMarshaler tagName v = true →
    ConvertToValue ⟨tagName, true⟩ v = ConvertToValue ⟨tagName, false⟩ v) ∧
  (NoMarshalerSlot tagName v = true →
    convertInterface ⟨tagName, true⟩ false v = convertInterface ⟨tagName, false⟩ false v) ∧
  (NoMarshalerAnonymous tagName v = true →
    ∀ result, anonymousField ⟨tagName, true⟩ v result =
      anonymousField ⟨tagName, false⟩ v result)

mutual
/-- The value v with the custom-marshal capability taken from every type in
it: the same data, no flag set -/
def eraseCapability : Value → Value
  | .nil => .nil
  | .iface d => .iface (eraseCapability d)
  | .bool _ b => .bool false b
  | .int _ n => .int false n
  | .str _ s => .str false s
  | .chan _ a => .chan false a
  | .ptr _ none => .ptr false none
  | .ptr _ (some w) => .ptr false (some (eraseCapability w))
  | .array _ xs => .array false (eraseCapabilityList xs)
  | .slice _ none => .slice false none
  | .slice _ (some xs) => .slice false (some (eraseCapabilityList xs))
  | .map _ none => .map false none
  | .map _ (some es) => .map false (some (eraseCapabilityEntries es))
  | .struct _ fs => .struct false (eraseCapabilityFields fs)
termination_by structural v => v
/-- The function eraseCapability on the elements of an array or slice -/
def eraseCapabilityList : List Value → List Value
  | [] => []
  | x :: xs => eraseCapability x :: eraseCapabilityList xs
termination_by structural xs => xs
/-- The function eraseCapability on the values of a map -/
def eraseCapabilityEntries : List (Key × Value) → List (Key × Value)
  | [] => []
  | (k, v) :: rest => (k, eraseCapability v) :: eraseCapabilityEntries rest
termination_by structural es => es
/-- The function eraseCapability on the field values of a struct -/
def eraseCapabilityFields : List (StructField × Value) → List (StructField × Value)
  | [] => []
  | (f, v) :: rest => (f, eraseCapability v) :: eraseCapabilityFields rest
termination_by structural fs => fs
end

/-- With the escape hatch off, the conversion commutes with eraseCapability
on the three ways in which it reads a value -/
def CapabilityBlind (t : String) (v : Value) : Prop :=
  (ConvertToValue ⟨t, false⟩ (eraseCapability v) =
    (ConvertToValue ⟨t, false⟩ v).map eraseCapability) ∧
  (convertInterface ⟨t, false⟩ false (eraseCapability v) =
    (convertInterface ⟨t, false⟩ false v).map eraseCapability) ∧
  (∀ result, anonymousField ⟨t, false⟩ (eraseCapability v) (eraseCapabilityEntries result) =
    (anonymousField ⟨t, false⟩ v result).map eraseCapabilityEntries)

/-- An example struct whose only values with the custom-marshal capability sit
in fields that the conversion does not read: a field tagged `-`, an unexported
field and a zero omitempty field -/
def unreadCapability : Value :=
  Value.struct false
    [(taggedField "Name" "name", Value.str false "bob"),
     (taggedField "Skip" "-", Value.int true 2),
     (⟨"secret", "example", false, []⟩, Value.str true "s"),
     (taggedField "Age" "age,omitempty", Value.int true 0),
     (taggedField "Tags" "tags", Value.slice false (some [Value.iface (Value.int false 1)]))]

mutual
/-- Plain data, the intended shape of an output: nil, a boolean, number or
string, a map `map[string]interface{}` with string keys (distinct, as
in every Go map) and plain values, or a slice `[]interface{}`, nil or
not empty, of plain values.  With the escape hatch on, a value with the
custom-marshal capability also counts: it is passed through as it is. -/
def Plain (hatch : Bool) (o : Value) : Bool :=
  (hatch && o.isMarshaler) ||
  match o with
  | .nil => true
  | .bool _ _ => true
  | .int _ _ => true
  | .str _ _ => true
  | .map m (some es) => !m && PlainEntries hatch es && decide ((es.map Prod.fst).Nodup)
  | .slice m none => !m
  | .slice m (some xs) => !m && !xs.isEmpty && PlainElems hatch xs
  | _ => false
termination_by structural o
/-- Plain for the elements of an output slice: each one an interface holding
plain data -/
def PlainElems (hatch : Bool) : List Value → Bool
  | [] => true
  | x :: xs =>
    (match x with
      | .iface o => Plain hatch o
      | _ => false) && PlainElems hatch xs
termination_by structural xs => xs
/-- Plain for the entries of an output map: each key a string, each value an
interface holding plain data -/
def PlainEntries (hatch : Bool) : List (Key × Value) → Bool
  | [] => true
  | (k, v) :: rest =>
    (match k with
      | .str _ => true
      | _ => false) &&
    (match v with
      | .iface o => Plain hatch o
      | _ => false) && PlainEntries hatch rest
termination_by structural es => es
end

/-- Plain for a storage position of an output: an interface holding plain data -/
def PlainSlot (hatch : Bool) (v : Value) : Bool :=
  match v with
  | .iface o => Plain hatch o
  | _ => false

/-- The key of an output map is a string -/
def Key.isStr : Key → Bool
  | .str _ => true
  | _ => false

/-- The map under construction in convertFromMap and convertFromStructDeep is
plain: string keys, all distinct, and plain values -/
def PlainMap (hatch : Bool) (result : List (Key × Value)) : Prop :=
  PlainEntries hatch result = true ∧ (keysOf result).Nodup

/-- The slice under construction in convertFromSlice is plain: nil, or not
empty with plain elements -/
def PlainSlice (hatch : Bool) (result : Option (List Value)) : Prop :=
  match result with
  | none => True
  | some l => l ≠ [] ∧ PlainElems hatch l = true

mutual
/-- The conversion of p converts all of it: every pointer that it dereferences
points to a struct, map, slice, channel, boolean, number or string (not to
another pointer, an interface variable or an array), and every value that it
passes through is a boolean, number or string (or, with the hatch on, has the
custom-marshal capability).  An interface variable is a storage position, not
a dynamic value, so it is no argument of ConvertToValue. -/
def Flat (hatch : Bool) (tagName : String) (p : Value) : Bool :=
  (hatch && p.isMarshaler) ||
  match p with
  | .ptr _ (some (.struct _ fs)) | .struct _ fs => FlatFields hatch tagName fs
  | .ptr _ (some (.map _ (some es))) | .map _ (some es) => FlatEntries hatch tagName es
  | .ptr _ (some (.slice _ (some xs))) | .slice _ (some xs) => FlatElems hatch tagName xs
  | .ptr _ (some (.iface _)) | .iface _ => false
  | .ptr _ (some (.ptr _ _)) => false
  | .ptr _ (some (.array _ _)) | .array _ _ => false
  | _ => true
termination_by structural p
/-- Flat for the elements of a slice -/
def FlatElems (hatch : Bool) (tagName : String) : List Value → Bool
  | [] => true
  | x :: xs =>
    (match x with
      | .nil => false
      | .iface d => Flat hatch tagName d
      | e => Flat hatch tagName e) && FlatElems hatch tagName xs
termination_by structural xs => xs
/-- Flat for the values of a map -/
def FlatEntries (hatch : Bool) (tagName : String) : List (Key × Value) → Bool
  | [] => true
  | (_, v) :: rest =>
    (match v with
      | .nil => false
      | .iface d => Flat hatch tagName d
      | e => Flat hatch tagName e) && FlatEntries hatch tagName rest
termination_by structural es => es
/-- Flat for the fields of a struct: the fields of the embedded structs and
the values of the kept named fields -/
def FlatFields (hatch : Bool) (tagName : String) : List (StructField × Value) → Bool
  | [] => true
  | (f, v) :: rest =>
    (if f.Anonymous then
      match v with
      | .ptr _ (some (.struct _ fs)) | .struct _ fs => FlatFields hatch tagName fs
      | _ => true
    else if kept ⟨tagName, hatch⟩ (f, v) then
      match v with
      | .nil => false
      | .iface d => Flat hatch tagName d
      | e => Flat hatch tagName e
    else true) && FlatFields hatch tagName rest
termination_by structural fs => fs
end

/-- Flat for a storage position read with `Interface` -/
def FlatSlot (hatch : Bool) (tagName : String) (v : Value) : Bool :=
  match v with
  | .nil => false
  | .iface d => Flat hatch tagName d
  | e => Flat hatch tagName e

/-- Flat for the value of an anonymous field -/
def FlatAnonymous (hatch : Bool) (tagName : String) (v : Value) : Bool :=
  match v with
  | .ptr _ (some (.struct _ fs)) | .struct _ fs => FlatFields hatch tagName fs
  | _ => true

/-- Plain for a value that the escape hatch does not pass through -/
def PlainBody (hatch : Bool) (o : Value) : Bool :=
  match o with
  | .nil => true
  | .bool _ _ => true
  | .int _ _ => true
  | .str _ _ => true
  | .map m (some es) => !m && PlainEntries hatch es && decide ((es.map Prod.fst).Nodup)
  | .slice m none => !m
  | .slice m (some xs) => !m && !xs.isEmpty && PlainElems hatch xs
  | _ => false

/-- Flat for a value that the escape hatch does not pass through -/
def FlatBody (hatch : Bool) (tagName : String) (p : Value) : Bool :=
  match p with
  | .ptr _ (some (.struct _ fs)) | .struct _ fs => FlatFields hatch tagName fs
  | .ptr _ (some (.map _ (some es))) | .map _ (some es) => FlatEntries hatch tagName es
  | .ptr _ (some (.slice _ (some xs))) | .slice _ (some xs) => FlatElems hatch tagName xs
  | .ptr _ (some (.iface _)) | .iface _ => false
  | .ptr _ (some (.ptr _ _)) => false
  | .ptr _ (some (.array _ _)) | .array _ _ => false
  | _ => true

/-- Reconversion returns plain data unchanged, on the two ways in which the
conversion reads it -/
def Reconverts (config : conversionConfiguration) (v : Value) : Prop :=
  (Plain config.useMsgPack v = true → ConvertToValue config v = .ok v) ∧
  (∀ o, v = Value.iface o → Plain config.useMsgPack o = true →
    ConvertToValue config o = .ok o)

/-- The output of a conversion that converts all of its input is plain, on the
three ways in which the conversion reads a value -/
def ConvertsFully (hatch : Bool) (t : String) (v : Value) : Prop :=
  (Flat hatch t v = true →
    ∀ o, ConvertToValue ⟨t, hatch⟩ v = .ok o → Plain hatch o = true) ∧
  (FlatSlot hatch t v = true →
    ∀ o, convertInterface ⟨t, hatch⟩ false v = .ok o → Plain hatch o = true) ∧
  (FlatAnonymous hatch t v = true →
    ∀ acc r, anonymousField ⟨t, hatch⟩ v acc = .ok r → PlainMap hatch acc → PlainMap hatch r)

/-- The example `**Person`: a pointer to a pointer to the struct Person -/
def doublePointer : Value :=
  Value.ptr false (some (Value.ptr false (some (person "bob" 1))))

/-- The example `*Person`: a pointer to the struct Person -/
def singlePointer : Value := Value.ptr false (some (person "bob" 1))

/-- The example `[1]Person`: an array holding the struct Person -/
def structArray : Value := Value.array false [person "bob" 1]

/-- The example `*interface{}`: a pointer to an interface variable that
holds the struct Person -/
def interfacePointer : Value := Value.ptr false (some (Value.iface (person "bob" 1)))

/-- The example struct `Team{Owner *Person "fluent:owner"; Tags []string;
Attrs map[int]interface{}; *Inner}` with a non-nil owner, two tags,
one attribute holding a Person and a non-nil embedded Inner -/
def team : Value :=
  Value.struct false
    [(taggedField "Owner" "owner", Value.ptr false (some (person "bob" 1))),
     (⟨"Tags", "", false, []⟩,
       Value.slice false (some [Value.str false "a", Value.str false "b"])),
     (⟨"Attrs", "", false, []⟩,
       Value.map false (some [(Key.int 1, Value.iface (person "al" 0))])),
     (innerField [], Value.ptr false (some (Value.struct false innerFields)))]

/-! ## Helper lemmas: the Except monad -/

theorem ok_bind {α β : Type} (a : α) (f : α → Except Panic β) :
    (Except.ok a >>= f) = f a := rfl

theorem error_bind {α β : Type} (e : Panic) (f : α → Except Panic β) :
    ((Except.error e : Except Panic α) >>= f) = Except.error e := rfl

theorem pure_eq_ok {α : Type} (a : α) : (pure a : Except Panic α) = Except.ok a := rfl

theorem throw_eq_error {α : Type} (e : Panic) : (throw e : Except Panic α) = Except.error e := rfl

theorem map_ok {α β : Type} (g : α → β) (a : α) :
    Except.map g (Except.ok a : Except Panic α) = Except.ok (g a) := rfl

theorem map_error {α β : Type} (g : α → β) (e : Panic) :
    Except.map g (Except.error e : Except Panic α) = Except.error e := rfl

theorem bind_assoc_except {α β γ : Type} (x : Except Panic α) (f : α → Except Panic β)
    (g : β → Except Panic γ) : (x >>= f >>= g) = (x >>= fun a => f a >>= g) := by
  cases x <;> rfl

/-! ## Helper lemmas: tags -/

theorem splitComma_ne_nil (cs : List Char) : splitComma cs ≠ [] := by
  induction cs with
  | nil => simp [splitComma]
  | cons c cs ih =>
    unfold splitComma
    split
    · simp
    · split <;> simp

theorem splitTags_ok (tags : String) : ∃ name opts, splitTags tags = .ok (name, opts) := by
  unfold splitTags stringsSplit
  cases h : splitComma tags.data with
  | nil => exact absurd h (splitComma_ne_nil _)
  | cons seg segs => exact ⟨_, _, rfl⟩

theorem parseTag_ok (f : StructField) (tagName : String) :
    parseTag f tagName = .ok (tagNameOf f tagName, tagOptionsOf f tagName) := by
  obtain ⟨name, opts, h⟩ := splitTags_ok (getTagValues f tagName)
  have hp : parseTag f tagName = .ok (name, opts) := h
  simp [tagNameOf, tagOptionsOf, hp]

theorem getNameFromTag_eq (f : StructField) (tagName : String) :
    getNameFromTag f tagName =
      .ok (if tagNameOf f tagName ≠ "" then tagNameOf f tagName else f.Name) := by
  unfold getNameFromTag
  rw [parseTag_ok]
  by_cases h : tagNameOf f tagName = "" <;> simp [h, ok_bind, pure_eq_ok]

theorem getNameFromTag_ok (f : StructField) (tagName : String) :
    getNameFromTag f tagName = .ok (outputKey f tagName) := by
  simp [outputKey, getNameFromTag_eq]

theorem outputKey_eq (f : StructField) (tagName : String) :
    outputKey f tagName = if tagNameOf f tagName ≠ "" then tagNameOf f tagName else f.Name := by
  simp [outputKey, getNameFromTag_eq]

theorem isZero_valid (v : Value) (hv : v.IsValid = true) :
    isZero false v = .ok (isZeroValue v) := by
  cases v <;> first | (simp [Value.IsValid] at hv; done) | rfl

/-! ## Helper lemmas: one step of the struct loop -/

theorem structDeep_nil (config : conversionConfiguration) (result : List (Key × Value)) :
    convertFromStructDeep config [] result = .ok result := rfl

theorem structDeep_cons (config : conversionConfiguration) (f : StructField) (v : Value)
    (rest : List (StructField × Value)) (result : List (Key × Value)) :
    convertFromStructDeep config ((f, v) :: rest) result =
    (if f.PkgPath ≠ "" && !f.Anonymous then
      convertFromStructDeep config rest result
    else if f.Anonymous then
      match v with
      | .ptr _ (some (.struct _ fs)) | .struct _ fs => do
        let result ← convertFromStructDeep config fs result
        convertFromStructDeep config rest result
      | _ => convertFromStructDeep config rest result
    else do
      let (tag, opts) ← parseTag f config.tagName
      if tag = "-" then
        convertFromStructDeep config rest result
      else
        let ro := decide (f.PkgPath ≠ "")
        let skip ← if options.Has opts "omitempty" then isZero ro v else pure false
        if skip then
          convertFromStructDeep config rest result
        else
          let name ← getNameFromTag f config.tagName
          let o ←
            if ro then throw Panic.interfaceOnUnexported
            else match v with
              | .nil => throw Panic.interfaceOnZeroValue
              | .iface d => ConvertToValue config d
              | fv => ConvertToValue config fv
          convertFromStructDeep config rest
            (mapassign (Key.str name) (Value.iface o) result)) := by
  cases v with
  | ptr m e =>
    cases e with
    | none => rfl
    | some w => cases w <;> rfl
  | _ => rfl

theorem structDeep_step (config : conversionConfiguration) (f : StructField) (v : Value)
    (rest : List (StructField × Value)) (result : List (Key × Value)) :
    convertFromStructDeep config ((f, v) :: rest) result =
      fieldStep config f v result >>= convertFromStructDeep config rest := by
  rw [structDeep_cons]
  unfold fieldStep
  by_cases hf : f.Anonymous = true
  · simp only [hf]
    simp only [Bool.not_true, Bool.and_false, if_true]
    unfold anonymousField
    cases v with
    | ptr m e =>
      cases e with
      | none => rfl
      | some w => cases w <;> rfl
    | _ => rfl
  · have hf2 : f.Anonymous = false := by simpa using hf
    unfold namedField
    by_cases hp : f.PkgPath = ""
    · by_cases ht : tagNameOf f config.tagName = "-"
      · simp [hf2, hp, parseTag_ok, ht, ok_bind]
      · by_cases ho : options.Has (tagOptionsOf f config.tagName) "omitempty" = true
        · simp only [hf2, hp, parseTag_ok, ok_bind, ht, ho]
          simp only [ne_eq, not_true_eq_false, decide_False, Bool.not_false, Bool.and_true,
            Bool.false_eq_true, if_false, if_true]
          cases hz : isZero false v with
          | error e => rfl
          | ok b =>
            cases b
            · simp only [ok_bind, Bool.false_eq_true, if_false, getNameFromTag_ok]
              rw [bind_assoc_except]
              cases v <;> rfl
            · rfl
        · simp only [hf2, hp, parseTag_ok, ok_bind, ht, ho]
          simp only [ne_eq, not_true_eq_false, decide_False, Bool.not_false, Bool.and_true,
            Bool.false_eq_true, if_false, pure_eq_ok, ok_bind, getNameFromTag_ok]
          rw [bind_assoc_except]
          cases v <;> rfl
    · simp [hf2, hp, ok_bind]

theorem namedField_unexported (config : conversionConfiguration) (f : StructField) (v : Value)
    (result : List (Key × Value)) (hp : f.PkgPath ≠ "") :
    namedField config f v result = .ok result := by
  simp [namedField, hp]

theorem namedField_dash (config : conversionConfiguration) (f : StructField) (v : Value)
    (result : List (Key × Value)) (ht : tagNameOf f config.tagName = "-") :
    namedField config f v result = .ok result := by
  unfold namedField
  by_cases hp : f.PkgPath = "" <;> simp [hp, ht]

theorem kept_iff (config : conversionConfiguration) (f : StructField) (v : Value) :
    kept config (f, v) = true ↔
      f.PkgPath = "" ∧ tagNameOf f config.tagName ≠ "-" ∧
        ¬ (options.Has (tagOptionsOf f config.tagName) "omitempty" = true ∧
            isZeroValue v = true) := by
  simp only [kept, Bool.and_eq_true, decide_eq_true_eq, Bool.not_eq_true', Bool.and_eq_false_imp,
    ne_eq, decide_not, Bool.not_eq_true, and_assoc]
  cases options.Has (tagOptionsOf f config.tagName) "omitempty" <;>
    cases isZeroValue v <;> simp

theorem isZeroValue_iff (v : Value) : isZeroValue v = true ↔ isZero false v = .ok true := by
  unfold isZeroValue
  cases h : isZero false v with
  | error e => simp
  | ok b => cases b <;> simp

theorem valid_of_convertInterface (config : conversionConfiguration) (v o : Value)
    (h : convertInterface config false v = .ok o) : v.IsValid = true := by
  cases v <;> first | rfl | (exact absurd h (by intro h2; cases h2))

theorem namedField_kept (config : conversionConfiguration) (f : StructField) (v o : Value)
    (result : List (Key × Value)) (hk : kept config (f, v) = true)
    (ho : convertInterface config false v = .ok o) :
    namedField config f v result =
      .ok (mapassign (Key.str (outputKey f config.tagName)) (Value.iface o) result) := by
  have hv : v.IsValid = true := valid_of_convertInterface config v o ho
  obtain ⟨hp, ht, hz⟩ := (kept_iff config f v).1 hk
  unfold namedField
  rw [isZero_valid v hv, ho]
  by_cases hom : options.Has (tagOptionsOf f config.tagName) "omitempty" = true
  · have hzv : isZeroValue v = false := by
      cases hzz : isZeroValue v
      · rfl
      · exact absurd ⟨hom, hzz⟩ hz
    simp [hp, ht, hom, hzv, ok_bind]
  · simp [hp, ht, hom, ok_bind]

theorem namedField_skipped (config : conversionConfiguration) (f : StructField) (v : Value)
    (result : List (Key × Value)) (hk : kept config (f, v) = false) :
    namedField config f v result = .ok result := by
  unfold namedField
  by_cases hp : f.PkgPath = ""
  · by_cases ht : tagNameOf f config.tagName = "-"
    · simp [hp, ht]
    · have hz : options.Has (tagOptionsOf f config.tagName) "omitempty" = true ∧
          isZeroValue v = true := by
        simpa [kept, hp, ht] using hk
      rw [(isZeroValue_iff v).1 hz.2]
      simp [hp, ht, hz.1, ok_bind]
  · simp [hp]

/-! ## Helper lemmas: the struct loop on a whole field list -/

theorem structDeep_append (config : conversionConfiguration)
    (a b : List (StructField × Value)) (result : List (Key × Value)) :
    convertFromStructDeep config (a ++ b) result =
      convertFromStructDeep config a result >>= convertFromStructDeep config b := by
  induction a generalizing result with
  | nil => rfl
  | cons fv a ih =>
    obtain ⟨f, v⟩ := fv
    rw [List.cons_append, structDeep_step, structDeep_step, bind_assoc_except]
    cases fieldStep config f v result with
    | error e => rfl
    | ok r => exact ih r

theorem processed_cons (f : StructField) (v : Value) (rest : List (StructField × Value)) :
    processed ((f, v) :: rest) =
      if f.Anonymous then embedded v ++ processed rest else (f, v) :: processed rest := by
  rfl

theorem embedded_struct (m : Bool) (fs : List (StructField × Value)) :
    embedded (.struct m fs) = processed fs := rfl

theorem embedded_ptr_struct (m n : Bool) (fs : List (StructField × Value)) :
    embedded (.ptr m (some (.struct n fs))) = processed fs := rfl

mutual
theorem anonymousField_embedded (config : conversionConfiguration) :
    ∀ (v : Value) (result : List (Key × Value)),
      anonymousField config v result = convertFromStructDeep config (embedded v) result
  | .ptr _ (some (.struct _ fs)), result => by
    rw [embedded_ptr_struct, ← structDeep_processed config fs result]
    rfl
  | .struct _ fs, result => by
    rw [embedded_struct, ← structDeep_processed config fs result]
    rfl
  | .nil, _ => rfl
  | .iface _, _ => rfl
  | .bool _ _, _ => rfl
  | .int _ _, _ => rfl
  | .str _ _, _ => rfl
  | .chan _ _, _ => rfl
  | .array _ _, _ => rfl
  | .slice _ _, _ => rfl
  | .map _ _, _ => rfl
  | .ptr _ none, _ => rfl
  | .ptr _ (some .nil), _ => rfl
  | .ptr _ (some (.iface _)), _ => rfl
  | .ptr _ (some (.bool _ _)), _ => rfl
  | .ptr _ (some (.int _ _)), _ => rfl
  | .ptr _ (some (.str _ _)), _ => rfl
  | .ptr _ (some (.chan _ _)), _ => rfl
  | .ptr _ (some (.array _ _)), _ => rfl
  | .ptr _ (some (.slice _ _)), _ => rfl
  | .ptr _ (some (.map _ _)), _ => rfl
  | .ptr _ (some (.ptr _ _)), _ => rfl
termination_by structural v => v
theorem structDeep_processed (config : conversionConfiguration) :
    ∀ (fs : List (StructField × Value)) (result : List (Key × Value)),
      convertFromStructDeep config fs result =
        convertFromStructDeep config (processed fs) result
  | [], _ => rfl
  | (f, v) :: rest, result => by
    rw [processed_cons, structDeep_step]
    unfold fieldStep
    by_cases hf : f.Anonymous = true
    · simp only [hf, if_true]
      rw [anonymousField_embedded config v result, structDeep_append]
      cases convertFromStructDeep config (embedded v) result with
      | error e => rfl
      | ok r => exact structDeep_processed config rest r
    · have hf2 : f.Anonymous = false := by simpa using hf
      simp only [hf2, Bool.false_eq_true, if_false]
      rw [structDeep_step]
      unfold fieldStep
      simp only [hf2, Bool.false_eq_true, if_false]
      cases namedField config f v result with
      | error e => rfl
      | ok r => exact structDeep_processed config rest r
termination_by structural fs => fs
end

/-! ## Helper lemmas: map assignment -/

theorem goEq_eq (a b : Key) (ha : a ≠ Key.nan) : Key.goEq a b = decide (a = b) := by
  simp [Key.goEq, ha]

theorem goEq_true_iff (a b : Key) : Key.goEq a b = true ↔ a ≠ Key.nan ∧ a = b := by
  simp [Key.goEq]

theorem MapIndex_mapassign (k : Key) (hk : k ≠ Key.nan) (v : Value) (m : List (Key × Value))
    (q : Key) :
    MapIndex (mapassign k v m) q = if k = q then v else MapIndex m q := by
  induction m with
  | nil => simp [mapassign, MapIndex, goEq_eq k q hk]
  | cons e rest ih =>
    obtain ⟨k', v'⟩ := e
    by_cases h : Key.goEq k' k = true
    · obtain ⟨h1, h2⟩ := (goEq_true_iff k' k).1 h
      subst h2
      simp only [mapassign, MapIndex, h, goEq_eq k' q hk, if_true, decide_eq_true_eq]
      by_cases hq : k' = q <;> simp [hq]
    · simp only [mapassign, h, MapIndex, ih, if_false, Bool.false_eq_true]
      by_cases hq : Key.goEq k' q = true
      · obtain ⟨h1, h2⟩ := (goEq_true_iff k' q).1 hq
        subst h2
        have hne : k ≠ k' := by
          intro hkk
          apply h
          rw [goEq_true_iff]
          exact ⟨h1, hkk.symm⟩
        simp [hq, hne]
      · simp [hq]

theorem keysOf_mapassign (k : Key) (hk : k ≠ Key.nan) (v : Value) (m : List (Key × Value))
    (q : Key) :
    q ∈ keysOf (mapassign k v m) ↔ q = k ∨ q ∈ keysOf m := by
  induction m with
  | nil => simp [mapassign, keysOf]
  | cons e rest ih =>
    obtain ⟨k', v'⟩ := e
    by_cases h : Key.goEq k' k = true
    · obtain ⟨h1, h2⟩ := (goEq_true_iff k' k).1 h
      subst h2
      simp [mapassign, h, keysOf]
    · simp only [keysOf] at ih
      simp only [mapassign, h, keysOf, List.map_cons, List.mem_cons, ih, if_false,
        Bool.false_eq_true]
      tauto

theorem str_ne_nan (s : String) : Key.str s ≠ Key.nan := by
  intro h
  cases h

/-! ## Helper lemmas: the assignments of the struct loop -/

theorem convertedValue_eq (config : conversionConfiguration) (v o : Value)
    (h : convertInterface config false v = .ok o) : convertedValue config v = o := by
  simp [convertedValue, h]

theorem structDeep_assign (config : conversionConfiguration) (fs : List (StructField × Value))
    (hna : ∀ fv ∈ fs, fv.1.Anonymous = false) (hc : FieldsConvert config fs)
    (result : List (Key × Value)) :
    convertFromStructDeep config fs result = .ok (assignFields config fs result) := by
  induction fs generalizing result with
  | nil => rfl
  | cons fv rest ih =>
    obtain ⟨f, v⟩ := fv
    have hf : f.Anonymous = false := hna (f, v) (List.mem_cons_self _ _)
    have hfv := hc (f, v) (List.mem_cons_self _ _)
    have hrest : FieldsConvert config rest := fun gv hg => hc gv (List.mem_cons_of_mem _ hg)
    have hna2 : ∀ gv ∈ rest, gv.1.Anonymous = false :=
      fun gv hg => hna gv (List.mem_cons_of_mem _ hg)
    rw [structDeep_step]
    unfold fieldStep
    simp only [hf, Bool.false_eq_true, if_false]
    by_cases hk : kept config (f, v) = true
    · obtain ⟨o, ho⟩ := hfv hk
      rw [namedField_kept config f v o result hk ho]
      simp only [hk, if_true, ok_bind, assignFields, convertedValue_eq config v o ho]
      exact ih hna2 hrest _
    · have hk2 : kept config (f, v) = false := by simpa using hk
      rw [namedField_skipped config f v result hk2]
      simp only [hk, if_false, ok_bind, assignFields, Bool.false_eq_true]
      exact ih hna2 hrest _

theorem assignFields_append (config : conversionConfiguration)
    (a b : List (StructField × Value)) (result : List (Key × Value)) :
    assignFields config (a ++ b) result = assignFields config b (assignFields config a result) := by
  induction a generalizing result with
  | nil => rfl
  | cons fv a ih =>
    rw [List.cons_append]
    simp only [assignFields]
    exact ih _

theorem keysOf_assignFields (config : conversionConfiguration)
    (fs : List (StructField × Value)) (result : List (Key × Value)) (q : Key) :
    q ∈ keysOf (assignFields config fs result) ↔
      q ∈ keysOf result ∨
        ∃ fv ∈ fs, kept config fv = true ∧ q = Key.str (outputKey fv.1 config.tagName) := by
  induction fs generalizing result with
  | nil => simp [assignFields]
  | cons fv rest ih =>
    simp only [assignFields, ih, List.mem_cons, exists_eq_or_imp]
    by_cases hk : kept config fv = true
    · simp only [hk, if_true, keysOf_mapassign _ (str_ne_nan _), true_and]
      tauto
    · simp only [hk, if_false, Bool.false_eq_true, false_and, false_or]

theorem MapIndex_assignFields_other (config : conversionConfiguration)
    (fs : List (StructField × Value)) (result : List (Key × Value)) (q : Key)
    (h : ∀ fv ∈ fs, kept config fv = true → Key.str (outputKey fv.1 config.tagName) ≠ q) :
    MapIndex (assignFields config fs result) q = MapIndex result q := by
  induction fs generalizing result with
  | nil => rfl
  | cons fv rest ih =>
    have hrest : ∀ gv ∈ rest, kept config gv = true →
        Key.str (outputKey gv.1 config.tagName) ≠ q :=
      fun gv hg => h gv (List.mem_cons_of_mem _ hg)
    simp only [assignFields]
    rw [ih _ hrest]
    by_cases hk : kept config fv = true
    · simp only [hk, if_true, MapIndex_mapassign _ (str_ne_nan _)]
      simp [h fv (List.mem_cons_self _ _) hk]
    · simp only [hk, if_false, Bool.false_eq_true]

theorem MapIndex_assignFields_last (config : conversionConfiguration)
    (pre post : List (StructField × Value)) (fv : StructField × Value)
    (result : List (Key × Value)) (hk : kept config fv = true)
    (hlast : ∀ gv ∈ post, kept config gv = true →
      outputKey gv.1 config.tagName ≠ outputKey fv.1 config.tagName) :
    MapIndex (assignFields config (pre ++ fv :: post) result)
        (Key.str (outputKey fv.1 config.tagName)) =
      Value.iface (convertedValue config fv.2) := by
  rw [assignFields_append]
  simp only [assignFields, hk, if_true]
  rw [MapIndex_assignFields_other]
  · simp [MapIndex_mapassign _ (str_ne_nan _)]
  · intro gv hg hkg heq
    apply hlast gv hg hkg
    injection heq

/-! ## Helper lemmas: processing order -/

theorem processed_append (a b : List (StructField × Value)) :
    processed (a ++ b) = processed a ++ processed b := by
  induction a with
  | nil => rfl
  | cons fv a ih =>
    obtain ⟨f, v⟩ := fv
    rw [List.cons_append, processed_cons, processed_cons, ih]
    by_cases hf : f.Anonymous = true <;> simp [hf]

theorem processed_of_named (fs : List (StructField × Value))
    (hna : ∀ fv ∈ fs, fv.1.Anonymous = false) : processed fs = fs := by
  induction fs with
  | nil => rfl
  | cons fv rest ih =>
    obtain ⟨f, v⟩ := fv
    have hf : f.Anonymous = false := hna (f, v) (List.mem_cons_self _ _)
    rw [processed_cons, ih (fun gv hg => hna gv (List.mem_cons_of_mem _ hg))]
    simp [hf]

mutual
theorem embedded_named : ∀ (v : Value), ∀ fv ∈ embedded v, fv.1.Anonymous = false
  | .ptr _ (some (.struct _ fs)) => by
    rw [embedded_ptr_struct]
    exact processed_named fs
  | .struct _ fs => by
    rw [embedded_struct]
    exact processed_named fs
  | .nil => by intro fv h; cases h
  | .iface _ => by intro fv h; cases h
  | .bool _ _ => by intro fv h; cases h
  | .int _ _ => by intro fv h; cases h
  | .str _ _ => by intro fv h; cases h
  | .chan _ _ => by intro fv h; cases h
  | .array _ _ => by intro fv h; cases h
  | .slice _ _ => by intro fv h; cases h
  | .map _ _ => by intro fv h; cases h
  | .ptr _ none => by intro fv h; cases h
  | .ptr _ (some .nil) => by intro fv h; cases h
  | .ptr _ (some (.iface _)) => by intro fv h; cases h
  | .ptr _ (some (.bool _ _)) => by intro fv h; cases h
  | .ptr _ (some (.int _ _)) => by intro fv h; cases h
  | .ptr _ (some (.str _ _)) => by intro fv h; cases h
  | .ptr _ (some (.chan _ _)) => by intro fv h; cases h
  | .ptr _ (some (.array _ _)) => by intro fv h; cases h
  | .ptr _ (some (.slice _ _)) => by intro fv h; cases h
  | .ptr _ (some (.map _ _)) => by intro fv h; cases h
  | .ptr _ (some (.ptr _ _)) => by intro fv h; cases h
termination_by structural v => v
theorem processed_named : ∀ (fs : List (StructField × Value)),
    ∀ fv ∈ processed fs, fv.1.Anonymous = false
  | [] => by intro fv h; cases h
  | (f, v) :: rest => by
    intro fv h
    rw [processed_cons] at h
    by_cases hf : f.Anonymous = true
    · simp only [hf, if_true, List.mem_append] at h
      rcases h with h | h
      · exact embedded_named v fv h
      · exact processed_named rest fv h
    · have hf2 : f.Anonymous = false := by simpa using hf
      simp only [hf2, Bool.false_eq_true, if_false, List.mem_cons] at h
      rcases h with h | h
      · rw [h]; exact hf2
      · exact processed_named rest fv h
termination_by structural fs => fs
end

theorem exists_last_of_exists {α : Type} (p : α → Prop) (l : List α) (h : ∃ x ∈ l, p x) :
    ∃ pre x post, l = pre ++ x :: post ∧ p x ∧ ∀ y ∈ post, ¬ p y := by
  induction l with
  | nil => obtain ⟨x, hx, _⟩ := h; cases hx
  | cons a l ih =>
    by_cases ht : ∃ x ∈ l, p x
    · obtain ⟨pre, x, post, hl, hp, hpost⟩ := ih ht
      exact ⟨a :: pre, x, post, by rw [hl]; rfl, hp, hpost⟩
    · obtain ⟨x, hx, hpx⟩ := h
      rcases List.mem_cons.1 hx with hxa | hxl
      · subst hxa
        refine ⟨[], x, l, rfl, hpx, ?_⟩
        intro y hy hpy
        exact ht ⟨y, hy, hpy⟩
      · exact absurd ⟨x, hxl, hpx⟩ ht

/-! ## Helper lemmas: ConvertToValue on each kind -/

theorem ConvertToValue_marshaler (config : conversionConfiguration) (p : Value)
    (h : (config.useMsgPack && p.isMarshaler) = true) : ConvertToValue config p = .ok p := by
  unfold ConvertToValue
  simp only [h, if_true]

theorem ConvertToValue_struct (config : conversionConfiguration) (m : Bool)
    (fs : List (StructField × Value)) (h : (config.useMsgPack && m) = false) :
    ConvertToValue config (.struct m fs) =
      (convertFromStructDeep config fs []).map
        (fun result => Value.map false (some result)) := by
  unfold ConvertToValue
  simp only [Value.isMarshaler, h, Bool.false_eq_true, if_false]

theorem ConvertToValue_slice (config : conversionConfiguration) (m : Bool)
    (xs : Option (List Value)) (h : (config.useMsgPack && m) = false) :
    ConvertToValue config (.slice m xs) = convertFromSlice config xs := by
  unfold ConvertToValue
  simp only [Value.isMarshaler, h, Bool.false_eq_true, if_false]

theorem ConvertToValue_map (config : conversionConfiguration) (m : Bool)
    (es : Option (List (Key × Value))) (h : (config.useMsgPack && m) = false) :
    ConvertToValue config (.map m es) = convertFromMap config es := by
  unfold ConvertToValue
  simp only [Value.isMarshaler, h, Bool.false_eq_true, if_false]

theorem ConvertToValue_eq_switch (config : conversionConfiguration) (p : Value) :
    ConvertToValue config p =
      if config.useMsgPack && p.isMarshaler then .ok p else kindSwitch config (toValue p) := by
  unfold ConvertToValue
  by_cases h : (config.useMsgPack && p.isMarshaler) = true
  · simp only [h, if_true]
  · simp only [h, if_false]
    cases p with
    | ptr m e =>
      cases e with
      | none => rfl
      | some w => cases w <;> rfl
    | _ => rfl

theorem convertFromStruct_struct (config : conversionConfiguration) (m : Bool)
    (fs : List (StructField × Value)) :
    convertFromStruct (.struct m fs) config =
      (convertFromStructDeep config fs []).map
        (fun result => Value.map false (some result)) := rfl

theorem FieldsConvert_nil (config : conversionConfiguration) : FieldsConvert config [] := by
  intro fv h
  cases h

theorem FieldsConvert_cons (config : conversionConfiguration) (fv : StructField × Value)
    (rest : List (StructField × Value)) :
    FieldsConvert config (fv :: rest) ↔
      (kept config fv = true → ∃ o, convertInterface config false fv.2 = .ok o) ∧
      FieldsConvert config rest := by
  simp [FieldsConvert]

theorem FieldsConvert_append (config : conversionConfiguration)
    (a b : List (StructField × Value)) :
    FieldsConvert config (a ++ b) ↔ FieldsConvert config a ∧ FieldsConvert config b := by
  simp only [FieldsConvert, List.mem_append]
  constructor
  · intro h
    exact ⟨fun fv hf => h fv (Or.inl hf), fun fv hf => h fv (Or.inr hf)⟩
  · rintro ⟨h1, h2⟩ fv (hf | hf)
    · exact h1 fv hf
    · exact h2 fv hf

theorem struct_output (config : conversionConfiguration) (m : Bool)
    (fs : List (StructField × Value)) (hoff : (config.useMsgPack && m) = false)
    (hc : FieldsConvert config (processed fs)) :
    ConvertToValue config (.struct m fs) =
      .ok (Value.map false (some (assignFields config (processed fs) []))) := by
  rw [ConvertToValue_struct config m fs hoff, structDeep_processed,
    structDeep_assign config (processed fs) (processed_named fs) hc]
  rfl

theorem structDeep_congr_suffix (config : conversionConfiguration)
    (pre a b : List (StructField × Value))
    (h : ∀ result, convertFromStructDeep config a result = convertFromStructDeep config b result)
    (result : List (Key × Value)) :
    convertFromStructDeep config (pre ++ a) result =
      convertFromStructDeep config (pre ++ b) result := by
  rw [structDeep_append, structDeep_append]
  cases convertFromStructDeep config pre result with
  | error e => rfl
  | ok r => exact h r

theorem structDeep_inline (config : conversionConfiguration) (f : StructField) (v : Value)
    (n p : Bool) (es post : List (StructField × Value)) (hf : f.Anonymous = true)
    (hv : v = Value.struct n es ∨ v = Value.ptr p (some (Value.struct n es)))
    (result : List (Key × Value)) :
    convertFromStructDeep config ((f, v) :: post) result =
      convertFromStructDeep config (es ++ post) result := by
  rw [structDeep_step, structDeep_append]
  unfold fieldStep
  simp only [hf, if_true]
  rcases hv with hv | hv <;> subst hv <;> rfl

theorem structDeep_drop (config : conversionConfiguration) (f : StructField) (v : Value)
    (post : List (StructField × Value)) (hf : f.Anonymous = false)
    (ht : tagNameOf f config.tagName = "-") (result : List (Key × Value)) :
    convertFromStructDeep config ((f, v) :: post) result =
      convertFromStructDeep config post result := by
  rw [structDeep_step]
  unfold fieldStep
  simp only [hf, Bool.false_eq_true, if_false, namedField_dash config f v result ht, ok_bind]

theorem structDeep_retag (config : conversionConfiguration) (f : StructField) (v : Value)
    (tag : List (String × String)) (post : List (StructField × Value))
    (hf : f.Anonymous = true) (result : List (Key × Value)) :
    convertFromStructDeep config ((f, v) :: post) result =
      convertFromStructDeep config ((⟨f.Name, f.PkgPath, f.Anonymous, tag⟩, v) :: post)
        result := by
  rw [structDeep_step, structDeep_step]
  unfold fieldStep
  simp only [hf, if_true]

theorem flatten_congr (config : conversionConfiguration) (m : Bool)
    (a b : List (StructField × Value))
    (h : convertFromStructDeep config a [] = convertFromStructDeep config b []) :
    convertFromStruct (.struct m a) config = convertFromStruct (.struct m b) config ∧
    ((config.useMsgPack && m) = false →
      ConvertToValue config (.struct m a) = ConvertToValue config (.struct m b)) := by
  refine ⟨?_, fun hoff => ?_⟩
  · rw [convertFromStruct_struct, convertFromStruct_struct, h]
  · rw [ConvertToValue_struct config m a hoff, ConvertToValue_struct config m b hoff, h]

/-! ## Helper lemmas: the slice loop and the map loop -/

theorem sliceLoop_step (config : conversionConfiguration) (x : Value) (xs : List Value)
    (result : Option (List Value)) :
    convertFromSliceLoop config (x :: xs) result =
      convertInterface config false x >>= fun o =>
        convertFromSliceLoop config xs (sliceAppend result (Value.iface o)) := by
  cases x <;> rfl

theorem sliceLoop_eq (config : conversionConfiguration) (xs : List Value)
    (h : ∀ x ∈ xs, ∃ o, convertInterface config false x = .ok o)
    (result : Option (List Value)) :
    convertFromSliceLoop config xs result =
      .ok (Value.slice false
        (if xs.isEmpty then result
          else some (result.getD [] ++
            xs.map (fun x => Value.iface (convertedValue config x))))) := by
  induction xs generalizing result with
  | nil => rfl
  | cons x xs ih =>
    obtain ⟨o, ho⟩ := h x (List.mem_cons_self _ _)
    rw [sliceLoop_step, ho, ok_bind, ih (fun y hy => h y (List.mem_cons_of_mem _ hy))]
    cases xs with
    | nil => simp [sliceAppend, convertedValue_eq config x o ho]
    | cons y ys => simp [sliceAppend, convertedValue_eq config x o ho]

theorem mapLoop_step (config : conversionConfiguration) (k : Key) (v : Value)
    (rest result : List (Key × Value)) :
    convertFromMapLoop config ((k, v) :: rest) result =
      convertInterface config false (entryValue (k, v)) >>= fun o =>
        convertFromMapLoop config rest
          (mapassign (Key.str (Sprint k)) (Value.iface o) result) := by
  cases k <;> cases v <;> rfl

theorem mapLoop_eq (config : conversionConfiguration) (es : List (Key × Value))
    (h : ∀ e ∈ es, ∃ o, convertInterface config false (entryValue e) = .ok o)
    (result : List (Key × Value)) :
    convertFromMapLoop config es result = .ok (assignEntries config es result) := by
  induction es generalizing result with
  | nil => rfl
  | cons e es ih =>
    obtain ⟨k, v⟩ := e
    obtain ⟨o, ho⟩ := h (k, v) (List.mem_cons_self _ _)
    rw [mapLoop_step, ho, ok_bind, ih (fun y hy => h y (List.mem_cons_of_mem _ hy))]
    simp only [assignEntries, convertedValue_eq config _ o ho]

theorem keysOf_assignEntries (config : conversionConfiguration) (es : List (Key × Value))
    (result : List (Key × Value)) (q : Key) :
    q ∈ keysOf (assignEntries config es result) ↔
      q ∈ keysOf result ∨ ∃ e ∈ es, q = Key.str (Sprint e.1) := by
  induction es generalizing result with
  | nil => simp [assignEntries]
  | cons e rest ih =>
    simp only [assignEntries, ih, List.mem_cons, exists_eq_or_imp,
      keysOf_mapassign _ (str_ne_nan _)]
    tauto

theorem MapIndex_assignEntries (config : conversionConfiguration) (es : List (Key × Value))
    (result : List (Key × Value)) (q : Key) (val : Value)
    (hval : ∀ e ∈ es, Key.str (Sprint e.1) = q →
      Value.iface (convertedValue config (entryValue e)) = val)
    (hex : (∃ e ∈ es, Key.str (Sprint e.1) = q) ∨ MapIndex result q = val) :
    MapIndex (assignEntries config es result) q = val := by
  induction es generalizing result with
  | nil =>
    rcases hex with ⟨e, he, _⟩ | h
    · cases he
    · exact h
  | cons e rest ih =>
    simp only [assignEntries]
    apply ih _ (fun e' he' => hval e' (List.mem_cons_of_mem _ he'))
    rw [MapIndex_mapassign _ (str_ne_nan _)]
    by_cases hk : Key.str (Sprint e.1) = q
    · right
      simp only [hk, if_true]
      exact hval e (List.mem_cons_self _ _) hk
    · simp only [hk, if_false]
      rcases hex with ⟨e', he', hq⟩ | h
      · rcases List.mem_cons.1 he' with h1 | h1
        · subst h1
          exact absurd hq hk
        · exact Or.inl ⟨e', h1, hq⟩
      · exact Or.inr h

theorem MapIndex_assignEntries_none (config : conversionConfiguration)
    (es : List (Key × Value)) (result : List (Key × Value)) (q : Key)
    (h : ∀ e ∈ es, Key.str (Sprint e.1) ≠ q) :
    MapIndex (assignEntries config es result) q = MapIndex result q :=
  MapIndex_assignEntries config es result q _
    (fun e he hq => absurd hq (h e he)) (Or.inr rfl)

/-! ## The claims -/

/-- C1. For a struct value without anonymous fields that the escape hatch does
not pass through (in particular whenever useMsgPack is off), and whose field
values can be converted, ConvertToValue returns a map whose key set is exactly
the set of names (tag name if non-empty, else field name) of the exported
fields whose tag name is not "-" and which are not both tagged omitempty and
zero.  Unexported fields contribute no key. -/
theorem C1_struct_key_set (config : conversionConfiguration) (m : Bool)
    (fs : List (StructField × Value))
    (hoff : (config.useMsgPack && m) = false)
    (hna : ∀ fv ∈ fs, fv.1.Anonymous = false)
    (hc : FieldsConvert config fs) :
    ∃ out, ConvertToValue config (.struct m fs) = .ok (Value.map false (some out)) ∧
      ∀ k : Key, k ∈ keysOf out ↔
        ∃ f v, (f, v) ∈ fs ∧ f.PkgPath = "" ∧ tagNameOf f config.tagName ≠ "-" ∧
          ¬ (options.Has (tagOptionsOf f config.tagName) "omitempty" = true ∧
              isZero false v = .ok true) ∧
          k = Key.str (if tagNameOf f config.tagName ≠ "" then tagNameOf f config.tagName
                        else f.Name) := by
  have hp : processed fs = fs := processed_of_named fs hna
  have hc2 : FieldsConvert config (processed fs) := by rw [hp]; exact hc
  refine ⟨assignFields config fs [], ?_, ?_⟩
  · rw [struct_output config m fs hoff hc2, hp]
  · intro k
    rw [keysOf_assignFields]
    constructor
    · rintro (h | ⟨⟨f, v⟩, hmem, hk, hkey⟩)
      · cases h
      · obtain ⟨h1, h2, h3⟩ := (kept_iff config f v).1 hk
        refine ⟨f, v, hmem, h1, h2, ?_, ?_⟩
        · intro ⟨ho, hz⟩
          exact h3 ⟨ho, (isZeroValue_iff v).2 hz⟩
        · rw [hkey, outputKey_eq]
    · rintro ⟨f, v, hmem, h1, h2, h3, hkey⟩
      right
      refine ⟨(f, v), hmem, ?_, ?_⟩
      · rw [kept_iff]
        refine ⟨h1, h2, ?_⟩
        intro ⟨ho, hz⟩
        exact h3 ⟨ho, (isZeroValue_iff v).1 hz⟩
      · rw [hkey, outputKey_eq]

/-- Witness of C1 on the example struct with a tagged, an unexported, a "-"
tagged, an omitempty and an untagged field -/
theorem C1_struct_key_set_witness :
    (fluentConfig.useMsgPack && false) = false ∧
    (∀ fv ∈ recordFields, fv.1.Anonymous = false) ∧
    FieldsConvert fluentConfig recordFields ∧
    ∃ out, ConvertToValue fluentConfig (.struct false recordFields) =
        .ok (Value.map false (some out)) ∧
      ∀ k : Key, k ∈ keysOf out ↔
        ∃ f v, (f, v) ∈ recordFields ∧ f.PkgPath = "" ∧
          tagNameOf f fluentConfig.tagName ≠ "-" ∧
          ¬ (options.Has (tagOptionsOf f fluentConfig.tagName) "omitempty" = true ∧
              isZero false v = .ok true) ∧
          k = Key.str (if tagNameOf f fluentConfig.tagName ≠ ""
                        then tagNameOf f fluentConfig.tagName else f.Name) :=
  have hc : FieldsConvert fluentConfig recordFields :=
    (FieldsConvert_cons _ _ _).2 ⟨fun _ => ⟨_, rfl⟩,
    (FieldsConvert_cons _ _ _).2 ⟨fun _ => ⟨_, rfl⟩,
    (FieldsConvert_cons _ _ _).2 ⟨fun _ => ⟨_, rfl⟩,
    (FieldsConvert_cons _ _ _).2 ⟨fun _ => ⟨_, rfl⟩,
    (FieldsConvert_cons _ _ _).2 ⟨fun _ => ⟨_, rfl⟩, FieldsConvert_nil _⟩⟩⟩⟩⟩
  ⟨rfl, by decide, hc, C1_struct_key_set fluentConfig false recordFields rfl (by decide) hc⟩

/-- C2. In a struct that the escape hatch does not pass through, let f be an
exported named field tagged omitempty whose tag name is not "-", no other
processed field resolving to the output key of f, and let the nested
conversions return.  Then the key of f is absent from the output exactly when
isZero holds of the value of f (the value equals the zero value of its type),
and otherwise the output maps the key to ConvertToValue of the value of f.
On the Person example, Age 0 gives the map with the single key "name" and
Age 5 gives the keys "name" and "age", the latter holding 5. -/
theorem C2_omitempty (config : conversionConfiguration) (m : Bool)
    (pre post : List (StructField × Value)) (f : StructField) (v : Value)
    (hoff : (config.useMsgPack && m) = false)
    (hf : f.Anonymous = false) (hp : f.PkgPath = "")
    (hopt : options.Has (tagOptionsOf f config.tagName) "omitempty" = true)
    (hname : tagNameOf f config.tagName ≠ "-")
    (hother : ∀ gv ∈ processed pre ++ processed post,
      outputKey gv.1 config.tagName ≠ outputKey f config.tagName)
    (hc : FieldsConvert config (processed (pre ++ (f, v) :: post))) :
    (∃ out, ConvertToValue config (.struct m (pre ++ (f, v) :: post)) =
        .ok (Value.map false (some out)) ∧
      (Key.str (outputKey f config.tagName) ∉ keysOf out ↔ isZero false v = .ok true) ∧
      (isZero false v = .ok false →
        ∃ o, convertInterface config false v = .ok o ∧
          MapIndex out (Key.str (outputKey f config.tagName)) = Value.iface o)) ∧
    (∀ name : String, ConvertToValue fluentConfig (person name 0) =
      .ok (Value.map false (some [(Key.str "name", Value.iface (Value.str false name))]))) ∧
    (∀ name : String, ConvertToValue fluentConfig (person name 5) =
      .ok (Value.map false (some [(Key.str "name", Value.iface (Value.str false name)),
        (Key.str "age", Value.iface (Value.int false 5))]))) := by
  refine ⟨?_, fun _ => rfl, fun _ => rfl⟩
  have hpr : processed (pre ++ (f, v) :: post) = processed pre ++ (f, v) :: processed post := by
    rw [processed_append, processed_cons]
    simp [hf]
  have hfv := hc (f, v) (by rw [hpr]; simp)
  refine ⟨assignFields config (processed pre ++ (f, v) :: processed post) [], ?_, ?_, ?_⟩
  · rw [struct_output config m _ hoff hc, hpr]
  · rw [keysOf_assignFields, ← isZeroValue_iff]
    constructor
    · intro hnot
      by_contra hne
      apply hnot
      right
      refine ⟨(f, v), by simp, ?_, rfl⟩
      rw [kept_iff]
      exact ⟨hp, hname, fun h => hne h.2⟩
    · intro hzv
      rintro (h | ⟨gv, hmem, hk, hkey⟩)
      · cases h
      · have hkey2 : outputKey f config.tagName = outputKey gv.1 config.tagName := by
          injection hkey
        rcases List.mem_append.1 hmem with hg | hg
        · exact hother gv (List.mem_append.2 (Or.inl hg)) hkey2.symm
        · rcases List.mem_cons.1 hg with hg | hg
          · subst hg
            have := (kept_iff config f v).1 hk
            exact this.2.2 ⟨hopt, hzv⟩
          · exact hother gv (List.mem_append.2 (Or.inr hg)) hkey2.symm
  · intro hzf
    have hk : kept config (f, v) = true := by
      rw [kept_iff]
      refine ⟨hp, hname, ?_⟩
      intro ⟨_, h⟩
      rw [(isZeroValue_iff v).1 h] at hzf
      cases hzf
    obtain ⟨o, ho⟩ := hfv hk
    refine ⟨o, ho, ?_⟩
    have := MapIndex_assignFields_last config (processed pre) (processed post) (f, v) [] hk
      (fun gv hg _ => hother gv (List.mem_append.2 (Or.inr hg)))
    rw [this, convertedValue_eq config v o ho]

/-- Witness of C2 on the Person example with Age 5 -/
theorem C2_omitempty_witness :
    (fluentConfig.useMsgPack && false) = false ∧
    (taggedField "Age" "age,omitempty").Anonymous = false ∧
    (taggedField "Age" "age,omitempty").PkgPath = "" ∧
    options.Has (tagOptionsOf (taggedField "Age" "age,omitempty") fluentConfig.tagName)
      "omitempty" = true ∧
    tagNameOf (taggedField "Age" "age,omitempty") fluentConfig.tagName ≠ "-" ∧
    (∃ out, ConvertToValue fluentConfig (person "bob" 5) = .ok (Value.map false (some out)) ∧
      (Key.str "age" ∉ keysOf out ↔ isZero false (Value.int false 5) = .ok true) ∧
      (isZero false (Value.int false 5) = .ok false →
        ∃ o, convertInterface fluentConfig false (Value.int false 5) = .ok o ∧
          MapIndex out (Key.str "age") = Value.iface o)) :=
  ⟨rfl, rfl, rfl, rfl, by decide,
    (C2_omitempty fluentConfig false [(taggedField "Name" "name", Value.str false "bob")] []
      (taggedField "Age" "age,omitempty") (Value.int false 5) rfl rfl rfl rfl (by decide)
      (by
        intro gv hg
        have hg2 : gv ∈ [(taggedField "Name" "name", Value.str false "bob")] := hg
        rw [List.mem_singleton.1 hg2]
        decide)
      ((FieldsConvert_cons _ _ _).2 ⟨fun _ => ⟨_, rfl⟩,
        (FieldsConvert_cons _ _ _).2 ⟨fun _ => ⟨_, rfl⟩, FieldsConvert_nil _⟩⟩)).1⟩

/-- C3. Embedding is inlining: when the anonymous field f of a struct holds a
struct E, directly or through one non-nil pointer, flattening the struct
(convertFromStruct, and ConvertToValue whenever the escape hatch does not pass
the struct through) gives the same result as flattening the struct in which
the anonymous field is replaced, in place, by the fields of E in declaration
order.  The struct on the right has no field of its own for E, so no key of
the output holds a mapping for E. -/
theorem C3_embedding_is_inlining (config : conversionConfiguration) (m n p : Bool)
    (pre post es : List (StructField × Value)) (f : StructField) (v : Value)
    (hf : f.Anonymous = true)
    (hv : v = Value.struct n es ∨ v = Value.ptr p (some (Value.struct n es))) :
    convertFromStruct (.struct m (pre ++ (f, v) :: post)) config =
      convertFromStruct (.struct m (pre ++ (es ++ post))) config ∧
    ((config.useMsgPack && m) = false →
      ConvertToValue config (.struct m (pre ++ (f, v) :: post)) =
        ConvertToValue config (.struct m (pre ++ (es ++ post)))) :=
  flatten_congr config m _ _
    (structDeep_congr_suffix config pre _ _ (structDeep_inline config f v n p es post hf hv) [])

/-- Witness of C3 on a struct that embeds `*Inner` between two copies of the
example fields -/
theorem C3_embedding_is_inlining_witness :
    (innerField []).Anonymous = true ∧
    (Value.ptr false (some (Value.struct false innerFields)) = Value.struct false innerFields ∨
      Value.ptr false (some (Value.struct false innerFields)) =
        Value.ptr false (some (Value.struct false innerFields))) ∧
    (convertFromStruct
        (.struct false (recordFields ++
          (innerField [], Value.ptr false (some (Value.struct false innerFields))) ::
            recordFields)) fluentConfig =
      convertFromStruct (.struct false (recordFields ++ (innerFields ++ recordFields)))
        fluentConfig ∧
    ((fluentConfig.useMsgPack && false) = false →
      ConvertToValue fluentConfig
        (.struct false (recordFields ++
          (innerField [], Value.ptr false (some (Value.struct false innerFields))) ::
            recordFields)) =
      ConvertToValue fluentConfig
        (.struct false (recordFields ++ (innerFields ++ recordFields))))) :=
  ⟨rfl, Or.inr rfl,
    C3_embedding_is_inlining fluentConfig false false false recordFields recordFields
      innerFields (innerField []) _ rfl (Or.inr rfl)⟩

/-- C4. Last write wins.  For a struct that the escape hatch does not pass
through and whose nested conversions return, ConvertToValue returns a map in
which every key is the output key of a kept field that is the last one, in
processing order, among the kept fields resolving to that key; and for every
such last kept field the map holds, under its key, ConvertToValue of the value
of that field. -/
theorem C4_last_write_wins (config : conversionConfiguration) (m : Bool)
    (fs : List (StructField × Value))
    (hoff : (config.useMsgPack && m) = false)
    (hc : FieldsConvert config (processed fs)) :
    ∃ out, ConvertToValue config (.struct m fs) = .ok (Value.map false (some out)) ∧
      (∀ k ∈ keysOf out, ∃ pre f v post,
        processed fs = pre ++ (f, v) :: post ∧ kept config (f, v) = true ∧
        k = Key.str (outputKey f config.tagName) ∧
        ∀ gv ∈ post, kept config gv = true →
          outputKey gv.1 config.tagName ≠ outputKey f config.tagName) ∧
      (∀ pre f v post,
        processed fs = pre ++ (f, v) :: post → kept config (f, v) = true →
        (∀ gv ∈ post, kept config gv = true →
          outputKey gv.1 config.tagName ≠ outputKey f config.tagName) →
        ∃ o, convertInterface config false v = .ok o ∧
          MapIndex out (Key.str (outputKey f config.tagName)) = Value.iface o) := by
  refine ⟨assignFields config (processed fs) [], struct_output config m fs hoff hc, ?_, ?_⟩
  · intro k hk
    rw [keysOf_assignFields] at hk
    rcases hk with hk | hk
    · cases hk
    · obtain ⟨pre, ⟨f, v⟩, post, hl, ⟨hkept, hkey⟩, hpost⟩ :=
        exists_last_of_exists
          (fun fv => kept config fv = true ∧ k = Key.str (outputKey fv.1 config.tagName))
          (processed fs) hk
      refine ⟨pre, f, v, post, hl, hkept, hkey, ?_⟩
      intro gv hg hkg heq
      apply hpost gv hg
      refine ⟨hkg, ?_⟩
      rw [hkey, heq]
  · intro pre f v post hl hkept hlast
    have hmem : (f, v) ∈ processed fs := by rw [hl]; simp
    obtain ⟨o, ho⟩ := hc (f, v) hmem hkept
    refine ⟨o, ho, ?_⟩
    rw [hl, MapIndex_assignFields_last config pre post (f, v) [] hkept hlast,
      convertedValue_eq config v o ho]

/-- Witness of C4 on `Outer{Name; Inner}` with `Inner{Name}` -/
theorem C4_last_write_wins_witness :
    (fluentConfig.useMsgPack && false) = false ∧
    FieldsConvert fluentConfig
      (processed [(⟨"Name", "", false, []⟩, Value.str false "own"),
        (innerField [],
          Value.struct false [(⟨"Name", "", false, []⟩, Value.str false "inner")])]) ∧
    ∃ out, ConvertToValue fluentConfig (outerFirst "own" "inner") =
        .ok (Value.map false (some out)) ∧
      (∀ k ∈ keysOf out, ∃ pre f v post,
        processed [(⟨"Name", "", false, []⟩, Value.str false "own"),
          (innerField [],
            Value.struct false [(⟨"Name", "", false, []⟩, Value.str false "inner")])] =
          pre ++ (f, v) :: post ∧ kept fluentConfig (f, v) = true ∧
        k = Key.str (outputKey f fluentConfig.tagName) ∧
        ∀ gv ∈ post, kept fluentConfig gv = true →
          outputKey gv.1 fluentConfig.tagName ≠ outputKey f fluentConfig.tagName) ∧
      (∀ pre f v post,
        processed [(⟨"Name", "", false, []⟩, Value.str false "own"),
          (innerField [],
            Value.struct false [(⟨"Name", "", false, []⟩, Value.str false "inner")])] =
          pre ++ (f, v) :: post → kept fluentConfig (f, v) = true →
        (∀ gv ∈ post, kept fluentConfig gv = true →
          outputKey gv.1 fluentConfig.tagName ≠ outputKey f fluentConfig.tagName) →
        ∃ o, convertInterface fluentConfig false v = .ok o ∧
          MapIndex out (Key.str (outputKey f fluentConfig.tagName)) = Value.iface o) :=
  have hc : FieldsConvert fluentConfig
      (processed [(⟨"Name", "", false, []⟩, Value.str false "own"),
        (innerField [],
          Value.struct false [(⟨"Name", "", false, []⟩, Value.str false "inner")])]) :=
    (FieldsConvert_cons _ _ _).2 ⟨fun _ => ⟨_, rfl⟩,
    (FieldsConvert_cons _ _ _).2 ⟨fun _ => ⟨_, rfl⟩, FieldsConvert_nil _⟩⟩
  ⟨rfl, hc, C4_last_write_wins fluentConfig false _ rfl hc⟩

/-- C5, as stated, fails: in `Outer{Name string; Inner}` with
`Inner{Name string}` both Name fields are exported, kept and resolve to the
key "Name", yet the output maps "Name" to the value of the embedded struct's
field, not to the value of the outer struct's own field. -/
theorem C5_counterexample :
    kept fluentConfig (⟨"Name", "", false, []⟩, Value.str false "own") = true ∧
    kept fluentConfig (⟨"Name", "", false, []⟩, Value.str false "inner") = true ∧
    outputKey ⟨"Name", "", false, []⟩ fluentConfig.tagName = "Name" ∧
    convertInterface fluentConfig false (Value.str false "own") = .ok (Value.str false "own") ∧
    ConvertToValue fluentConfig (outerFirst "own" "inner") =
      .ok (Value.map false (some [(Key.str "Name", Value.iface (Value.str false "inner"))])) ∧
    MapIndex [(Key.str "Name", Value.iface (Value.str false "inner"))] (Key.str "Name") ≠
      Value.iface (Value.str false "own") := by
  refine ⟨rfl, rfl, rfl, rfl, rfl, ?_⟩
  rw [show MapIndex [(Key.str "Name", Value.iface (Value.str false "inner"))] (Key.str "Name") =
    Value.iface (Value.str false "inner") from rfl]
  simp

/-- C5, amended.  Let a struct that the escape hatch does not pass through
embed a struct E (anonymous field e, held directly or through one non-nil
pointer) and declare its own named field f, where f and a field g of E are
both kept and resolve to the same output key, and let the nested conversions
return.  The output is one flat map in which that key holds the conversion of
the field processed last.  If f is declared after e and no kept field after f
resolves to the key, it holds the conversion of the value of f.  If f is
declared before e and no kept field after g (in E or after e) resolves to the
key, it holds the conversion of the value of g. -/
theorem C5_later_field_wins (config : conversionConfiguration) (m n p : Bool)
    (pre mid post es epre epost : List (StructField × Value))
    (e f g : StructField) (ev v w : Value)
    (hoff : (config.useMsgPack && m) = false)
    (he : e.Anonymous = true)
    (hev : ev = Value.struct n es ∨ ev = Value.ptr p (some (Value.struct n es)))
    (hes : processed es = epre ++ (g, w) :: epost)
    (hf : f.Anonymous = false)
    (hkf : kept config (f, v) = true) (hkg : kept config (g, w) = true)
    (hkey : outputKey g config.tagName = outputKey f config.tagName)
    (hc : FieldsConvert config
      (processed pre ++ (processed es ++ (processed mid ++ (f, v) :: processed post)))) :
    ((∀ gv ∈ processed post, kept config gv = true →
        outputKey gv.1 config.tagName ≠ outputKey f config.tagName) →
      ∃ out o,
        ConvertToValue config (.struct m (pre ++ (e, ev) :: (mid ++ (f, v) :: post))) =
          .ok (Value.map false (some out)) ∧
        convertInterface config false v = .ok o ∧
        MapIndex out (Key.str (outputKey f config.tagName)) = Value.iface o) ∧
    ((∀ gv ∈ epost ++ processed post, kept config gv = true →
        outputKey gv.1 config.tagName ≠ outputKey f config.tagName) →
      ∃ out o,
        ConvertToValue config (.struct m (pre ++ (f, v) :: (mid ++ (e, ev) :: post))) =
          .ok (Value.map false (some out)) ∧
        convertInterface config false w = .ok o ∧
        MapIndex out (Key.str (outputKey f config.tagName)) = Value.iface o) := by
  have hemb : embedded ev = processed es := by
    rcases hev with h | h <;> subst h <;> rfl
  have hpe : ∀ rest, processed ((e, ev) :: rest) = processed es ++ processed rest := by
    intro rest
    rw [processed_cons, hemb]
    simp [he]
  have hpf : ∀ rest, processed ((f, v) :: rest) = (f, v) :: processed rest := by
    intro rest
    rw [processed_cons]
    simp [hf]
  have hA : processed (pre ++ (e, ev) :: (mid ++ (f, v) :: post)) =
      (processed pre ++ (processed es ++ processed mid)) ++ (f, v) :: processed post := by
    rw [processed_append, hpe, processed_append, hpf]
    simp [List.append_assoc]
  have hB : processed (pre ++ (f, v) :: (mid ++ (e, ev) :: post)) =
      (processed pre ++ ((f, v) :: processed mid ++ epre)) ++ (g, w) ::
        (epost ++ processed post) := by
    rw [processed_append, hpf, processed_append, hpe, hes]
    simp [List.append_assoc]
  have hmemf : (f, v) ∈
      processed pre ++ (processed es ++ (processed mid ++ (f, v) :: processed post)) := by
    simp
  have hmemg : (g, w) ∈
      processed pre ++ (processed es ++ (processed mid ++ (f, v) :: processed post)) := by
    rw [hes]
    simp
  constructor
  · intro hlast
    have hcA : FieldsConvert config (processed (pre ++ (e, ev) :: (mid ++ (f, v) :: post))) := by
      rw [hA]
      intro fv hfv
      apply hc fv
      simp only [List.mem_append, List.mem_cons] at hfv ⊢
      tauto
    obtain ⟨o, ho⟩ := hc (f, v) hmemf hkf
    refine ⟨_, o, struct_output config m _ hoff hcA, ho, ?_⟩
    rw [hA, MapIndex_assignFields_last config _ _ (f, v) [] hkf hlast,
      convertedValue_eq config v o ho]
  · intro hlast
    have hcB : FieldsConvert config (processed (pre ++ (f, v) :: (mid ++ (e, ev) :: post))) := by
      rw [hB]
      intro fv hfv
      apply hc fv
      rw [hes]
      simp only [List.mem_append, List.mem_cons] at hfv ⊢
      tauto
    obtain ⟨o, ho⟩ := hc (g, w) hmemg hkg
    refine ⟨_, o, struct_output config m _ hoff hcB, ho, ?_⟩
    have hlast2 : ∀ gv ∈ epost ++ processed post, kept config gv = true →
        outputKey gv.1 config.tagName ≠ outputKey (g, w).1 config.tagName := by
      intro gv hgv hk
      rw [hkey]
      exact hlast gv hgv hk
    rw [hB, ← hkey, MapIndex_assignFields_last config _ _ (g, w) [] hkg hlast2,
      convertedValue_eq config w o ho]

/-- Witness of the amended C5 on `Outer{Inner; Name}` and `Outer{Name; Inner}` -/
theorem C5_later_field_wins_witness :
    (fluentConfig.useMsgPack && false) = false ∧
    (innerField []).Anonymous = true ∧
    kept fluentConfig (⟨"Name", "", false, []⟩, Value.str false "own") = true ∧
    kept fluentConfig (⟨"Name", "", false, []⟩, Value.str false "inner") = true ∧
    (∃ out o, ConvertToValue fluentConfig (outerLast "own" "inner") =
        .ok (Value.map false (some out)) ∧
      convertInterface fluentConfig false (Value.str false "own") = .ok o ∧
      MapIndex out (Key.str (outputKey ⟨"Name", "", false, []⟩ fluentConfig.tagName)) =
        Value.iface o) ∧
    (∃ out o, ConvertToValue fluentConfig (outerFirst "own" "inner") =
        .ok (Value.map false (some out)) ∧
      convertInterface fluentConfig false (Value.str false "inner") = .ok o ∧
      MapIndex out (Key.str (outputKey ⟨"Name", "", false, []⟩ fluentConfig.tagName)) =
        Value.iface o) :=
  have h := C5_later_field_wins fluentConfig false false false [] [] []
    [(⟨"Name", "", false, []⟩, Value.str false "inner")] [] []
    (innerField []) ⟨"Name", "", false, []⟩ ⟨"Name", "", false, []⟩
    (Value.struct false [(⟨"Name", "", false, []⟩, Value.str false "inner")])
    (Value.str false "own") (Value.str false "inner")
    rfl rfl (Or.inl rfl) rfl rfl rfl rfl rfl
    ((FieldsConvert_cons _ _ _).2 ⟨fun _ => ⟨_, rfl⟩,
      (FieldsConvert_cons _ _ _).2 ⟨fun _ => ⟨_, rfl⟩, FieldsConvert_nil _⟩⟩)
  ⟨rfl, rfl, rfl, rfl,
    h.1 (fun gv hg => absurd hg (List.not_mem_nil gv)),
    h.2 (fun gv hg => absurd hg (List.not_mem_nil gv))⟩

/-- C6. A named field whose tag name is "-" never contributes: whatever the
options after the name (omitempty included) and whatever the value of the
field, flattening the struct (convertFromStruct, and ConvertToValue whenever
the escape hatch does not pass the struct through) gives the same result as
flattening the struct with the field removed. -/
theorem C6_dash_field_removed (config : conversionConfiguration) (m : Bool)
    (pre post : List (StructField × Value)) (f : StructField) (v : Value)
    (hf : f.Anonymous = false) (hp : f.PkgPath = "")
    (ht : tagNameOf f config.tagName = "-") :
    convertFromStruct (.struct m (pre ++ (f, v) :: post)) config =
      convertFromStruct (.struct m (pre ++ post)) config ∧
    ((config.useMsgPack && m) = false →
      ConvertToValue config (.struct m (pre ++ (f, v) :: post)) =
        ConvertToValue config (.struct m (pre ++ post))) :=
  have _ := hp
  flatten_congr config m _ _
    (structDeep_congr_suffix config pre _ _ (structDeep_drop config f v post hf ht) [])

/-- Witness of C6 on a field tagged `fluent:"-,omitempty"` holding 7 -/
theorem C6_dash_field_removed_witness :
    (taggedField "Skip" "-,omitempty").Anonymous = false ∧
    (taggedField "Skip" "-,omitempty").PkgPath = "" ∧
    tagNameOf (taggedField "Skip" "-,omitempty") fluentConfig.tagName = "-" ∧
    (convertFromStruct
        (.struct false (recordFields ++
          (taggedField "Skip" "-,omitempty", Value.int false 7) :: innerFields))
        fluentConfig =
      convertFromStruct (.struct false (recordFields ++ innerFields)) fluentConfig ∧
    ((fluentConfig.useMsgPack && false) = false →
      ConvertToValue fluentConfig
        (.struct false (recordFields ++
          (taggedField "Skip" "-,omitempty", Value.int false 7) :: innerFields)) =
      ConvertToValue fluentConfig (.struct false (recordFields ++ innerFields)))) :=
  ⟨rfl, rfl, by decide,
    C6_dash_field_removed fluentConfig false recordFields innerFields
      (taggedField "Skip" "-,omitempty") (Value.int false 7) rfl rfl (by decide)⟩

/-- C7, as stated, fails: the struct `struct { Inner "fluent:-" }` with
`Inner{A: 1}` has an anonymous field whose tag name is "-", yet its output has
the key "A" of the embedded struct, while the same struct without the field
gives the empty map. -/
theorem C7_counterexample :
    (innerField [("fluent", "-")]).Anonymous = true ∧
    tagNameOf (innerField [("fluent", "-")]) fluentConfig.tagName = "-" ∧
    ConvertToValue fluentConfig
        (.struct false [(innerField [("fluent", "-")], Value.struct false innerFields)]) =
      .ok (Value.map false (some [(Key.str "A", Value.iface (Value.int false 1))])) ∧
    ConvertToValue fluentConfig (.struct false []) = .ok (Value.map false (some [])) ∧
    ConvertToValue fluentConfig
        (.struct false [(innerField [("fluent", "-")], Value.struct false innerFields)]) ≠
      ConvertToValue fluentConfig (.struct false []) := by
  refine ⟨rfl, by decide, rfl, rfl, ?_⟩
  rw [show ConvertToValue fluentConfig
        (.struct false [(innerField [("fluent", "-")], Value.struct false innerFields)]) =
      .ok (Value.map false (some [(Key.str "A", Value.iface (Value.int false 1))])) from rfl,
    show ConvertToValue fluentConfig (.struct false []) = .ok (Value.map false (some []))
      from rfl]
  simp

/-- C7, amended.  The tag of an anonymous field is never read: for a struct
with an anonymous field whose tag name is "-", flattening the struct gives the
same result as flattening the same struct with the tag of that field replaced
by any other tag, the empty one included.  The fields of an embedded struct
are therefore merged into the output as in C3. -/
theorem C7_anonymous_tag_ignored (config : conversionConfiguration) (m : Bool)
    (pre post : List (StructField × Value)) (f : StructField) (v : Value)
    (tag : List (String × String))
    (hf : f.Anonymous = true) (ht : tagNameOf f config.tagName = "-") :
    convertFromStruct (.struct m (pre ++ (f, v) :: post)) config =
      convertFromStruct
        (.struct m (pre ++ (⟨f.Name, f.PkgPath, f.Anonymous, tag⟩, v) :: post)) config ∧
    ((config.useMsgPack && m) = false →
      ConvertToValue config (.struct m (pre ++ (f, v) :: post)) =
        ConvertToValue config
          (.struct m (pre ++ (⟨f.Name, f.PkgPath, f.Anonymous, tag⟩, v) :: post))) :=
  have _ := ht
  flatten_congr config m _ _
    (structDeep_congr_suffix config pre _ _ (structDeep_retag config f v tag post hf) [])

/-- Witness of the amended C7 on an embedded `Inner` tagged `fluent:"-"` -/
theorem C7_anonymous_tag_ignored_witness :
    (innerField [("fluent", "-")]).Anonymous = true ∧
    tagNameOf (innerField [("fluent", "-")]) fluentConfig.tagName = "-" ∧
    (convertFromStruct
        (.struct false (recordFields ++
          (innerField [("fluent", "-")], Value.struct false innerFields) :: []))
        fluentConfig =
      convertFromStruct
        (.struct false (recordFields ++
          (innerField [], Value.struct false innerFields) :: [])) fluentConfig ∧
    ((fluentConfig.useMsgPack && false) = false →
      ConvertToValue fluentConfig
        (.struct false (recordFields ++
          (innerField [("fluent", "-")], Value.struct false innerFields) :: [])) =
      ConvertToValue fluentConfig
        (.struct false (recordFields ++
          (innerField [], Value.struct false innerFields) :: [])))) :=
  ⟨rfl, by decide,
    C7_anonymous_tag_ignored fluentConfig false recordFields []
      (innerField [("fluent", "-")]) (Value.struct false innerFields) [] rfl (by decide)⟩

/-- C8. For a slice s of length n that the escape hatch does not pass
through, and whose elements can be converted, ConvertToValue returns a value of
kind Slice with n elements, the i-th being an interface element that holds
ConvertToValue of s[i], for every i below n.  For n = 0 (an empty or a nil
slice) the result is still of kind Slice, with no elements (it is the nil
slice of type []interface{}), and differs from the nil output. -/
theorem C8_slice_elementwise (config : conversionConfiguration) (m : Bool)
    (xs : Option (List Value))
    (hoff : (config.useMsgPack && m) = false)
    (hconv : ∀ x ∈ xs.getD [], ∃ o, convertInterface config false x = .ok o) :
    ∃ r, ConvertToValue config (.slice m xs) = .ok r ∧
      r.Kind = Kind.Slice ∧ r ≠ Value.nil ∧
      r.elems.length = (xs.getD []).length ∧
      (∀ (i : Nat) (x : Value), (xs.getD [])[i]? = some x →
        ∃ o, convertInterface config false x = .ok o ∧ r.elems[i]? = some (Value.iface o)) ∧
      ((xs.getD []).length = 0 → r = Value.slice false none) := by
  rw [ConvertToValue_slice config m xs hoff]
  cases xs with
  | none =>
    refine ⟨Value.slice false none, rfl, rfl, ?_, rfl, ?_, fun _ => rfl⟩
    · intro h; cases h
    · intro i x hx
      simp at hx
  | some xs =>
    simp only [Option.getD_some] at hconv ⊢
    have hloop := sliceLoop_eq config xs hconv none
    have helems : (Value.slice false
        (if xs.isEmpty then none
          else some ((none : Option (List Value)).getD [] ++
            xs.map (fun x => Value.iface (convertedValue config x))))).elems =
        xs.map (fun x => Value.iface (convertedValue config x)) := by
      cases xs <;> simp [Value.elems]
    refine ⟨_, hloop, ?_, ?_, ?_, ?_, ?_⟩
    · rfl
    · intro h; cases h
    · rw [helems, List.length_map]
    · intro i x hx
      obtain ⟨o, ho⟩ := hconv x (List.getElem?_mem hx)
      refine ⟨o, ho, ?_⟩
      rw [helems, List.getElem?_map, hx, Option.map_some', convertedValue_eq config x o ho]
    · intro hlen
      have hnil : xs = [] := List.length_eq_zero.1 hlen
      subst hnil
      rfl

/-- Witness of C8 on the example slice, whose type implements msgp.Marshaler
while the escape hatch is off -/
theorem C8_slice_elementwise_witness :
    (fluentConfig.useMsgPack && true) = false ∧
    (∀ x ∈ (some sampleElems).getD [], ∃ o, convertInterface fluentConfig false x = .ok o) ∧
    ∃ r, ConvertToValue fluentConfig (.slice true (some sampleElems)) = .ok r ∧
      r.Kind = Kind.Slice ∧ r ≠ Value.nil ∧
      r.elems.length = ((some sampleElems).getD []).length ∧
      (∀ (i : Nat) (x : Value), ((some sampleElems).getD [])[i]? = some x →
        ∃ o, convertInterface fluentConfig false x = .ok o ∧
          r.elems[i]? = some (Value.iface o)) ∧
      (((some sampleElems).getD []).length = 0 → r = Value.slice false none) :=
  have h : ∀ x ∈ (some sampleElems).getD [],
      ∃ o, convertInterface fluentConfig false x = .ok o := by
    intro x hx
    have hx2 : x ∈ sampleElems := hx
    simp only [sampleElems, List.mem_cons, List.mem_singleton, List.not_mem_nil, or_false] at hx2
    rcases hx2 with h | h | h | h <;> subst h <;> exact ⟨_, rfl⟩
  ⟨rfl, h, C8_slice_elementwise fluentConfig true (some sampleElems) rfl h⟩

/-- C9. For a map m that the escape hatch does not pass through, and for
which the conversion of m[k] returns for every key k, ConvertToValue returns a
map whose key set is exactly the set of the string forms of the keys of m; for
every entry whose string form is shared by no other entry the output holds,
under that string, ConvertToValue of m[k]; and when no two entries share a
string form, every iteration order of m gives an output with the same keys
and the same value under every key. -/
theorem C9_map_keys_and_values (config : conversionConfiguration) (m : Bool)
    (es : Option (List (Key × Value)))
    (hoff : (config.useMsgPack && m) = false)
    (hconv : ∀ e ∈ es.getD [], ∃ o, convertInterface config false (entryValue e) = .ok o) :
    ∃ out, ConvertToValue config (.map m es) = .ok (Value.map false (some out)) ∧
      (∀ q, q ∈ keysOf out ↔ ∃ e ∈ es.getD [], q = Key.str (Sprint e.1)) ∧
      (∀ e ∈ es.getD [], (∀ e' ∈ es.getD [], Sprint e'.1 = Sprint e.1 → e' = e) →
        ∃ o, convertInterface config false (entryValue e) = .ok o ∧
          MapIndex out (Key.str (Sprint e.1)) = Value.iface o) ∧
      (∀ es', List.Perm es' (es.getD []) →
        (∀ e ∈ es.getD [], ∀ e' ∈ es.getD [], Sprint e'.1 = Sprint e.1 → e' = e) →
        ∃ out2, ConvertToValue config (.map m (some es')) =
            .ok (Value.map false (some out2)) ∧
          (∀ q, q ∈ keysOf out2 ↔ q ∈ keysOf out) ∧
          ∀ q, MapIndex out2 q = MapIndex out q) := by
  have hmain : ∀ l : List (Key × Value),
      (∀ e ∈ l, ∃ o, convertInterface config false (entryValue e) = .ok o) →
      ConvertToValue config (.map m (some l)) =
        .ok (Value.map false (some (assignEntries config l []))) := by
    intro l hl
    rw [ConvertToValue_map config m _ hoff]
    show (convertFromMapLoop config l []).map _ = _
    rw [mapLoop_eq config l hl]
    rfl
  have huniq : ∀ (l : List (Key × Value)) (e : Key × Value), e ∈ l →
      (∀ e' ∈ l, Sprint e'.1 = Sprint e.1 → e' = e) →
      MapIndex (assignEntries config l []) (Key.str (Sprint e.1)) =
        Value.iface (convertedValue config (entryValue e)) := by
    intro l e he hu
    apply MapIndex_assignEntries
    · intro e' he' hk
      have : Sprint e'.1 = Sprint e.1 := by injection hk
      rw [hu e' he' this]
    · exact Or.inl ⟨e, he, rfl⟩
  refine ⟨assignEntries config (es.getD []) [], ?_, ?_, ?_, ?_⟩
  · cases es with
    | none =>
      rw [ConvertToValue_map config m _ hoff]
      rfl
    | some l => exact hmain l hconv
  · intro q
    rw [keysOf_assignEntries]
    constructor
    · rintro (h | h)
      · cases h
      · exact h
    · intro h
      exact Or.inr h
  · intro e he hu
    obtain ⟨o, ho⟩ := hconv e he
    refine ⟨o, ho, ?_⟩
    rw [huniq _ e he hu, convertedValue_eq config _ o ho]
  · intro es' hperm hinj
    have hconv2 : ∀ e ∈ es', ∃ o, convertInterface config false (entryValue e) = .ok o :=
      fun e he => hconv e (hperm.mem_iff.1 he)
    refine ⟨assignEntries config es' [], hmain es' hconv2, ?_, ?_⟩
    · intro q
      rw [keysOf_assignEntries, keysOf_assignEntries]
      constructor
      · rintro (h | ⟨e, he, hq⟩)
        · exact Or.inl h
        · exact Or.inr ⟨e, hperm.mem_iff.1 he, hq⟩
      · rintro (h | ⟨e, he, hq⟩)
        · exact Or.inl h
        · exact Or.inr ⟨e, hperm.mem_iff.2 he, hq⟩
    · intro q
      by_cases hq : ∃ e ∈ es.getD [], Key.str (Sprint e.1) = q
      · obtain ⟨e, he, hk⟩ := hq
        subst hk
        rw [huniq _ e he (hinj e he),
          huniq es' e (hperm.mem_iff.2 he)
            (fun e' he' h => hinj e he e' (hperm.mem_iff.1 he') h)]
      · have h1 : ∀ e ∈ es.getD [], Key.str (Sprint e.1) ≠ q :=
          fun e he hk => hq ⟨e, he, hk⟩
        have h2 : ∀ e ∈ es', Key.str (Sprint e.1) ≠ q :=
          fun e he hk => hq ⟨e, hperm.mem_iff.1 he, hk⟩
        rw [MapIndex_assignEntries_none config _ [] q h1,
          MapIndex_assignEntries_none config _ [] q h2]

/-- Witness of C9 on the example map -/
theorem C9_map_keys_and_values_witness :
    (fluentConfig.useMsgPack && false) = false ∧
    (∀ e ∈ (some sampleEntries).getD [],
      ∃ o, convertInterface fluentConfig false (entryValue e) = .ok o) ∧
    ∃ out, ConvertToValue fluentConfig (.map false (some sampleEntries)) =
        .ok (Value.map false (some out)) ∧
      (∀ q, q ∈ keysOf out ↔ ∃ e ∈ (some sampleEntries).getD [], q = Key.str (Sprint e.1)) ∧
      (∀ e ∈ (some sampleEntries).getD [],
        (∀ e' ∈ (some sampleEntries).getD [], Sprint e'.1 = Sprint e.1 → e' = e) →
        ∃ o, convertInterface fluentConfig false (entryValue e) = .ok o ∧
          MapIndex out (Key.str (Sprint e.1)) = Value.iface o) ∧
      (∀ es', List.Perm es' ((some sampleEntries).getD []) →
        (∀ e ∈ (some sampleEntries).getD [], ∀ e' ∈ (some sampleEntries).getD [],
          Sprint e'.1 = Sprint e.1 → e' = e) →
        ∃ out2, ConvertToValue fluentConfig (.map false (some es')) =
            .ok (Value.map false (some out2)) ∧
          (∀ q, q ∈ keysOf out2 ↔ q ∈ keysOf out) ∧
          ∀ q, MapIndex out2 q = MapIndex out q) :=
  have h : ∀ e ∈ (some sampleEntries).getD [],
      ∃ o, convertInterface fluentConfig false (entryValue e) = .ok o := by
    intro e he
    have he2 : e ∈ sampleEntries := he
    simp only [sampleEntries, List.mem_cons, List.mem_singleton, List.not_mem_nil,
      or_false] at he2
    rcases he2 with h | h | h <;> subst h <;> exact ⟨_, rfl⟩
  ⟨rfl, h, C9_map_keys_and_values fluentConfig false (some sampleEntries) rfl h⟩

/-- C10. Escape hatch: with useMsgPack on, a value of any kind whose dynamic
type implements msgp.Marshaler is returned as it is; nothing inside it is
converted. -/
theorem C10_escape_hatch (config : conversionConfiguration) (v : Value)
    (hon : config.useMsgPack = true) (hm : v.isMarshaler = true) :
    ConvertToValue config v = .ok v :=
  ConvertToValue_marshaler config v (by rw [hon, hm]; rfl)

/-- Witness of C10 on a struct whose type implements msgp.Marshaler -/
theorem C10_escape_hatch_witness :
    msgpConfig.useMsgPack = true ∧
    (Value.struct true recordFields).isMarshaler = true ∧
    ConvertToValue msgpConfig (Value.struct true recordFields) =
      .ok (Value.struct true recordFields) :=
  ⟨rfl, rfl, C10_escape_hatch msgpConfig (Value.struct true recordFields) rfl rfl⟩

/-! ## Helper lemmas: the kinds that yield nil or pass through -/

theorem toValue_ptr (m : Bool) (v : Value) : toValue (.ptr m (some v)) = v := rfl

theorem toValue_of_not_ptr (v : Value) (h : v.Kind ≠ Kind.Ptr) : toValue v = v := by
  cases v <;> first | rfl | exact absurd rfl h

theorem ConvertToValue_off (config : conversionConfiguration) (p : Value)
    (h : (config.useMsgPack && p.isMarshaler) = false) :
    ConvertToValue config p = kindSwitch config (toValue p) := by
  rw [ConvertToValue_eq_switch]
  simp only [h, Bool.false_eq_true, if_false]

theorem anonymousField_skip (config : conversionConfiguration) (v : Value)
    (result : List (Key × Value)) (hv : (toValue v).Kind ≠ Kind.Struct) :
    anonymousField config v result = .ok result := by
  cases v with
  | ptr m e =>
    cases e with
    | none => rfl
    | some w => cases w <;> first | rfl | exact absurd rfl hv
  | struct m fs => exact absurd rfl hv
  | _ => rfl

theorem structDeep_skip_anonymous (config : conversionConfiguration) (f : StructField)
    (v : Value) (post : List (StructField × Value)) (hf : f.Anonymous = true)
    (hv : (toValue v).Kind ≠ Kind.Struct) (result : List (Key × Value)) :
    convertFromStructDeep config ((f, v) :: post) result =
      convertFromStructDeep config post result := by
  rw [structDeep_step]
  unfold fieldStep
  simp only [hf, if_true, anonymousField_skip config v result hv, ok_bind]

/-- C13. A value that the escape hatch does not pass through and that is a
channel, the invalid (nil) value or a nil pointer is converted to the nil
output. -/
theorem C13_nil_output (config : conversionConfiguration) (v : Value)
    (hoff : (config.useMsgPack && v.isMarshaler) = false)
    (hk : v.Kind = Kind.Chan ∨ v.Kind = Kind.Invalid ∨ ∃ m, v = Value.ptr m none) :
    ConvertToValue config v = .ok Value.nil := by
  rw [ConvertToValue_off config v hoff]
  rcases hk with hk | hk | ⟨m, hk⟩
  · cases v <;> first | rfl | (simp [Value.Kind] at hk)
  · cases v <;> first | rfl | (simp [Value.Kind] at hk)
  · subst hk
    rfl

/-- Witness of C13 on a nil pointer whose type implements msgp.Marshaler while
the escape hatch is off -/
theorem C13_nil_output_witness :
    (fluentConfig.useMsgPack && (Value.ptr true none).isMarshaler) = false ∧
    ((Value.ptr true none).Kind = Kind.Chan ∨ (Value.ptr true none).Kind = Kind.Invalid ∨
      ∃ m, Value.ptr true none = Value.ptr m none) ∧
    ConvertToValue fluentConfig (Value.ptr true none) = .ok Value.nil :=
  ⟨rfl, Or.inr (Or.inr ⟨true, rfl⟩),
    C13_nil_output fluentConfig (Value.ptr true none) rfl (Or.inr (Or.inr ⟨true, rfl⟩))⟩

/-- C14. Pointer transparency: with the escape hatch off, converting a
pointer to a value v that is not itself a pointer (a struct, map, slice,
channel, scalar or array; a dynamic value never has kind Interface) gives the
same result as converting v. -/
theorem C14_pointer_transparency (config : conversionConfiguration) (m : Bool) (v : Value)
    (hoff : config.useMsgPack = false)
    (hv : v.Kind ≠ Kind.Ptr) (hi : v.Kind ≠ Kind.Interface) :
    ConvertToValue config (Value.ptr m (some v)) = ConvertToValue config v := by
  have _ := hi
  rw [ConvertToValue_off config _ (by rw [hoff]; rfl),
    ConvertToValue_off config v (by rw [hoff]; rfl), toValue_ptr, toValue_of_not_ptr v hv]

/-- Witness of C14 on a pointer to the example struct -/
theorem C14_pointer_transparency_witness :
    fluentConfig.useMsgPack = false ∧
    (Value.struct true recordFields).Kind ≠ Kind.Ptr ∧
    (Value.struct true recordFields).Kind ≠ Kind.Interface ∧
    ConvertToValue fluentConfig (Value.ptr true (some (Value.struct true recordFields))) =
      ConvertToValue fluentConfig (Value.struct true recordFields) :=
  ⟨rfl, by decide, by decide,
    C14_pointer_transparency fluentConfig true (Value.struct true recordFields) rfl
      (by decide) (by decide)⟩

/-- C15. Scalar passthrough: a value whose kind is none of struct, map,
slice, channel, pointer or invalid (a dynamic value never has kind Interface)
is returned unchanged, whatever the configuration; 42 gives 42 and "x" gives
"x". -/
theorem C15_scalar_passthrough (config : conversionConfiguration) (v : Value)
    (hk : v.Kind ≠ Kind.Struct ∧ v.Kind ≠ Kind.Map ∧ v.Kind ≠ Kind.Slice ∧
      v.Kind ≠ Kind.Chan ∧ v.Kind ≠ Kind.Ptr ∧ v.Kind ≠ Kind.Invalid)
    (hi : v.Kind ≠ Kind.Interface) :
    ConvertToValue config v = .ok v ∧
    ConvertToValue config (Value.int false 42) = .ok (Value.int false 42) ∧
    ConvertToValue config (Value.str false "x") = .ok (Value.str false "x") := by
  have hmain : ∀ w : Value, w.Kind ≠ Kind.Struct → w.Kind ≠ Kind.Map → w.Kind ≠ Kind.Slice →
      w.Kind ≠ Kind.Chan → w.Kind ≠ Kind.Ptr → w.Kind ≠ Kind.Invalid →
      w.Kind ≠ Kind.Interface → ConvertToValue config w = .ok w := by
    intro w h1 h2 h3 h4 h5 h6 h7
    rw [ConvertToValue_eq_switch]
    by_cases hm : (config.useMsgPack && w.isMarshaler) = true
    · simp only [hm, if_true]
    · simp only [hm, if_false]
      cases w <;> first | rfl | (simp [Value.Kind] at h1 h2 h3 h4 h5 h6 h7)
  obtain ⟨h1, h2, h3, h4, h5, h6⟩ := hk
  exact ⟨hmain v h1 h2 h3 h4 h5 h6 hi,
    hmain _ (by decide) (by decide) (by decide) (by decide) (by decide) (by decide) (by decide),
    hmain _ (by decide) (by decide) (by decide) (by decide) (by decide) (by decide) (by decide)⟩

/-- Witness of C15 on an array of structs whose type implements
msgp.Marshaler, with the escape hatch on -/
theorem C15_scalar_passthrough_witness :
    ((Value.array true [Value.struct false innerFields]).Kind ≠ Kind.Struct ∧
      (Value.array true [Value.struct false innerFields]).Kind ≠ Kind.Map ∧
      (Value.array true [Value.struct false innerFields]).Kind ≠ Kind.Slice ∧
      (Value.array true [Value.struct false innerFields]).Kind ≠ Kind.Chan ∧
      (Value.array true [Value.struct false innerFields]).Kind ≠ Kind.Ptr ∧
      (Value.array true [Value.struct false innerFields]).Kind ≠ Kind.Invalid) ∧
    (Value.array true [Value.struct false innerFields]).Kind ≠ Kind.Interface ∧
    ConvertToValue msgpConfig (Value.array true [Value.struct false innerFields]) =
      .ok (Value.array true [Value.struct false innerFields]) :=
  ⟨by decide, by decide,
    (C15_scalar_passthrough msgpConfig (Value.array true [Value.struct false innerFields])
      (by decide) (by decide)).1⟩

/-- C19. An anonymous field whose value is a nil pointer, or is not a struct
after one pointer dereference (an embedded named integer, an embedded
interface even when it holds a struct), exported or not, yields nothing:
flattening the struct (convertFromStruct, and ConvertToValue whenever the
escape hatch does not pass the struct through) gives the same result as
flattening the struct with the field removed, whatever its name and tag. -/
theorem C19_anonymous_non_struct_removed (config : conversionConfiguration) (m : Bool)
    (pre post : List (StructField × Value)) (f : StructField) (v : Value)
    (hf : f.Anonymous = true) (hv : (toValue v).Kind ≠ Kind.Struct) :
    convertFromStruct (.struct m (pre ++ (f, v) :: post)) config =
      convertFromStruct (.struct m (pre ++ post)) config ∧
    ((config.useMsgPack && m) = false →
      ConvertToValue config (.struct m (pre ++ (f, v) :: post)) =
        ConvertToValue config (.struct m (pre ++ post))) :=
  flatten_congr config m _ _
    (structDeep_congr_suffix config pre _ _
      (structDeep_skip_anonymous config f v post hf hv) [])

/-- Witness of C19 on an embedded interface that holds a struct, and the
evaluation of a struct with an embedded integer, interface and nil pointer -/
theorem C19_anonymous_non_struct_removed_witness :
    (⟨"Writer", "example", true, [("fluent", "w")]⟩ : StructField).Anonymous = true ∧
    (toValue (Value.iface (Value.struct false innerFields))).Kind ≠ Kind.Struct ∧
    (convertFromStruct
        (.struct false (recordFields ++
          (⟨"Writer", "example", true, [("fluent", "w")]⟩,
            Value.iface (Value.struct false innerFields)) :: innerFields)) fluentConfig =
      convertFromStruct (.struct false (recordFields ++ innerFields)) fluentConfig ∧
    ((fluentConfig.useMsgPack && false) = false →
      ConvertToValue fluentConfig
        (.struct false (recordFields ++
          (⟨"Writer", "example", true, [("fluent", "w")]⟩,
            Value.iface (Value.struct false innerFields)) :: innerFields)) =
      ConvertToValue fluentConfig (.struct false (recordFields ++ innerFields)))) ∧
    ConvertToValue fluentConfig (.struct false embeddedOthers) =
      .ok (Value.map false (some [(Key.str "A", Value.iface (Value.int false 1))])) :=
  ⟨rfl, by decide,
    C19_anonymous_non_struct_removed fluentConfig false recordFields innerFields
      ⟨"Writer", "example", true, [("fluent", "w")]⟩
      (Value.iface (Value.struct false innerFields)) rfl (by decide),
    rfl⟩

/-! ## Helper lemmas: splitting a tag -/

theorem splitComma_cons_comma (cs : List Char) :
    splitComma (',' :: cs) = [] :: splitComma cs := by
  simp [splitComma]

theorem splitComma_cons_other (c : Char) (cs : List Char) (hc : c ≠ ',') :
    ∃ seg segs, splitComma cs = seg :: segs ∧ splitComma (c :: cs) = (c :: seg) :: segs := by
  cases h : splitComma cs with
  | nil => exact absurd h (splitComma_ne_nil cs)
  | cons seg segs =>
    refine ⟨seg, segs, rfl, ?_⟩
    simp [splitComma, hc, h]

theorem joinComma_cons_cons (a b : List Char) (rest : List (List Char)) :
    joinComma (a :: b :: rest) = a ++ ',' :: joinComma (b :: rest) := rfl

theorem joinComma_push (c : Char) (seg : List Char) (segs : List (List Char)) :
    joinComma ((c :: seg) :: segs) = c :: joinComma (seg :: segs) := by
  cases segs with
  | nil => rfl
  | cons b rest => simp [joinComma_cons_cons]

theorem joinComma_splitComma (cs : List Char) : joinComma (splitComma cs) = cs := by
  induction cs with
  | nil => rfl
  | cons c cs ih =>
    by_cases hc : c = ','
    · subst hc
      rw [splitComma_cons_comma]
      cases h : splitComma cs with
      | nil => exact absurd h (splitComma_ne_nil cs)
      | cons seg segs =>
        rw [joinComma_cons_cons, ← h, ih]
        rfl
    · obtain ⟨seg, segs, h1, h2⟩ := splitComma_cons_other c cs hc
      rw [h2, joinComma_push, ← h1, ih]

theorem splitComma_no_comma (cs : List Char) : ∀ seg ∈ splitComma cs, ',' ∉ seg := by
  induction cs with
  | nil =>
    intro seg h
    simp [splitComma] at h
    subst h
    simp
  | cons c cs ih =>
    intro seg h
    by_cases hc : c = ','
    · subst hc
      rw [splitComma_cons_comma] at h
      rcases List.mem_cons.1 h with h | h
      · subst h
        simp
      · exact ih seg h
    · obtain ⟨s0, segs, h1, h2⟩ := splitComma_cons_other c cs hc
      rw [h2] at h
      rw [h1] at ih
      rcases List.mem_cons.1 h with h | h
      · subst h
        intro hmem
        rcases List.mem_cons.1 hmem with hm | hm
        · exact hc hm.symm
        · exact ih s0 (List.mem_cons_self _ _) hm
      · exact ih seg (List.mem_cons_of_mem _ h)

theorem splitComma_head (cs : List Char) :
    ∃ segs, splitComma cs = cs.takeWhile (fun c => decide (c ≠ ',')) :: segs := by
  induction cs with
  | nil => exact ⟨[], rfl⟩
  | cons c cs ih =>
    by_cases hc : c = ','
    · subst hc
      exact ⟨splitComma cs, by simp [splitComma_cons_comma]⟩
    · obtain ⟨s0, segs, h1, h2⟩ := splitComma_cons_other c cs hc
      obtain ⟨segs2, h3⟩ := ih
      rw [h1] at h3
      injection h3 with h4 h5
      refine ⟨segs, ?_⟩
      rw [h2, h4]
      simp [List.takeWhile, hc]

theorem splitComma_of_no_comma (cs : List Char) (h : ',' ∉ cs) : splitComma cs = [cs] := by
  induction cs with
  | nil => rfl
  | cons c cs ih =>
    have hc : c ≠ ',' := fun hc => h (by rw [hc]; exact List.mem_cons_self _ _)
    have hcs : ',' ∉ cs := fun hm => h (List.mem_cons_of_mem _ hm)
    obtain ⟨s0, segs, h1, h2⟩ := splitComma_cons_other c cs hc
    rw [ih hcs] at h1
    injection h1 with h3 h4
    rw [h2, ← h3, ← h4]

theorem options_Has_iff (opts : options) (o : String) : options.Has opts o = true ↔ o ∈ opts := by
  induction opts with
  | nil => simp [options.Has]
  | cons a rest ih =>
    by_cases h : a = o
    · simp [options.Has, h]
    · have h2 : ¬ o = a := fun e => h e.symm
      simp [options.Has, h, h2, ih]

/-- C17. Tag parsing: for every raw tag s, splitTags returns (it never
indexes out of range) a name and options such that the name is the part of s
before its first comma (all of s when s has no comma, in which case there are
no options), no segment contains a comma, and the name and the options joined
with commas give back s, so the options are the remaining comma-separated
segments, verbatim and in order; options.Has holds of o exactly when o is one
of the options.  Hence "a, omitempty" and "a,OMITEMPTY" do not have the option
"omitempty", and "" parses to the empty name without options. -/
theorem C17_tag_parsing (s : String) :
    (∃ name opts, splitTags s = .ok (name, opts) ∧
      name.data = s.data.takeWhile (fun c => decide (c ≠ ',')) ∧
      (',' ∉ s.data → name = s ∧ opts = []) ∧
      joinComma (name.data :: opts.map String.data) = s.data ∧
      (∀ seg ∈ name :: opts, ',' ∉ seg.data) ∧
      (∀ o : String, options.Has opts o = true ↔ o ∈ opts)) ∧
    splitTags "a, omitempty" = .ok ("a", [" omitempty"]) ∧
    options.Has [" omitempty"] "omitempty" = false ∧
    splitTags "a,OMITEMPTY" = .ok ("a", ["OMITEMPTY"]) ∧
    options.Has ["OMITEMPTY"] "omitempty" = false ∧
    splitTags "a,omitempty" = .ok ("a", ["omitempty"]) ∧
    options.Has ["omitempty"] "omitempty" = true ∧
    splitTags "" = .ok ("", []) := by
  refine ⟨?_, rfl, by decide, rfl, by decide, rfl, by decide, rfl⟩
  obtain ⟨segs, hsegs⟩ := splitComma_head s.data
  have hsplit : stringsSplit s =
      String.mk (s.data.takeWhile (fun c => decide (c ≠ ','))) :: segs.map String.mk := by
    simp [stringsSplit, hsegs]
  have hdata : (segs.map String.mk).map String.data = segs := by
    simp [Function.comp_def]
  refine ⟨String.mk (s.data.takeWhile (fun c => decide (c ≠ ','))), segs.map String.mk,
    by simp [splitTags, hsplit], rfl, ?_, ?_, ?_, options_Has_iff _⟩
  · intro hno
    have h1 := splitComma_of_no_comma s.data hno
    rw [hsegs] at h1
    injection h1 with h2 h3
    subst h3
    refine ⟨?_, rfl⟩
    rw [h2]
  · rw [hdata, ← hsegs, joinComma_splitComma]
  · intro seg hseg
    apply splitComma_no_comma s.data seg.data
    rw [hsegs]
    rcases List.mem_cons.1 hseg with h | h
    · subst h
      exact List.mem_cons_self _ _
    · apply List.mem_cons_of_mem
      obtain ⟨l, hl, rfl⟩ := List.mem_map.1 h
      exact hl

/-! ## Helper lemmas: zero values -/

theorem DeepEqual_nil_right (d : Value) : DeepEqual d Value.nil = true ↔ d = Value.nil := by
  cases d with
  | nil => exact ⟨fun _ => rfl, fun _ => rfl⟩
  | ptr m e =>
    cases e <;> exact ⟨fun h => (by cases h), fun h => (by cases h)⟩
  | slice m e =>
    cases e <;> exact ⟨fun h => (by cases h), fun h => (by cases h)⟩
  | map m e =>
    cases e <;> exact ⟨fun h => (by cases h), fun h => (by cases h)⟩
  | _ => exact ⟨fun h => (by cases h), fun h => (by cases h)⟩

theorem beq_self_and (m : Bool) (b : Bool) : ((m == m) && b) = b := by
  cases m <;> rfl

mutual
theorem DeepEqual_Zero : ∀ (v : Value), DeepEqual v (Zero v) = true ↔ v = Zero v
  | .nil => ⟨fun _ => rfl, fun _ => rfl⟩
  | .iface d => by
    show DeepEqual d Value.nil = true ↔ Value.iface d = Value.iface Value.nil
    rw [DeepEqual_nil_right]
    constructor
    · intro h; rw [h]
    · intro h; injection h
  | .bool m b => by
    show ((m == m) && (b == false)) = true ↔ Value.bool m b = Value.bool m false
    rw [beq_self_and]
    constructor
    · intro h; rw [eq_of_beq h]
    · intro h; injection h with _ h2; rw [h2]; rfl
  | .int m n => by
    show ((m == m) && (n == 0)) = true ↔ Value.int m n = Value.int m 0
    rw [beq_self_and]
    constructor
    · intro h; rw [eq_of_beq h]
    · intro h; injection h with _ h2; rw [h2]; rfl
  | .str m s => by
    show ((m == m) && (s == "")) = true ↔ Value.str m s = Value.str m ""
    rw [beq_self_and]
    constructor
    · intro h; rw [eq_of_beq h]
    · intro h; injection h with _ h2; rw [h2]; rfl
  | .chan m a => by
    show ((m == m) && (a == 0)) = true ↔ Value.chan m a = Value.chan m 0
    rw [beq_self_and]
    constructor
    · intro h; rw [eq_of_beq h]
    · intro h; injection h with _ h2; rw [h2]; rfl
  | .ptr m none => by
    show (m == m) = true ↔ Value.ptr m none = Value.ptr m none
    cases m <;> exact ⟨fun _ => rfl, fun _ => rfl⟩
  | .ptr m (some w) => by
    show false = true ↔ Value.ptr m (some w) = Value.ptr m none
    exact ⟨fun h => (by cases h), fun h => (by cases h)⟩
  | .array m xs => by
    show ((m == m) && DeepEqualList xs (ZeroList xs)) = true ↔
      Value.array m xs = Value.array m (ZeroList xs)
    rw [beq_self_and, DeepEqualList_Zero xs]
    constructor
    · intro h; rw [← h]
    · intro h; injection h
  | .slice m none => by
    show (m == m) = true ↔ Value.slice m none = Value.slice m none
    cases m <;> exact ⟨fun _ => rfl, fun _ => rfl⟩
  | .slice m (some xs) => by
    show false = true ↔ Value.slice m (some xs) = Value.slice m none
    exact ⟨fun h => (by cases h), fun h => (by cases h)⟩
  | .map m none => by
    show (m == m) = true ↔ Value.map m none = Value.map m none
    cases m <;> exact ⟨fun _ => rfl, fun _ => rfl⟩
  | .map m (some es) => by
    show false = true ↔ Value.map m (some es) = Value.map m none
    exact ⟨fun h => (by cases h), fun h => (by cases h)⟩
  | .struct m fs => by
    show ((m == m) && DeepEqualFields fs (ZeroFields fs)) = true ↔
      Value.struct m fs = Value.struct m (ZeroFields fs)
    rw [beq_self_and, DeepEqualFields_Zero fs]
    constructor
    · intro h; rw [← h]
    · intro h; injection h
termination_by structural v => v
theorem DeepEqualList_Zero : ∀ (xs : List Value),
    DeepEqualList xs (ZeroList xs) = true ↔ xs = ZeroList xs
  | [] => ⟨fun _ => rfl, fun _ => rfl⟩
  | x :: xs => by
    show (DeepEqual x (Zero x) && DeepEqualList xs (ZeroList xs)) = true ↔
      x :: xs = Zero x :: ZeroList xs
    rw [Bool.and_eq_true, DeepEqual_Zero x, DeepEqualList_Zero xs]
    constructor
    · intro h; rw [← h.1, ← h.2]
    · intro h; injection h with h1 h2; exact ⟨h1, h2⟩
termination_by structural xs => xs
theorem DeepEqualFields_Zero : ∀ (fs : List (StructField × Value)),
    DeepEqualFields fs (ZeroFields fs) = true ↔ fs = ZeroFields fs
  | [] => ⟨fun _ => rfl, fun _ => rfl⟩
  | (f, v) :: fs => by
    show ((f == f && DeepEqual v (Zero v)) && DeepEqualFields fs (ZeroFields fs)) = true ↔
      (f, v) :: fs = (f, Zero v) :: ZeroFields fs
    rw [Bool.and_eq_true, Bool.and_eq_true, DeepEqual_Zero v, DeepEqualFields_Zero fs]
    constructor
    · intro h; rw [← h.1.2, ← h.2]
    · intro h
      injection h with h1 h2
      injection h1 with _ h3
      exact ⟨⟨beq_self_eq_true f, h3⟩, h2⟩
termination_by structural fs => fs
end
theorem isZero_eq_DeepEqual (v : Value) (hv : v.IsValid = true) :
    isZero false v = .ok (DeepEqual v (Zero v)) := by
  cases v <;> first | rfl | (simp [Value.IsValid] at hv)

theorem ZeroFields_of_zero (fs : List (StructField × Value))
    (h : ∀ fw ∈ fs, fw.2 = Zero fw.2) : fs = ZeroFields fs := by
  induction fs with
  | nil => rfl
  | cons fw rest ih =>
    obtain ⟨f, w⟩ := fw
    have h1 : w = Zero w := h (f, w) (List.mem_cons_self _ _)
    have h2 := ih (fun gw hg => h gw (List.mem_cons_of_mem _ hg))
    show (f, w) :: rest = (f, Zero w) :: ZeroFields rest
    rw [← h1, ← h2]

/-- C18. For the value v of a struct field, isZero returns true exactly when
v is the zero value of its type (`Zero v`, to which reflect.DeepEqual compares
it): 0, "", false, a nil pointer, a nil slice, a nil map and a struct whose
fields are all zero are zero; a non-nil pointer, even to a zero value, and an
empty but non-nil slice or map are not, so an exported field tagged omitempty
that holds one of them is kept. -/
theorem C18_isZero_iff_zero_value (v : Value) (hv : v.IsValid = true) :
    (∃ b, isZero false v = .ok b ∧ (b = true ↔ v = Zero v)) ∧
    (∀ m, isZero false (Value.int m 0) = .ok true) ∧
    (∀ m, isZero false (Value.str m "") = .ok true) ∧
    (∀ m, isZero false (Value.bool m false) = .ok true) ∧
    (∀ m, isZero false (Value.ptr m none) = .ok true) ∧
    (∀ m, isZero false (Value.slice m none) = .ok true) ∧
    (∀ m, isZero false (Value.map m none) = .ok true) ∧
    isZero false (Value.iface Value.nil) = .ok true ∧
    (∀ m fs, (∀ fw ∈ fs, fw.2 = Zero fw.2) → isZero false (Value.struct m fs) = .ok true) ∧
    (∀ m w, isZero false (Value.ptr m (some w)) = .ok false) ∧
    (∀ m, isZero false (Value.slice m (some [])) = .ok false) ∧
    (∀ m, isZero false (Value.map m (some [])) = .ok false) ∧
    (∀ (config : conversionConfiguration) (f : StructField) (w : Value),
      f.PkgPath = "" → tagNameOf f config.tagName ≠ "-" →
      ((∃ m x, w = Value.ptr m (some x)) ∨ (∃ m, w = Value.slice m (some [])) ∨
        (∃ m, w = Value.map m (some []))) →
      kept config (f, w) = true) := by
  refine ⟨⟨DeepEqual v (Zero v), isZero_eq_DeepEqual v hv, DeepEqual_Zero v⟩,
    fun m => by cases m <;> rfl, fun m => by cases m <;> rfl, fun m => by cases m <;> rfl,
    fun m => by cases m <;> rfl, fun m => by cases m <;> rfl, fun m => by cases m <;> rfl,
    rfl, ?_, fun m w => rfl, fun m => rfl, fun m => rfl, ?_⟩
  · intro m fs h
    have hz : Value.struct m fs = Zero (Value.struct m fs) := by
      show Value.struct m fs = Value.struct m (ZeroFields fs)
      rw [← ZeroFields_of_zero fs h]
    rw [isZero_eq_DeepEqual (Value.struct m fs) rfl, (DeepEqual_Zero _).2 hz]
  · intro config f w hp ht hw
    rw [kept_iff]
    refine ⟨hp, ht, ?_⟩
    intro ⟨_, hz⟩
    rw [isZeroValue_iff] at hz
    rcases hw with ⟨m, x, rfl⟩ | ⟨m, rfl⟩ | ⟨m, rfl⟩ <;> cases hz

/-- Witness of C18 on a struct field that holds a struct with a zero and a
non-zero field -/
theorem C18_isZero_iff_zero_value_witness :
    (Value.struct false recordFields).IsValid = true ∧
    ∃ b, isZero false (Value.struct false recordFields) = .ok b ∧
      (b = true ↔ Value.struct false recordFields = Zero (Value.struct false recordFields)) :=
  ⟨rfl, (C18_isZero_iff_zero_value (Value.struct false recordFields) rfl).1⟩

/-! ## Helper lemmas: totality away from NaN keys -/

theorem PanicFreeElems_cons (x : Value) (xs : List Value) :
    PanicFreeElems (x :: xs) = (PanicFreeSlot x && PanicFreeElems xs) := by
  cases x <;> rfl

theorem PanicFreeEntries_cons (k : Key) (v : Value) (rest : List (Key × Value)) :
    PanicFreeEntries ((k, v) :: rest) =
      (decide (k ≠ Key.nan) && PanicFreeSlot v && PanicFreeEntries rest) := by
  cases v <;> rfl

theorem PanicFreeFields_cons (f : StructField) (v : Value) (rest : List (StructField × Value)) :
    PanicFreeFields ((f, v) :: rest) =
      ((if f.Anonymous then PanicFreeAnonymous v
        else if f.PkgPath ≠ "" then true else PanicFreeSlot v) && PanicFreeFields rest) := by
  cases v with
  | ptr m e =>
    cases e with
    | none => rfl
    | some w => cases w <;> rfl
  | _ => rfl

theorem returns_of_switch (config : conversionConfiguration) (p : Value)
    (h : ∃ o, kindSwitch config (toValue p) = .ok o) : ∃ o, ConvertToValue config p = .ok o := by
  rw [ConvertToValue_eq_switch]
  by_cases hm : (config.useMsgPack && p.isMarshaler) = true
  · exact ⟨p, by simp only [hm, if_true]⟩
  · simp only [hm, if_false]
    exact h

theorem returns_map {α β : Type} (g : α → β) (x : Except Panic α) (h : ∃ r, x = .ok r) :
    ∃ o, x.map g = .ok o := by
  obtain ⟨r, hr⟩ := h
  exact ⟨g r, by rw [hr]; rfl⟩

theorem namedField_returns (config : conversionConfiguration) (f : StructField) (v : Value)
    (result : List (Key × Value))
    (h : f.PkgPath = "" → ∃ o, convertInterface config false v = .ok o) :
    ∃ r, namedField config f v result = .ok r := by
  by_cases hk : kept config (f, v) = true
  · obtain ⟨o, ho⟩ := h ((kept_iff config f v).1 hk).1
    exact ⟨_, namedField_kept config f v o result hk ho⟩
  · have hk2 : kept config (f, v) = false := by simpa using hk
    exact ⟨_, namedField_skipped config f v result hk2⟩

theorem returnsOn_of (config : conversionConfiguration) (v : Value)
    (hs : PanicFree v = true → ∃ o, kindSwitch config (toValue v) = .ok o)
    (hv : v.Interface false = .ok v)
    (ha : PanicFreeAnonymous v = true → ∀ result, ∃ r, anonymousField config v result = .ok r) :
    ReturnsOn config v := by
  refine ⟨fun h => returns_of_switch config v (hs h), fun h => ?_, ha⟩
  have hc : convertInterface config false v = ConvertToValue config v := by
    unfold convertInterface
    rw [hv]
    rfl
  have hp : PanicFreeSlot v = PanicFree v := by
    cases v with
    | nil => simp [Value.Interface] at hv
    | iface d =>
      simp only [Value.Interface, Bool.false_eq_true, if_false, Except.ok.injEq] at hv
      have hsz := congrArg sizeOf hv
      simp at hsz
    | _ => rfl
  rw [hc]
  rw [hp] at h
  exact returns_of_switch config v (hs h)

mutual
theorem returnsOn_value (config : conversionConfiguration) : (v : Value) → ReturnsOn config v
  | .nil =>
    ⟨fun _ => returns_of_switch config _ ⟨_, rfl⟩, fun h => (by cases h),
     fun _ r => ⟨r, rfl⟩⟩
  | .iface d =>
    ⟨fun _ => returns_of_switch config _ ⟨d, rfl⟩,
     fun h => (returnsOn_value config d).1 h, fun _ r => ⟨r, rfl⟩⟩
  | .bool _ _ => returnsOn_of config _ (fun _ => ⟨_, rfl⟩) rfl (fun _ r => ⟨r, rfl⟩)
  | .int _ _ => returnsOn_of config _ (fun _ => ⟨_, rfl⟩) rfl (fun _ r => ⟨r, rfl⟩)
  | .str _ _ => returnsOn_of config _ (fun _ => ⟨_, rfl⟩) rfl (fun _ r => ⟨r, rfl⟩)
  | .chan _ _ => returnsOn_of config _ (fun _ => ⟨_, rfl⟩) rfl (fun _ r => ⟨r, rfl⟩)
  | .array _ _ => returnsOn_of config _ (fun _ => ⟨_, rfl⟩) rfl (fun _ r => ⟨r, rfl⟩)
  | .slice _ none => returnsOn_of config _ (fun _ => ⟨_, rfl⟩) rfl (fun _ r => ⟨r, rfl⟩)
  | .slice _ (some xs) =>
    returnsOn_of config _ (fun h => returnsOn_elems config xs none h) rfl (fun _ r => ⟨r, rfl⟩)
  | .map _ none => returnsOn_of config _ (fun _ => ⟨_, rfl⟩) rfl (fun _ r => ⟨r, rfl⟩)
  | .map _ (some es) =>
    returnsOn_of config _ (fun h => returns_map _ _ (returnsOn_entries config es [] h)) rfl
      (fun _ r => ⟨r, rfl⟩)
  | .struct _ fs =>
    returnsOn_of config _ (fun h => returns_map _ _ (returnsOn_fields config fs [] h)) rfl
      (fun h r => returnsOn_fields config fs r h)
  | .ptr _ none => returnsOn_of config _ (fun _ => ⟨_, rfl⟩) rfl (fun _ r => ⟨r, rfl⟩)
  | .ptr _ (some .nil) => returnsOn_of config _ (fun _ => ⟨_, rfl⟩) rfl (fun _ r => ⟨r, rfl⟩)
  | .ptr _ (some (.iface _)) =>
    returnsOn_of config _ (fun _ => ⟨_, rfl⟩) rfl (fun _ r => ⟨r, rfl⟩)
  | .ptr _ (some (.bool _ _)) =>
    returnsOn_of config _ (fun _ => ⟨_, rfl⟩) rfl (fun _ r => ⟨r, rfl⟩)
  | .ptr _ (some (.int _ _)) =>
    returnsOn_of config _ (fun _ => ⟨_, rfl⟩) rfl (fun _ r => ⟨r, rfl⟩)
  | .ptr _ (some (.str _ _)) =>
    returnsOn_of config _ (fun _ => ⟨_, rfl⟩) rfl (fun _ r => ⟨r, rfl⟩)
  | .ptr _ (some (.chan _ _)) =>
    returnsOn_of config _ (fun _ => ⟨_, rfl⟩) rfl (fun _ r => ⟨r, rfl⟩)
  | .ptr _ (some (.ptr _ _)) =>
    returnsOn_of config _ (fun _ => ⟨_, rfl⟩) rfl (fun _ r => ⟨r, rfl⟩)
  | .ptr _ (some (.array _ _)) =>
    returnsOn_of config _ (fun _ => ⟨_, rfl⟩) rfl (fun _ r => ⟨r, rfl⟩)
  | .ptr _ (some (.slice _ none)) =>
    returnsOn_of config _ (fun _ => ⟨_, rfl⟩) rfl (fun _ r => ⟨r, rfl⟩)
  | .ptr _ (some (.slice _ (some xs))) =>
    returnsOn_of config _ (fun h => returnsOn_elems config xs none h) rfl (fun _ r => ⟨r, rfl⟩)
  | .ptr _ (some (.map _ none)) =>
    returnsOn_of config _ (fun _ => ⟨_, rfl⟩) rfl (fun _ r => ⟨r, rfl⟩)
  | .ptr _ (some (.map _ (some es))) =>
    returnsOn_of config _ (fun h => returns_map _ _ (returnsOn_entries config es [] h)) rfl
      (fun _ r => ⟨r, rfl⟩)
  | .ptr _ (some (.struct _ fs)) =>
    returnsOn_of config _ (fun h => returns_map _ _ (returnsOn_fields config fs [] h)) rfl
      (fun h r => returnsOn_fields config fs r h)
termination_by structural v => v
theorem returnsOn_elems (config : conversionConfiguration) :
    (xs : List Value) → (result : Option (List Value)) → PanicFreeElems xs = true →
      ∃ o, convertFromSliceLoop config xs result = .ok o
  | [], result, _ => ⟨_, rfl⟩
  | x :: xs, result, h => by
    rw [PanicFreeElems_cons, Bool.and_eq_true] at h
    obtain ⟨o, ho⟩ := (returnsOn_value config x).2.1 h.1
    rw [sliceLoop_step, ho, ok_bind]
    exact returnsOn_elems config xs _ h.2
termination_by structural xs => xs
theorem returnsOn_entries (config : conversionConfiguration) :
    (es : List (Key × Value)) → (result : List (Key × Value)) → PanicFreeEntries es = true →
      ∃ r, convertFromMapLoop config es result = .ok r
  | [], result, _ => ⟨_, rfl⟩
  | (k, v) :: rest, result, h => by
    rw [PanicFreeEntries_cons, Bool.and_eq_true, Bool.and_eq_true] at h
    have hk : k ≠ Key.nan := of_decide_eq_true h.1.1
    have he : entryValue (k, v) = v := by simp [entryValue, hk]
    obtain ⟨o, ho⟩ := (returnsOn_value config v).2.1 h.1.2
    rw [mapLoop_step, he, ho, ok_bind]
    exact returnsOn_entries config rest _ h.2
termination_by structural es => es
theorem returnsOn_fields (config : conversionConfiguration) :
    (fs : List (StructField × Value)) → (result : List (Key × Value)) →
      PanicFreeFields fs = true → ∃ r, convertFromStructDeep config fs result = .ok r
  | [], result, _ => ⟨_, rfl⟩
  | (f, v) :: rest, result, h => by
    rw [PanicFreeFields_cons, Bool.and_eq_true] at h
    have hstep : ∃ r, fieldStep config f v result = .ok r := by
      unfold fieldStep
      by_cases ha : f.Anonymous = true
      · rw [if_pos ha]
        have h1 := h.1
        rw [if_pos ha] at h1
        exact (returnsOn_value config v).2.2 h1 result
      · rw [if_neg ha]
        refine namedField_returns config f v result (fun hp => ?_)
        have h1 := h.1
        rw [if_neg ha] at h1
        have hp2 : ¬ (f.PkgPath ≠ "") := fun hne => hne hp
        rw [if_neg hp2] at h1
        exact (returnsOn_value config v).2.1 h1
    obtain ⟨r, hr⟩ := hstep
    rw [structDeep_step, hr, ok_bind]
    exact returnsOn_fields config rest r h.2
termination_by structural fs => fs
end

/-- Away from the defect the conversion is total: it returns an output on every
value in which it reaches neither a map with a NaN key nor a storage position
holding the zero Value, whatever the configuration -/
theorem ConvertToValue_returns (config : conversionConfiguration) (v : Value)
    (h : PanicFree v = true) : ∃ o, ConvertToValue config v = .ok o :=
  (returnsOn_value config v).1 h

/-- C12. The claim holds that ConvertToValue returns an output for every input
and never raises.  The code does not meet it: on the map
`map[float64]int{math.NaN(): 1}` the lookup `rv.MapIndex(key)` misses the
NaN key and yields the zero Value, and `kv.Interface()` panics, under both
settings of the escape hatch; the same happens wherever such a map is nested. -/
theorem C12_nan_key_panics :
    ConvertToValue fluentConfig nanMap = .error Panic.interfaceOnZeroValue ∧
    ConvertToValue msgpConfig nanMap = .error Panic.interfaceOnZeroValue ∧
    ConvertToValue fluentConfig (Value.slice false (some [Value.iface nanMap])) =
      .error Panic.interfaceOnZeroValue :=
  ⟨rfl, rfl, rfl⟩

/-! ## Helper lemmas: the escape hatch on capability-free data -/

theorem NoMarshaler_flag (t : String) (v : Value) (h : NoMarshaler t v = true) :
    v.isMarshaler = false := by
  have key : ∀ (b c : Bool), (!b && c) = true → b = false := by
    intro b c hb
    cases b
    · rfl
    · simp at hb
  cases v with
  | ptr m e =>
    cases e with
    | none => exact key _ _ h
    | some w =>
      cases w with
      | slice m2 e => cases e <;> exact key _ _ h
      | map m2 e => cases e <;> exact key _ _ h
      | _ => exact key _ _ h
  | slice m e => cases e <;> exact key _ _ h
  | map m e => cases e <;> exact key _ _ h
  | _ => exact key _ _ h

theorem NoMarshalerElems_cons (t : String) (x : Value) (xs : List Value) :
    NoMarshalerElems t (x :: xs) = (NoMarshalerSlot t x && NoMarshalerElems t xs) := by
  cases x <;> rfl

theorem NoMarshalerEntries_cons (t : String) (k : Key) (v : Value) (rest : List (Key × Value)) :
    NoMarshalerEntries t ((k, v) :: rest) =
      (NoMarshalerSlot t v && NoMarshalerEntries t rest) := by
  cases v <;> rfl

theorem NoMarshalerFields_cons (t : String) (f : StructField) (v : Value)
    (rest : List (StructField × Value)) :
    NoMarshalerFields t ((f, v) :: rest) =
      ((if f.Anonymous then NoMarshalerAnonymous t v
        else if kept ⟨t, false⟩ (f, v) then NoMarshalerSlot t v else true) &&
        NoMarshalerFields t rest) := by
  cases v with
  | ptr m e =>
    cases e with
    | none => rfl
    | some w => cases w <;> rfl
  | _ => rfl

theorem hatchFree_of (t : String) (v : Value)
    (hs : NoMarshaler t v = true →
      kindSwitch ⟨t, true⟩ (toValue v) = kindSwitch ⟨t, false⟩ (toValue v))
    (hv : v.Interface false = .ok v)
    (ha : NoMarshalerAnonymous t v = true →
      ∀ result, anonymousField ⟨t, true⟩ v result = anonymousField ⟨t, false⟩ v result) :
    HatchFree t v := by
  have h1 : NoMarshaler t v = true →
      ConvertToValue ⟨t, true⟩ v = ConvertToValue ⟨t, false⟩ v := by
    intro h
    rw [ConvertToValue_eq_switch, ConvertToValue_eq_switch]
    simp only [NoMarshaler_flag t v h, Bool.and_false, Bool.false_and, Bool.false_eq_true,
      if_false, Bool.and_self]
    exact hs h
  refine ⟨h1, fun h => ?_, ha⟩
  have hc : ∀ c, convertInterface c false v = ConvertToValue c v := by
    intro c
    unfold convertInterface
    rw [hv]
    rfl
  have hp : NoMarshalerSlot t v = NoMarshaler t v := by
    cases v with
    | nil => simp [Value.Interface] at hv
    | iface d =>
      simp only [Value.Interface, Bool.false_eq_true, if_false, Except.ok.injEq] at hv
      have hsz := congrArg sizeOf hv
      simp at hsz
    | _ => rfl
  rw [hc, hc]
  rw [hp] at h
  exact h1 h

theorem namedField_hatch (t : String) (f : StructField) (v : Value)
    (result : List (Key × Value))
    (h : kept ⟨t, false⟩ (f, v) = true →
      convertInterface ⟨t, true⟩ false v = convertInterface ⟨t, false⟩ false v) :
    namedField ⟨t, true⟩ f v result = namedField ⟨t, false⟩ f v result := by
  unfold namedField
  by_cases hp : f.PkgPath ≠ ""
  · rw [if_pos hp, if_pos hp]
  · rw [if_neg hp, if_neg hp]
    by_cases hd : tagNameOf f t = "-"
    · rw [if_pos hd, if_pos hd]
    · rw [if_neg hd, if_neg hd]
      have hp2 : f.PkgPath = "" := not_not.1 hp
      by_cases ho : options.Has (tagOptionsOf f t) "omitempty" = true
      · simp only [ho, if_true]
        cases hz : isZero false v with
        | error e => rfl
        | ok b =>
          cases b with
          | true => rfl
          | false =>
            have hk : kept ⟨t, false⟩ (f, v) = true := by
              rw [kept_iff]
              refine ⟨hp2, hd, fun hc => ?_⟩
              have h2 := (isZeroValue_iff v).1 hc.2
              rw [hz] at h2
              cases h2
            simp only [ok_bind, Bool.false_eq_true, if_false]
            rw [h hk]
      · have hk : kept ⟨t, false⟩ (f, v) = true := by
          rw [kept_iff]
          exact ⟨hp2, hd, fun hc => ho hc.1⟩
        simp only [ho, if_false, ok_bind, Bool.false_eq_true]
        rw [h hk]

mutual
theorem hatchFree_value (t : String) : (v : Value) → HatchFree t v
  | .nil =>
    ⟨fun _ => (by rw [ConvertToValue_eq_switch, ConvertToValue_eq_switch]; rfl),
     fun _ => rfl, fun _ _ => rfl⟩
  | .iface d =>
    ⟨fun _ => (by rw [ConvertToValue_eq_switch, ConvertToValue_eq_switch]; rfl),
     fun h => (hatchFree_value t d).1 h, fun _ _ => rfl⟩
  | .bool _ _ => hatchFree_of t _ (fun _ => rfl) rfl (fun _ _ => rfl)
  | .int _ _ => hatchFree_of t _ (fun _ => rfl) rfl (fun _ _ => rfl)
  | .str _ _ => hatchFree_of t _ (fun _ => rfl) rfl (fun _ _ => rfl)
  | .chan _ _ => hatchFree_of t _ (fun _ => rfl) rfl (fun _ _ => rfl)
  | .array _ _ => hatchFree_of t _ (fun _ => rfl) rfl (fun _ _ => rfl)
  | .slice _ none => hatchFree_of t _ (fun _ => rfl) rfl (fun _ _ => rfl)
  | .slice _ (some xs) =>
    hatchFree_of t _
      (fun h => hatchFree_elems t xs none (Bool.and_eq_true_iff.1 h).2) rfl
      (fun _ _ => rfl)
  | .map _ none => hatchFree_of t _ (fun _ => rfl) rfl (fun _ _ => rfl)
  | .map _ (some es) =>
    hatchFree_of t _
      (fun h => congrArg (Except.map (fun result => Value.map false (some result)))
        (hatchFree_entries t es [] (Bool.and_eq_true_iff.1 h).2)) rfl
      (fun _ _ => rfl)
  | .struct _ fs =>
    hatchFree_of t _
      (fun h => congrArg (Except.map (fun result => Value.map false (some result)))
        (hatchFree_fields t fs [] (Bool.and_eq_true_iff.1 h).2)) rfl
      (fun h r => hatchFree_fields t fs r h)
  | .ptr _ none => hatchFree_of t _ (fun _ => rfl) rfl (fun _ _ => rfl)
  | .ptr _ (some .nil) => hatchFree_of t _ (fun _ => rfl) rfl (fun _ _ => rfl)
  | .ptr _ (some (.iface _)) => hatchFree_of t _ (fun _ => rfl) rfl (fun _ _ => rfl)
  | .ptr _ (some (.bool _ _)) => hatchFree_of t _ (fun _ => rfl) rfl (fun _ _ => rfl)
  | .ptr _ (some (.int _ _)) => hatchFree_of t _ (fun _ => rfl) rfl (fun _ _ => rfl)
  | .ptr _ (some (.str _ _)) => hatchFree_of t _ (fun _ => rfl) rfl (fun _ _ => rfl)
  | .ptr _ (some (.chan _ _)) => hatchFree_of t _ (fun _ => rfl) rfl (fun _ _ => rfl)
  | .ptr _ (some (.ptr _ _)) => hatchFree_of t _ (fun _ => rfl) rfl (fun _ _ => rfl)
  | .ptr _ (some (.array _ _)) => hatchFree_of t _ (fun _ => rfl) rfl (fun _ _ => rfl)
  | .ptr _ (some (.slice _ none)) => hatchFree_of t _ (fun _ => rfl) rfl (fun _ _ => rfl)
  | .ptr _ (some (.slice _ (some xs))) =>
    hatchFree_of t _
      (fun h => hatchFree_elems t xs none (Bool.and_eq_true_iff.1 h).2) rfl
      (fun _ _ => rfl)
  | .ptr _ (some (.map _ none)) => hatchFree_of t _ (fun _ => rfl) rfl (fun _ _ => rfl)
  | .ptr _ (some (.map _ (some es))) =>
    hatchFree_of t _
      (fun h => congrArg (Except.map (fun result => Value.map false (some result)))
        (hatchFree_entries t es [] (Bool.and_eq_true_iff.1 h).2)) rfl
      (fun _ _ => rfl)
  | .ptr _ (some (.struct _ fs)) =>
    hatchFree_of t _
      (fun h => congrArg (Except.map (fun result => Value.map false (some result)))
        (hatchFree_fields t fs [] (Bool.and_eq_true_iff.1 h).2)) rfl
      (fun h r => hatchFree_fields t fs r h)
termination_by structural v => v
theorem hatchFree_elems (t : String) :
    (xs : List Value) → (result : Option (List Value)) → NoMarshalerElems t xs = true →
      convertFromSliceLoop ⟨t, true⟩ xs result = convertFromSliceLoop ⟨t, false⟩ xs result
  | [], _, _ => rfl
  | x :: xs, result, h => by
    rw [NoMarshalerElems_cons, Bool.and_eq_true] at h
    rw [sliceLoop_step, sliceLoop_step, (hatchFree_value t x).2.1 h.1]
    congr 1
    funext o
    exact hatchFree_elems t xs _ h.2
termination_by structural xs => xs
theorem hatchFree_entries (t : String) :
    (es : List (Key × Value)) → (result : List (Key × Value)) →
      NoMarshalerEntries t es = true →
      convertFromMapLoop ⟨t, true⟩ es result = convertFromMapLoop ⟨t, false⟩ es result
  | [], _, _ => rfl
  | (k, v) :: rest, result, h => by
    rw [NoMarshalerEntries_cons, Bool.and_eq_true] at h
    have he : convertInterface ⟨t, true⟩ false (entryValue (k, v)) =
        convertInterface ⟨t, false⟩ false (entryValue (k, v)) := by
      unfold entryValue
      by_cases hk : k = Key.nan
      · simp only [hk, if_true]
        rfl
      · simp only [hk, if_false]
        exact (hatchFree_value t v).2.1 h.1
    rw [mapLoop_step, mapLoop_step, he]
    congr 1
    funext o
    exact hatchFree_entries t rest _ h.2
termination_by structural es => es
theorem hatchFree_fields (t : String) :
    (fs : List (StructField × Value)) → (result : List (Key × Value)) →
      NoMarshalerFields t fs = true →
      convertFromStructDeep ⟨t, true⟩ fs result = convertFromStructDeep ⟨t, false⟩ fs result
  | [], _, _ => rfl
  | (f, v) :: rest, result, h => by
    rw [NoMarshalerFields_cons, Bool.and_eq_true] at h
    have hstep : fieldStep ⟨t, true⟩ f v result = fieldStep ⟨t, false⟩ f v result := by
      unfold fieldStep
      by_cases ha : f.Anonymous = true
      · rw [if_pos ha, if_pos ha]
        have h1 := h.1
        rw [if_pos ha] at h1
        exact (hatchFree_value t v).2.2 h1 result
      · rw [if_neg ha, if_neg ha]
        refine namedField_hatch t f v result (fun hk => ?_)
        have h1 := h.1
        rw [if_neg ha, if_pos hk] at h1
        exact (hatchFree_value t v).2.1 h1
    rw [structDeep_step, structDeep_step, hstep]
    congr 1
    funext r
    exact hatchFree_fields t rest r h.2
termination_by structural fs => fs
end

/-! ## Helper lemmas: the capability with the escape hatch off -/

theorem eraseCapability_eq_nil (v : Value) : eraseCapability v = Value.nil ↔ v = Value.nil := by
  cases v with
  | nil => exact ⟨fun _ => rfl, fun _ => rfl⟩
  | ptr m e => cases e <;> exact ⟨fun h => (by cases h), fun h => (by cases h)⟩
  | slice m e => cases e <;> exact ⟨fun h => (by cases h), fun h => (by cases h)⟩
  | map m e => cases e <;> exact ⟨fun h => (by cases h), fun h => (by cases h)⟩
  | _ => exact ⟨fun h => (by cases h), fun h => (by cases h)⟩

theorem eraseCapability_valid (v : Value) : (eraseCapability v).IsValid = v.IsValid := by
  cases v with
  | ptr m e => cases e <;> rfl
  | slice m e => cases e <;> rfl
  | map m e => cases e <;> rfl
  | _ => rfl

mutual
theorem zero_erase : ∀ (v : Value),
    eraseCapability v = Zero (eraseCapability v) ↔ v = Zero v
  | .nil => ⟨fun _ => rfl, fun _ => rfl⟩
  | .iface d => by
    show Value.iface (eraseCapability d) = Value.iface Value.nil ↔
      Value.iface d = Value.iface Value.nil
    simp only [Value.iface.injEq]
    exact eraseCapability_eq_nil d
  | .bool m b => by
    show Value.bool false b = Value.bool false false ↔ Value.bool m b = Value.bool m false
    simp only [Value.bool.injEq, true_and]
  | .int m n => by
    show Value.int false n = Value.int false 0 ↔ Value.int m n = Value.int m 0
    simp only [Value.int.injEq, true_and]
  | .str m s => by
    show Value.str false s = Value.str false "" ↔ Value.str m s = Value.str m ""
    simp only [Value.str.injEq, true_and]
  | .chan m a => by
    show Value.chan false a = Value.chan false 0 ↔ Value.chan m a = Value.chan m 0
    simp only [Value.chan.injEq, true_and]
  | .ptr m none => ⟨fun _ => rfl, fun _ => rfl⟩
  | .ptr m (some w) => ⟨fun h => (by cases h), fun h => (by cases h)⟩
  | .array m xs => by
    show Value.array false (eraseCapabilityList xs) =
        Value.array false (ZeroList (eraseCapabilityList xs)) ↔
      Value.array m xs = Value.array m (ZeroList xs)
    simp only [Value.array.injEq, true_and]
    exact zero_eraseList xs
  | .slice m none => ⟨fun _ => rfl, fun _ => rfl⟩
  | .slice m (some xs) => ⟨fun h => (by cases h), fun h => (by cases h)⟩
  | .map m none => ⟨fun _ => rfl, fun _ => rfl⟩
  | .map m (some es) => ⟨fun h => (by cases h), fun h => (by cases h)⟩
  | .struct m fs => by
    show Value.struct false (eraseCapabilityFields fs) =
        Value.struct false (ZeroFields (eraseCapabilityFields fs)) ↔
      Value.struct m fs = Value.struct m (ZeroFields fs)
    simp only [Value.struct.injEq, true_and]
    exact zero_eraseFields fs
termination_by structural v => v
theorem zero_eraseList : ∀ (xs : List Value),
    eraseCapabilityList xs = ZeroList (eraseCapabilityList xs) ↔ xs = ZeroList xs
  | [] => ⟨fun _ => rfl, fun _ => rfl⟩
  | x :: xs => by
    show eraseCapability x :: eraseCapabilityList xs =
        Zero (eraseCapability x) :: ZeroList (eraseCapabilityList xs) ↔
      x :: xs = Zero x :: ZeroList xs
    simp only [List.cons.injEq]
    rw [zero_erase x, zero_eraseList xs]
termination_by structural xs => xs
theorem zero_eraseFields : ∀ (fs : List (StructField × Value)),
    eraseCapabilityFields fs = ZeroFields (eraseCapabilityFields fs) ↔ fs = ZeroFields fs
  | [] => ⟨fun _ => rfl, fun _ => rfl⟩
  | (f, v) :: fs => by
    show (f, eraseCapability v) :: eraseCapabilityFields fs =
        (f, Zero (eraseCapability v)) :: ZeroFields (eraseCapabilityFields fs) ↔
      (f, v) :: fs = (f, Zero v) :: ZeroFields fs
    simp only [List.cons.injEq, Prod.mk.injEq, true_and]
    rw [zero_erase v, zero_eraseFields fs]
termination_by structural fs => fs
end

theorem isZero_erase (v : Value) : isZero false (eraseCapability v) = isZero false v := by
  by_cases hv : v.IsValid = true
  · have hv2 : (eraseCapability v).IsValid = true := by rw [eraseCapability_valid, hv]
    rw [isZero_eq_DeepEqual v hv, isZero_eq_DeepEqual (eraseCapability v) hv2]
    congr 1
    rw [Bool.eq_iff_iff, DeepEqual_Zero, DeepEqual_Zero]
    exact zero_erase v
  · cases v <;> first | rfl | (simp [Value.IsValid] at hv)

theorem mapassign_erase (k : Key) (x : Value) (r : List (Key × Value)) :
    mapassign k (eraseCapability x) (eraseCapabilityEntries r) =
      eraseCapabilityEntries (mapassign k x r) := by
  induction r with
  | nil => rfl
  | cons e rest ih =>
    obtain ⟨k2, v2⟩ := e
    show (if Key.goEq k2 k then (k2, eraseCapability x) :: eraseCapabilityEntries rest
        else (k2, eraseCapability v2) :: mapassign k (eraseCapability x)
          (eraseCapabilityEntries rest)) =
      eraseCapabilityEntries (if Key.goEq k2 k then (k2, x) :: rest
        else (k2, v2) :: mapassign k x rest)
    by_cases hg : Key.goEq k2 k = true
    · rw [if_pos hg, if_pos hg]
      rfl
    · rw [if_neg hg, if_neg hg, ih]
      rfl

theorem eraseCapabilityList_append (xs ys : List Value) :
    eraseCapabilityList (xs ++ ys) = eraseCapabilityList xs ++ eraseCapabilityList ys := by
  induction xs with
  | nil => rfl
  | cons x xs ih =>
    show eraseCapability x :: eraseCapabilityList (xs ++ ys) =
      eraseCapability x :: eraseCapabilityList xs ++ eraseCapabilityList ys
    rw [ih]
    rfl

theorem sliceAppend_erase (result : Option (List Value)) (x : Value) :
    sliceAppend (result.map eraseCapabilityList) (eraseCapability x) =
      (sliceAppend result x).map eraseCapabilityList := by
  cases result with
  | none => rfl
  | some l =>
    show some (eraseCapabilityList l ++ [eraseCapability x]) =
      some (eraseCapabilityList (l ++ [x]))
    rw [eraseCapabilityList_append]
    rfl

theorem map_bind_except {α β : Type} (g : α → β) (x : Except Panic α) {γ : Type}
    (k : β → Except Panic γ) : (x.map g) >>= k = x >>= fun a => k (g a) := by
  cases x <;> rfl

theorem bind_map_except {α β γ : Type} (x : Except Panic α) (k : α → Except Panic β)
    (g : β → γ) : (x >>= k).map g = x >>= fun a => (k a).map g := by
  cases x <;> rfl

theorem namedField_erase (t : String) (f : StructField) (v : Value)
    (result : List (Key × Value))
    (h : convertInterface ⟨t, false⟩ false (eraseCapability v) =
      (convertInterface ⟨t, false⟩ false v).map eraseCapability) :
    namedField ⟨t, false⟩ f (eraseCapability v) (eraseCapabilityEntries result) =
      (namedField ⟨t, false⟩ f v result).map eraseCapabilityEntries := by
  unfold namedField
  by_cases hp : f.PkgPath ≠ ""
  · rw [if_pos hp, if_pos hp]
    rfl
  · rw [if_neg hp, if_neg hp]
    by_cases hd : tagNameOf f t = "-"
    · rw [if_pos hd, if_pos hd]
      rfl
    · rw [if_neg hd, if_neg hd, isZero_erase, bind_map_except]
      congr 1
      funext skip
      cases skip with
      | true => rfl
      | false =>
        simp only [Bool.false_eq_true, if_false]
        rw [h, map_bind_except, bind_map_except]
        congr 1
        funext o
        show Except.ok (mapassign (Key.str (outputKey f t)) (eraseCapability (Value.iface o))
            (eraseCapabilityEntries result)) = _
        rw [mapassign_erase]
        rfl

theorem capabilityBlind_of (t : String) (v : Value)
    (hs : kindSwitch ⟨t, false⟩ (toValue (eraseCapability v)) =
      (kindSwitch ⟨t, false⟩ (toValue v)).map eraseCapability)
    (hv : v.Interface false = .ok v)
    (hv2 : (eraseCapability v).Interface false = .ok (eraseCapability v))
    (ha : ∀ result,
      anonymousField ⟨t, false⟩ (eraseCapability v) (eraseCapabilityEntries result) =
        (anonymousField ⟨t, false⟩ v result).map eraseCapabilityEntries) :
    CapabilityBlind t v := by
  have h1 : ConvertToValue ⟨t, false⟩ (eraseCapability v) =
      (ConvertToValue ⟨t, false⟩ v).map eraseCapability := by
    rw [ConvertToValue_off ⟨t, false⟩ (eraseCapability v) rfl,
      ConvertToValue_off ⟨t, false⟩ v rfl]
    exact hs
  refine ⟨h1, ?_, ha⟩
  unfold convertInterface
  rw [hv, hv2]
  exact h1

mutual
theorem capabilityBlind_value (t : String) : (v : Value) → CapabilityBlind t v
  | .nil => ⟨rfl, rfl, fun _ => rfl⟩
  | .iface d =>
    ⟨rfl, (capabilityBlind_value t d).1, fun _ => rfl⟩
  | .bool _ _ => capabilityBlind_of t _ rfl rfl rfl (fun _ => rfl)
  | .int _ _ => capabilityBlind_of t _ rfl rfl rfl (fun _ => rfl)
  | .str _ _ => capabilityBlind_of t _ rfl rfl rfl (fun _ => rfl)
  | .chan _ _ => capabilityBlind_of t _ rfl rfl rfl (fun _ => rfl)
  | .array _ _ => capabilityBlind_of t _ rfl rfl rfl (fun _ => rfl)
  | .slice _ none => capabilityBlind_of t _ rfl rfl rfl (fun _ => rfl)
  | .slice _ (some xs) =>
    capabilityBlind_of t _ (capabilityBlind_elems t xs none) rfl rfl (fun _ => rfl)
  | .map _ none => capabilityBlind_of t _ rfl rfl rfl (fun _ => rfl)
  | .map _ (some es) =>
    capabilityBlind_of t _
      (by
        show (convertFromMapLoop ⟨t, false⟩ (eraseCapabilityEntries es) []).map _ =
          ((convertFromMapLoop ⟨t, false⟩ es []).map _).map eraseCapability
        have h : convertFromMapLoop ⟨t, false⟩ (eraseCapabilityEntries es) [] =
            (convertFromMapLoop ⟨t, false⟩ es []).map eraseCapabilityEntries :=
          capabilityBlind_entries t es []
        rw [h]
        cases convertFromMapLoop ⟨t, false⟩ es [] <;> rfl)
      rfl rfl (fun _ => rfl)
  | .struct _ fs =>
    capabilityBlind_of t _
      (by
        show (convertFromStructDeep ⟨t, false⟩ (eraseCapabilityFields fs) []).map _ =
          ((convertFromStructDeep ⟨t, false⟩ fs []).map _).map eraseCapability
        have h : convertFromStructDeep ⟨t, false⟩ (eraseCapabilityFields fs) [] =
            (convertFromStructDeep ⟨t, false⟩ fs []).map eraseCapabilityEntries :=
          capabilityBlind_fields t fs []
        rw [h]
        cases convertFromStructDeep ⟨t, false⟩ fs [] <;> rfl)
      rfl rfl (fun r => capabilityBlind_fields t fs r)
  | .ptr _ none => capabilityBlind_of t _ rfl rfl rfl (fun _ => rfl)
  | .ptr _ (some .nil) => capabilityBlind_of t _ rfl rfl rfl (fun _ => rfl)
  | .ptr _ (some (.iface _)) => capabilityBlind_of t _ rfl rfl rfl (fun _ => rfl)
  | .ptr _ (some (.bool _ _)) => capabilityBlind_of t _ rfl rfl rfl (fun _ => rfl)
  | .ptr _ (some (.int _ _)) => capabilityBlind_of t _ rfl rfl rfl (fun _ => rfl)
  | .ptr _ (some (.str _ _)) => capabilityBlind_of t _ rfl rfl rfl (fun _ => rfl)
  | .ptr _ (some (.chan _ _)) => capabilityBlind_of t _ rfl rfl rfl (fun _ => rfl)
  | .ptr _ (some (.ptr _ none)) => capabilityBlind_of t _ rfl rfl rfl (fun _ => rfl)
  | .ptr _ (some (.ptr _ (some _))) => capabilityBlind_of t _ rfl rfl rfl (fun _ => rfl)
  | .ptr _ (some (.array _ _)) => capabilityBlind_of t _ rfl rfl rfl (fun _ => rfl)
  | .ptr _ (some (.slice _ none)) => capabilityBlind_of t _ rfl rfl rfl (fun _ => rfl)
  | .ptr _ (some (.slice _ (some xs))) =>
    capabilityBlind_of t _ (capabilityBlind_elems t xs none) rfl rfl (fun _ => rfl)
  | .ptr _ (some (.map _ none)) => capabilityBlind_of t _ rfl rfl rfl (fun _ => rfl)
  | .ptr _ (some (.map _ (some es))) =>
    capabilityBlind_of t _
      (by
        show (convertFromMapLoop ⟨t, false⟩ (eraseCapabilityEntries es) []).map _ =
          ((convertFromMapLoop ⟨t, false⟩ es []).map _).map eraseCapability
        have h : convertFromMapLoop ⟨t, false⟩ (eraseCapabilityEntries es) [] =
            (convertFromMapLoop ⟨t, false⟩ es []).map eraseCapabilityEntries :=
          capabilityBlind_entries t es []
        rw [h]
        cases convertFromMapLoop ⟨t, false⟩ es [] <;> rfl)
      rfl rfl (fun _ => rfl)
  | .ptr _ (some (.struct _ fs)) =>
    capabilityBlind_of t _
      (by
        show (convertFromStructDeep ⟨t, false⟩ (eraseCapabilityFields fs) []).map _ =
          ((convertFromStructDeep ⟨t, false⟩ fs []).map _).map eraseCapability
        have h : convertFromStructDeep ⟨t, false⟩ (eraseCapabilityFields fs) [] =
            (convertFromStructDeep ⟨t, false⟩ fs []).map eraseCapabilityEntries :=
          capabilityBlind_fields t fs []
        rw [h]
        cases convertFromStructDeep ⟨t, false⟩ fs [] <;> rfl)
      rfl rfl (fun r => capabilityBlind_fields t fs r)
termination_by structural v => v
theorem capabilityBlind_elems (t : String) :
    (xs : List Value) → (result : Option (List Value)) →
      convertFromSliceLoop ⟨t, false⟩ (eraseCapabilityList xs)
          (result.map eraseCapabilityList) =
        (convertFromSliceLoop ⟨t, false⟩ xs result).map eraseCapability
  | [], result => by cases result <;> rfl
  | x :: xs, result => by
    show convertFromSliceLoop ⟨t, false⟩ (eraseCapability x :: eraseCapabilityList xs)
        (result.map eraseCapabilityList) = _
    rw [sliceLoop_step, sliceLoop_step, (capabilityBlind_value t x).2.1, map_bind_except,
      bind_map_except]
    congr 1
    funext o
    rw [show Value.iface (eraseCapability o) = eraseCapability (Value.iface o) from rfl,
      sliceAppend_erase]
    exact capabilityBlind_elems t xs _
termination_by structural xs => xs
theorem capabilityBlind_entries (t : String) :
    (es : List (Key × Value)) → (result : List (Key × Value)) →
      convertFromMapLoop ⟨t, false⟩ (eraseCapabilityEntries es)
          (eraseCapabilityEntries result) =
        (convertFromMapLoop ⟨t, false⟩ es result).map eraseCapabilityEntries
  | [], _ => rfl
  | (k, v) :: rest, result => by
    show convertFromMapLoop ⟨t, false⟩ ((k, eraseCapability v) :: eraseCapabilityEntries rest)
        (eraseCapabilityEntries result) = _
    have he : convertInterface ⟨t, false⟩ false (entryValue (k, eraseCapability v)) =
        (convertInterface ⟨t, false⟩ false (entryValue (k, v))).map eraseCapability := by
      unfold entryValue
      by_cases hk : k = Key.nan
      · simp only [hk, if_true]
        rfl
      · simp only [hk, if_false]
        exact (capabilityBlind_value t v).2.1
    rw [mapLoop_step, mapLoop_step, he, map_bind_except, bind_map_except]
    congr 1
    funext o
    rw [show Value.iface (eraseCapability o) = eraseCapability (Value.iface o) from rfl,
      mapassign_erase]
    exact capabilityBlind_entries t rest _
termination_by structural es => es
theorem capabilityBlind_fields (t : String) :
    (fs : List (StructField × Value)) → (result : List (Key × Value)) →
      convertFromStructDeep ⟨t, false⟩ (eraseCapabilityFields fs)
          (eraseCapabilityEntries result) =
        (convertFromStructDeep ⟨t, false⟩ fs result).map eraseCapabilityEntries
  | [], _ => rfl
  | (f, v) :: rest, result => by
    show convertFromStructDeep ⟨t, false⟩
        ((f, eraseCapability v) :: eraseCapabilityFields rest)
        (eraseCapabilityEntries result) = _
    have hstep : fieldStep ⟨t, false⟩ f (eraseCapability v) (eraseCapabilityEntries result) =
        (fieldStep ⟨t, false⟩ f v result).map eraseCapabilityEntries := by
      unfold fieldStep
      by_cases ha : f.Anonymous = true
      · rw [if_pos ha, if_pos ha]
        exact (capabilityBlind_value t v).2.2 result
      · rw [if_neg ha, if_neg ha]
        exact namedField_erase t f v result (capabilityBlind_value t v).2.1
    rw [structDeep_step, structDeep_step, hstep, map_bind_except, bind_map_except]
    congr 1
    funext r
    exact capabilityBlind_fields t rest r
termination_by structural fs => fs
end

/-- C20. The escape-hatch flag has no effect on capability-free data: for every
tag key and every value v such that neither v nor any value that the conversion
passes to ConvertToValue (values of kept fields, map values, slice elements)
has the custom-marshal capability, ConvertToValue gives the same result with
useMsgPack true and false.  And with useMsgPack false the capability never
changes the result: on every value w the conversion commutes with taking the
capability away from all types, so two inputs that differ only in capability
give results that differ only in the capability of the values passed through. -/
theorem C20_escape_hatch_capability_free (tagName : String) (v : Value)
    (h : NoMarshaler tagName v = true) :
    ConvertToValue ⟨tagName, true⟩ v = ConvertToValue ⟨tagName, false⟩ v ∧
    (∀ w : Value, ConvertToValue ⟨tagName, false⟩ (eraseCapability w) =
      (ConvertToValue ⟨tagName, false⟩ w).map eraseCapability) ∧
    (∀ w w2 : Value, eraseCapability w = eraseCapability w2 →
      (ConvertToValue ⟨tagName, false⟩ w).map eraseCapability =
        (ConvertToValue ⟨tagName, false⟩ w2).map eraseCapability) :=
  ⟨(hatchFree_value tagName v).1 h,
   fun w => (capabilityBlind_value tagName w).1,
   fun w w2 he => by
    rw [← (capabilityBlind_value tagName w).1, ← (capabilityBlind_value tagName w2).1, he]⟩

theorem C20_escape_hatch_capability_free_witness :
    NoMarshaler "fluent" unreadCapability = true ∧
    ConvertToValue ⟨"fluent", true⟩ unreadCapability =
      ConvertToValue ⟨"fluent", false⟩ unreadCapability ∧
    (∀ w : Value, ConvertToValue ⟨"fluent", false⟩ (eraseCapability w) =
      (ConvertToValue ⟨"fluent", false⟩ w).map eraseCapability) ∧
    (∀ w w2 : Value, eraseCapability w = eraseCapability w2 →
      (ConvertToValue ⟨"fluent", false⟩ w).map eraseCapability =
        (ConvertToValue ⟨"fluent", false⟩ w2).map eraseCapability) :=
  ⟨rfl, C20_escape_hatch_capability_free "fluent" unreadCapability rfl⟩

/-! ## Helper lemmas: plain data -/

theorem PlainElems_cons (hatch : Bool) (x : Value) (xs : List Value) :
    PlainElems hatch (x :: xs) = (PlainSlot hatch x && PlainElems hatch xs) := by
  cases x <;> rfl

theorem PlainEntries_cons (hatch : Bool) (k : Key) (v : Value) (rest : List (Key × Value)) :
    PlainEntries hatch ((k, v) :: rest) =
      (Key.isStr k && PlainSlot hatch v && PlainEntries hatch rest) := by
  cases k <;> cases v <;> rfl

theorem FlatElems_cons (hatch : Bool) (t : String) (x : Value) (xs : List Value) :
    FlatElems hatch t (x :: xs) = (FlatSlot hatch t x && FlatElems hatch t xs) := by
  cases x <;> rfl

theorem FlatEntries_cons (hatch : Bool) (t : String) (k : Key) (v : Value)
    (rest : List (Key × Value)) :
    FlatEntries hatch t ((k, v) :: rest) = (FlatSlot hatch t v && FlatEntries hatch t rest) := by
  cases v <;> rfl

theorem FlatFields_cons (hatch : Bool) (t : String) (f : StructField) (v : Value)
    (rest : List (StructField × Value)) :
    FlatFields hatch t ((f, v) :: rest) =
      ((if f.Anonymous then FlatAnonymous hatch t v
        else if kept ⟨t, hatch⟩ (f, v) then FlatSlot hatch t v else true) &&
        FlatFields hatch t rest) := by
  cases v with
  | ptr m e =>
    cases e with
    | none => rfl
    | some w => cases w <;> rfl
  | _ => rfl

theorem PlainSlot_iff (hatch : Bool) (v : Value) :
    PlainSlot hatch v = true ↔ ∃ o, v = Value.iface o ∧ Plain hatch o = true := by
  cases v with
  | iface d => exact ⟨fun h => ⟨d, rfl, h⟩, fun ⟨o, ho, hp⟩ => (by cases ho; exact hp)⟩
  | _ => exact ⟨fun h => (by cases h), fun ⟨o, ho, _⟩ => (by cases ho)⟩

theorem Key.isStr_iff (k : Key) : Key.isStr k = true ↔ ∃ s, k = Key.str s := by
  cases k with
  | str s => exact ⟨fun _ => ⟨s, rfl⟩, fun _ => rfl⟩
  | _ => exact ⟨fun h => (by cases h), fun ⟨s, hs⟩ => (by cases hs)⟩

theorem PlainElems_append (hatch : Bool) (xs ys : List Value) :
    PlainElems hatch (xs ++ ys) = (PlainElems hatch xs && PlainElems hatch ys) := by
  induction xs with
  | nil => rfl
  | cons x xs ih =>
    rw [List.cons_append, PlainElems_cons, PlainElems_cons, ih, Bool.and_assoc]

theorem PlainEntries_append (hatch : Bool) (xs ys : List (Key × Value)) :
    PlainEntries hatch (xs ++ ys) = (PlainEntries hatch xs && PlainEntries hatch ys) := by
  induction xs with
  | nil => rfl
  | cons e xs ih =>
    obtain ⟨k, v⟩ := e
    rw [List.cons_append, PlainEntries_cons, PlainEntries_cons, ih]
    simp only [Bool.and_assoc]

theorem Plain_eq (hatch : Bool) (o : Value) :
    Plain hatch o = ((hatch && o.isMarshaler) || PlainBody hatch o) := by
  cases o with
  | slice m e => cases e <;> rfl
  | map m e => cases e <;> rfl
  | _ => rfl

theorem Flat_eq (hatch : Bool) (t : String) (p : Value) :
    Flat hatch t p = ((hatch && p.isMarshaler) || FlatBody hatch t p) := by
  cases p with
  | ptr m e =>
    cases e with
    | none => rfl
    | some w =>
      cases w with
      | slice m2 e => cases e <;> rfl
      | map m2 e => cases e <;> rfl
      | _ => rfl
  | slice m e => cases e <;> rfl
  | map m e => cases e <;> rfl
  | _ => rfl

theorem mapassign_fresh (k : Key) (x : Value) (acc : List (Key × Value))
    (h : k ∉ keysOf acc) : mapassign k x acc = acc ++ [(k, x)] := by
  induction acc with
  | nil => rfl
  | cons e rest ih =>
    obtain ⟨k2, v2⟩ := e
    have hne : k2 ≠ k := fun he => h (by simp [keysOf, he])
    have hrest : k ∉ keysOf rest := fun hm => h (by
      simp only [keysOf, List.map_cons, List.mem_cons]
      exact Or.inr hm)
    have hg : Key.goEq k2 k = false := by simp [Key.goEq, hne]
    show (if Key.goEq k2 k then (k2, x) :: rest else (k2, v2) :: mapassign k x rest) = _
    rw [hg, ih hrest]
    rfl

theorem reconvert_of (config : conversionConfiguration) (v : Value)
    (hs : PlainBody config.useMsgPack v = true → kindSwitch config (toValue v) = .ok v)
    (h : Plain config.useMsgPack v = true) : ConvertToValue config v = .ok v := by
  rw [ConvertToValue_eq_switch]
  by_cases hm : (config.useMsgPack && v.isMarshaler) = true
  · rw [if_pos hm]
  · rw [if_neg hm]
    rw [Plain_eq, Bool.or_eq_true] at h
    exact hs (h.resolve_left hm)

mutual
theorem reconverts_value (config : conversionConfiguration) :
    (v : Value) → Reconverts config v
  | .nil => ⟨reconvert_of config _ (fun _ => rfl), fun _ ho _ => (by cases ho)⟩
  | .iface d =>
    ⟨reconvert_of config _ (fun h => (by cases h)),
     fun o ho hp => (by cases ho; exact (reconverts_value config d).1 hp)⟩
  | .bool _ _ => ⟨reconvert_of config _ (fun _ => rfl), fun _ ho _ => (by cases ho)⟩
  | .int _ _ => ⟨reconvert_of config _ (fun _ => rfl), fun _ ho _ => (by cases ho)⟩
  | .str _ _ => ⟨reconvert_of config _ (fun _ => rfl), fun _ ho _ => (by cases ho)⟩
  | .chan _ _ => ⟨reconvert_of config _ (fun h => (by cases h)), fun _ ho _ => (by cases ho)⟩
  | .ptr _ _ => ⟨reconvert_of config _ (fun h => (by cases h)), fun _ ho _ => (by cases ho)⟩
  | .array _ _ => ⟨reconvert_of config _ (fun h => (by cases h)), fun _ ho _ => (by cases ho)⟩
  | .struct _ _ => ⟨reconvert_of config _ (fun h => (by cases h)), fun _ ho _ => (by cases ho)⟩
  | .slice m none =>
    ⟨reconvert_of config _ (fun h => (by
      cases m with
      | true => cases h
      | false => rfl)), fun _ ho _ => (by cases ho)⟩
  | .slice m (some xs) =>
    ⟨reconvert_of config _ (fun h => (by
      cases m with
      | true => cases h
      | false =>
        have h2 : (!xs.isEmpty && PlainElems config.useMsgPack xs) = true := h
        rw [Bool.and_eq_true] at h2
        show convertFromSliceLoop config xs none = _
        rw [reconverts_elems config xs none h2.2]
        cases xs with
        | nil => cases h2.1
        | cons x xs => rfl)), fun _ ho _ => (by cases ho)⟩
  | .map m none => ⟨reconvert_of config _ (fun h => (by cases h)), fun _ ho _ => (by cases ho)⟩
  | .map m (some es) =>
    ⟨reconvert_of config _ (fun h => (by
      cases m with
      | true => cases h
      | false =>
        have h2 : (PlainEntries config.useMsgPack es &&
            decide ((es.map Prod.fst).Nodup)) = true := h
        rw [Bool.and_eq_true] at h2
        show (convertFromMapLoop config es []).map _ = _
        rw [reconverts_entries config es [] h2.1 (of_decide_eq_true h2.2)]
        rfl)), fun _ ho _ => (by cases ho)⟩
termination_by structural v => v
theorem reconverts_elems (config : conversionConfiguration) :
    (xs : List Value) → (acc : Option (List Value)) →
      PlainElems config.useMsgPack xs = true →
      convertFromSliceLoop config xs acc =
        .ok (Value.slice false (if xs.isEmpty then acc else some (acc.getD [] ++ xs)))
  | [], _, _ => rfl
  | x :: xs, acc, h => by
    rw [PlainElems_cons, Bool.and_eq_true] at h
    obtain ⟨o, ho, hp⟩ := (PlainSlot_iff _ x).1 h.1
    have hc : convertInterface config false x = .ok o := by
      rw [ho]
      exact (reconverts_value config x).2 o ho hp
    rw [sliceLoop_step, hc, ok_bind, reconverts_elems config xs _ h.2, ← ho]
    cases xs with
    | nil => rfl
    | cons y ys =>
      show Except.ok (Value.slice false (some ((acc.getD [] ++ [x]) ++ y :: ys))) = _
      rw [List.append_assoc]
      rfl
termination_by structural xs => xs
theorem reconverts_entries (config : conversionConfiguration) :
    (es : List (Key × Value)) → (acc : List (Key × Value)) →
      PlainEntries config.useMsgPack es = true → (keysOf (acc ++ es)).Nodup →
      convertFromMapLoop config es acc = .ok (acc ++ es)
  | [], acc, _, _ => by rw [List.append_nil]; rfl
  | (k, v) :: rest, acc, h, hn => by
    rw [PlainEntries_cons, Bool.and_eq_true, Bool.and_eq_true] at h
    obtain ⟨s, hs⟩ := (Key.isStr_iff k).1 h.1.1
    obtain ⟨o, ho, hp⟩ := (PlainSlot_iff _ v).1 h.1.2
    have he : entryValue (k, v) = v := by simp [entryValue, hs]
    have hc : convertInterface config false v = .ok o := by
      rw [ho]
      exact (reconverts_value config v).2 o ho hp
    have hk : Key.str (Sprint k) = k := by rw [hs]; rfl
    have hfresh : k ∉ keysOf acc := by
      intro hm
      simp only [keysOf, List.map_append, List.map_cons] at hn
      rw [List.nodup_append] at hn
      exact hn.2.2 hm (List.mem_cons_self _ _)
    rw [mapLoop_step, he, hc, ok_bind, hk, ← ho, mapassign_fresh k v acc hfresh,
      reconverts_entries config rest _ h.2 (by rw [List.append_assoc]; exact hn),
      List.append_assoc]
    rfl
termination_by structural es => es
end

theorem Plain_of_body (hatch : Bool) (o : Value) (h : PlainBody hatch o = true) :
    Plain hatch o = true := by
  rw [Plain_eq, h, Bool.or_true]

theorem bind_eq_ok {α β : Type} (x : Except Panic α) (k : α → Except Panic β) (b : β)
    (h : x >>= k = .ok b) : ∃ a, x = .ok a ∧ k a = .ok b := by
  cases x with
  | error e => cases h
  | ok a => exact ⟨a, rfl, h⟩

theorem map_eq_ok {α β : Type} (x : Except Panic α) (g : α → β) (b : β)
    (h : x.map g = .ok b) : ∃ a, x = .ok a ∧ b = g a := by
  cases x with
  | error e => cases h
  | ok a =>
    refine ⟨a, rfl, ?_⟩
    have h2 : (Except.ok (g a) : Except Panic β) = .ok b := h
    injection h2 with h3
    exact h3.symm

theorem keysOf_mapassign_eq (k : Key) (hk : k ≠ Key.nan) (x : Value)
    (acc : List (Key × Value)) :
    keysOf (mapassign k x acc) = if k ∈ keysOf acc then keysOf acc else keysOf acc ++ [k] := by
  induction acc with
  | nil => rfl
  | cons e rest ih =>
    obtain ⟨k2, v2⟩ := e
    show keysOf (if Key.goEq k2 k then (k2, x) :: rest else (k2, v2) :: mapassign k x rest) = _
    by_cases he : k2 = k
    · have hg : Key.goEq k2 k = true := by simp [Key.goEq, he, hk]
      rw [if_pos hg]
      have hm : k ∈ keysOf ((k2, v2) :: rest) := by simp [keysOf, he]
      rw [if_pos hm]
      rfl
    · have hg : ¬ Key.goEq k2 k = true := by simp [Key.goEq, he]
      rw [if_neg hg]
      show k2 :: keysOf (mapassign k x rest) = _
      rw [ih]
      have hiff : k ∈ keysOf ((k2, v2) :: rest) ↔ k ∈ keysOf rest := by
        simp only [keysOf, List.map_cons, List.mem_cons]
        constructor
        · intro h
          rcases h with h | h
          · exact absurd h.symm he
          · exact h
        · intro h
          exact Or.inr h
      by_cases hm : k ∈ keysOf rest
      · rw [if_pos hm, if_pos (hiff.2 hm)]
        rfl
      · rw [if_neg hm, if_neg (fun h => hm (hiff.1 h))]
        rfl

theorem PlainEntries_mapassign (hatch : Bool) (s : String) (o : Value)
    (acc : List (Key × Value)) (ho : Plain hatch o = true)
    (h : PlainEntries hatch acc = true) :
    PlainEntries hatch (mapassign (Key.str s) (Value.iface o) acc) = true := by
  induction acc with
  | nil =>
    show PlainEntries hatch [(Key.str s, Value.iface o)] = true
    rw [PlainEntries_cons, Bool.and_eq_true, Bool.and_eq_true]
    exact ⟨⟨rfl, ho⟩, rfl⟩
  | cons e rest ih =>
    obtain ⟨k2, v2⟩ := e
    rw [PlainEntries_cons, Bool.and_eq_true, Bool.and_eq_true] at h
    show PlainEntries hatch (if Key.goEq k2 (Key.str s) then (k2, Value.iface o) :: rest
      else (k2, v2) :: mapassign (Key.str s) (Value.iface o) rest) = true
    by_cases hg : Key.goEq k2 (Key.str s) = true
    · rw [if_pos hg, PlainEntries_cons, Bool.and_eq_true, Bool.and_eq_true]
      exact ⟨⟨h.1.1, ho⟩, h.2⟩
    · rw [if_neg hg, PlainEntries_cons, Bool.and_eq_true, Bool.and_eq_true]
      exact ⟨h.1, ih h.2⟩

theorem PlainMap_mapassign (hatch : Bool) (s : String) (o : Value)
    (acc : List (Key × Value)) (ho : Plain hatch o = true) (h : PlainMap hatch acc) :
    PlainMap hatch (mapassign (Key.str s) (Value.iface o) acc) := by
  refine ⟨PlainEntries_mapassign hatch s o acc ho h.1, ?_⟩
  rw [keysOf_mapassign_eq (Key.str s) (fun hh => (by cases hh)) _ acc]
  by_cases hm : Key.str s ∈ keysOf acc
  · rw [if_pos hm]
    exact h.2
  · rw [if_neg hm, List.nodup_append]
    refine ⟨h.2, List.nodup_singleton _, ?_⟩
    intro a ha hb
    rw [List.mem_singleton] at hb
    exact hm (hb ▸ ha)

theorem PlainMap_nil (hatch : Bool) : PlainMap hatch [] := ⟨rfl, List.nodup_nil⟩

theorem Plain_of_PlainMap (hatch : Bool) (r : List (Key × Value)) (h : PlainMap hatch r) :
    Plain hatch (Value.map false (some r)) = true := by
  apply Plain_of_body
  show (PlainEntries hatch r && decide ((r.map Prod.fst).Nodup)) = true
  rw [Bool.and_eq_true]
  exact ⟨h.1, decide_eq_true h.2⟩

theorem Plain_of_PlainSlice (hatch : Bool) (acc : Option (List Value))
    (h : PlainSlice hatch acc) : Plain hatch (Value.slice false acc) = true := by
  apply Plain_of_body
  cases acc with
  | none => rfl
  | some l =>
    show (!l.isEmpty && PlainElems hatch l) = true
    rw [Bool.and_eq_true]
    refine ⟨?_, h.2⟩
    cases l with
    | nil => exact absurd rfl h.1
    | cons x xs => rfl

theorem PlainSlice_append (hatch : Bool) (acc : Option (List Value)) (o : Value)
    (ho : Plain hatch o = true) (h : PlainSlice hatch acc) :
    PlainSlice hatch (sliceAppend acc (Value.iface o)) := by
  have hone : PlainElems hatch [Value.iface o] = true := by
    rw [PlainElems_cons, Bool.and_eq_true]
    exact ⟨ho, rfl⟩
  cases acc with
  | none => exact ⟨by simp, hone⟩
  | some l =>
    refine ⟨by simp, ?_⟩
    show PlainElems hatch (l ++ [Value.iface o]) = true
    rw [PlainElems_append, Bool.and_eq_true]
    exact ⟨h.2, hone⟩

theorem namedField_ok_inv (config : conversionConfiguration) (f : StructField) (v : Value)
    (acc r : List (Key × Value)) (h : namedField config f v acc = .ok r) :
    r = acc ∨ (kept config (f, v) = true ∧ ∃ o, convertInterface config false v = .ok o ∧
      r = mapassign (Key.str (outputKey f config.tagName)) (Value.iface o) acc) := by
  by_cases hk : kept config (f, v) = true
  · cases hc : convertInterface config false v with
    | ok o =>
      rw [namedField_kept config f v o acc hk hc] at h
      injection h with h2
      exact Or.inr ⟨hk, o, rfl, h2.symm⟩
    | error e =>
      exfalso
      obtain ⟨hp, ht, hz⟩ := (kept_iff config f v).1 hk
      unfold namedField at h
      have hp2 : ¬ (f.PkgPath ≠ "") := fun hne => hne hp
      rw [if_neg hp2, if_neg ht] at h
      obtain ⟨skip, _, h3⟩ := bind_eq_ok _ _ _ h
      cases skip with
      | true =>
        rename_i hs
        by_cases hom : options.Has (tagOptionsOf f config.tagName) "omitempty" = true
        · rw [if_pos hom] at hs
          exact hz ⟨hom, (isZeroValue_iff v).2 hs⟩
        · rw [if_neg hom] at hs
          cases hs
      | false =>
        simp only [Bool.false_eq_true, if_false] at h3
        rw [hc] at h3
        cases h3
  · have hk2 : kept config (f, v) = false := by simpa using hk
    rw [namedField_skipped config f v acc hk2] at h
    injection h with h2
    exact Or.inl h2.symm

theorem convertsFully_of (hatch : Bool) (t : String) (v : Value)
    (hs : FlatBody hatch t v = true →
      ∀ o, kindSwitch ⟨t, hatch⟩ (toValue v) = .ok o → Plain hatch o = true)
    (hv : v.Interface false = .ok v)
    (ha : FlatAnonymous hatch t v = true →
      ∀ acc r, anonymousField ⟨t, hatch⟩ v acc = .ok r → PlainMap hatch acc →
        PlainMap hatch r) :
    ConvertsFully hatch t v := by
  have h1 : Flat hatch t v = true →
      ∀ o, ConvertToValue ⟨t, hatch⟩ v = .ok o → Plain hatch o = true := by
    intro h o ho
    rw [ConvertToValue_eq_switch] at ho
    by_cases hm : (hatch && v.isMarshaler) = true
    · have hm2 : ((⟨t, hatch⟩ : conversionConfiguration).useMsgPack && v.isMarshaler) = true :=
        hm
      rw [if_pos hm2] at ho
      injection ho with ho2
      rw [← ho2, Plain_eq, hm, Bool.true_or]
    · have hm2 :
          ¬ ((⟨t, hatch⟩ : conversionConfiguration).useMsgPack && v.isMarshaler) = true := hm
      rw [if_neg hm2] at ho
      rw [Flat_eq, Bool.or_eq_true] at h
      exact hs (h.resolve_left hm) o ho
  refine ⟨h1, fun h o ho => ?_, ha⟩
  have hc : convertInterface ⟨t, hatch⟩ false v = ConvertToValue ⟨t, hatch⟩ v := by
    unfold convertInterface
    rw [hv]
    rfl
  have hp : FlatSlot hatch t v = Flat hatch t v := by
    cases v with
    | nil => simp [Value.Interface] at hv
    | iface d =>
      simp only [Value.Interface, Bool.false_eq_true, if_false, Except.ok.injEq] at hv
      have hsz := congrArg sizeOf hv
      simp at hsz
    | _ => rfl
  rw [hc] at ho
  rw [hp] at h
  exact h1 h o ho

theorem plain_of_ok (hatch : Bool) (v o : Value) (hp : PlainBody hatch v = true)
    (ho : (Except.ok v : Except Panic Value) = .ok o) : Plain hatch o = true := by
  injection ho with h
  rw [← h]
  exact Plain_of_body hatch v hp

theorem plain_of_map_ok (hatch : Bool) (x : Except Panic (List (Key × Value))) (o : Value)
    (hx : ∀ r, x = .ok r → PlainMap hatch r)
    (ho : x.map (fun result => Value.map false (some result)) = .ok o) :
    Plain hatch o = true := by
  obtain ⟨r, hr, hor⟩ := map_eq_ok _ _ _ ho
  rw [hor]
  exact Plain_of_PlainMap hatch r (hx r hr)

mutual
theorem convertsFully_value (hatch : Bool) (t : String) :
    (v : Value) → ConvertsFully hatch t v
  | .nil =>
    ⟨fun _ o ho => (by
        rw [ConvertToValue_eq_switch,
          show kindSwitch ⟨t, hatch⟩ (toValue Value.nil) = .ok Value.nil from rfl,
          ite_self] at ho
        exact plain_of_ok hatch Value.nil o rfl ho),
     fun h => (by cases h),
     fun _ acc r hr hacc => (by
        have h2 : (Except.ok acc : Except Panic (List (Key × Value))) = .ok r := hr
        injection h2 with h3
        rw [← h3]
        exact hacc)⟩
  | .iface d =>
    ⟨fun h => (by
        rw [Flat_eq] at h
        have h2 : ((hatch && false) || false) = true := h
        simp at h2),
     fun h o ho => (convertsFully_value hatch t d).1 h o ho,
     fun _ acc r hr hacc => (by
        have h2 : (Except.ok acc : Except Panic (List (Key × Value))) = .ok r := hr
        injection h2 with h3
        rw [← h3]
        exact hacc)⟩
  | .bool m b =>
    convertsFully_of hatch t _ (fun _ o ho => plain_of_ok hatch (Value.bool m b) o rfl ho) rfl
      (fun _ acc r hr hacc => (by cases hr; exact hacc))
  | .int m n =>
    convertsFully_of hatch t _ (fun _ o ho => plain_of_ok hatch (Value.int m n) o rfl ho) rfl
      (fun _ acc r hr hacc => (by cases hr; exact hacc))
  | .str m s =>
    convertsFully_of hatch t _ (fun _ o ho => plain_of_ok hatch (Value.str m s) o rfl ho) rfl
      (fun _ acc r hr hacc => (by cases hr; exact hacc))
  | .chan _ _ =>
    convertsFully_of hatch t _ (fun _ o ho => plain_of_ok hatch Value.nil o rfl ho) rfl
      (fun _ acc r hr hacc => (by cases hr; exact hacc))
  | .array _ _ =>
    convertsFully_of hatch t _ (fun h => (by cases h)) rfl
      (fun _ acc r hr hacc => (by cases hr; exact hacc))
  | .slice _ none =>
    convertsFully_of hatch t _
      (fun _ o ho => plain_of_ok hatch (Value.slice false none) o rfl ho) rfl
      (fun _ acc r hr hacc => (by cases hr; exact hacc))
  | .slice _ (some xs) =>
    convertsFully_of hatch t _ (fun h o ho => convertsFully_elems hatch t xs none h o ho trivial)
      rfl (fun _ acc r hr hacc => (by cases hr; exact hacc))
  | .map _ none =>
    convertsFully_of hatch t _
      (fun _ o ho => (by
        have h2 : (Except.ok (Value.map false (some [])) : Except Panic Value) = .ok o := ho
        injection h2 with h3
        rw [← h3]
        exact Plain_of_PlainMap hatch [] (PlainMap_nil hatch))) rfl
      (fun _ acc r hr hacc => (by cases hr; exact hacc))
  | .map _ (some es) =>
    convertsFully_of hatch t _
      (fun h o ho => plain_of_map_ok hatch _ o
        (fun r hr => convertsFully_entries hatch t es [] r h hr (PlainMap_nil hatch)) ho)
      rfl (fun _ acc r hr hacc => (by cases hr; exact hacc))
  | .struct _ fs =>
    convertsFully_of hatch t _
      (fun h o ho => plain_of_map_ok hatch _ o
        (fun r hr => convertsFully_fields hatch t fs [] r h hr (PlainMap_nil hatch)) ho)
      rfl (fun h acc r hr hacc => convertsFully_fields hatch t fs acc r h hr hacc)
  | .ptr _ none =>
    convertsFully_of hatch t _ (fun _ o ho => plain_of_ok hatch Value.nil o rfl ho) rfl
      (fun _ acc r hr hacc => (by cases hr; exact hacc))
  | .ptr _ (some .nil) =>
    convertsFully_of hatch t _ (fun _ o ho => plain_of_ok hatch Value.nil o rfl ho) rfl
      (fun _ acc r hr hacc => (by cases hr; exact hacc))
  | .ptr _ (some (.iface _)) =>
    convertsFully_of hatch t _ (fun h => (by cases h)) rfl
      (fun _ acc r hr hacc => (by cases hr; exact hacc))
  | .ptr _ (some (.bool m b)) =>
    convertsFully_of hatch t _ (fun _ o ho => plain_of_ok hatch (Value.bool m b) o rfl ho) rfl
      (fun _ acc r hr hacc => (by cases hr; exact hacc))
  | .ptr _ (some (.int m n)) =>
    convertsFully_of hatch t _ (fun _ o ho => plain_of_ok hatch (Value.int m n) o rfl ho) rfl
      (fun _ acc r hr hacc => (by cases hr; exact hacc))
  | .ptr _ (some (.str m s)) =>
    convertsFully_of hatch t _ (fun _ o ho => plain_of_ok hatch (Value.str m s) o rfl ho) rfl
      (fun _ acc r hr hacc => (by cases hr; exact hacc))
  | .ptr _ (some (.chan _ _)) =>
    convertsFully_of hatch t _ (fun _ o ho => plain_of_ok hatch Value.nil o rfl ho) rfl
      (fun _ acc r hr hacc => (by cases hr; exact hacc))
  | .ptr _ (some (.ptr _ _)) =>
    convertsFully_of hatch t _ (fun h => (by cases h)) rfl
      (fun _ acc r hr hacc => (by cases hr; exact hacc))
  | .ptr _ (some (.array _ _)) =>
    convertsFully_of hatch t _ (fun h => (by cases h)) rfl
      (fun _ acc r hr hacc => (by cases hr; exact hacc))
  | .ptr _ (some (.slice _ none)) =>
    convertsFully_of hatch t _
      (fun _ o ho => plain_of_ok hatch (Value.slice false none) o rfl ho) rfl
      (fun _ acc r hr hacc => (by cases hr; exact hacc))
  | .ptr _ (some (.slice _ (some xs))) =>
    convertsFully_of hatch t _ (fun h o ho => convertsFully_elems hatch t xs none h o ho trivial)
      rfl (fun _ acc r hr hacc => (by cases hr; exact hacc))
  | .ptr _ (some (.map _ none)) =>
    convertsFully_of hatch t _
      (fun _ o ho => (by
        have h2 : (Except.ok (Value.map false (some [])) : Except Panic Value) = .ok o := ho
        injection h2 with h3
        rw [← h3]
        exact Plain_of_PlainMap hatch [] (PlainMap_nil hatch))) rfl
      (fun _ acc r hr hacc => (by cases hr; exact hacc))
  | .ptr _ (some (.map _ (some es))) =>
    convertsFully_of hatch t _
      (fun h o ho => plain_of_map_ok hatch _ o
        (fun r hr => convertsFully_entries hatch t es [] r h hr (PlainMap_nil hatch)) ho)
      rfl (fun _ acc r hr hacc => (by cases hr; exact hacc))
  | .ptr _ (some (.struct _ fs)) =>
    convertsFully_of hatch t _
      (fun h o ho => plain_of_map_ok hatch _ o
        (fun r hr => convertsFully_fields hatch t fs [] r h hr (PlainMap_nil hatch)) ho)
      rfl (fun h acc r hr hacc => convertsFully_fields hatch t fs acc r h hr hacc)
termination_by structural v => v
theorem convertsFully_elems (hatch : Bool) (t : String) :
    (xs : List Value) → (acc : Option (List Value)) → FlatElems hatch t xs = true →
      ∀ o, convertFromSliceLoop ⟨t, hatch⟩ xs acc = .ok o → PlainSlice hatch acc →
        Plain hatch o = true
  | [], acc, _, o, ho, hacc => by
    have h2 : (Except.ok (Value.slice false acc) : Except Panic Value) = .ok o := ho
    injection h2 with h3
    rw [← h3]
    exact Plain_of_PlainSlice hatch acc hacc
  | x :: xs, acc, h, o, ho, hacc => by
    rw [FlatElems_cons, Bool.and_eq_true] at h
    rw [sliceLoop_step] at ho
    obtain ⟨o2, hc, hrest⟩ := bind_eq_ok _ _ _ ho
    have hp := (convertsFully_value hatch t x).2.1 h.1 o2 hc
    exact convertsFully_elems hatch t xs _ h.2 o hrest (PlainSlice_append hatch acc o2 hp hacc)
termination_by structural xs => xs
theorem convertsFully_entries (hatch : Bool) (t : String) :
    (es : List (Key × Value)) → (acc r : List (Key × Value)) →
      FlatEntries hatch t es = true → convertFromMapLoop ⟨t, hatch⟩ es acc = .ok r →
      PlainMap hatch acc → PlainMap hatch r
  | [], acc, r, _, hr, hacc => by
    have h2 : (Except.ok acc : Except Panic (List (Key × Value))) = .ok r := hr
    injection h2 with h3
    rw [← h3]
    exact hacc
  | (k, v) :: rest, acc, r, h, hr, hacc => by
    rw [FlatEntries_cons, Bool.and_eq_true] at h
    rw [mapLoop_step] at hr
    obtain ⟨o2, hc, hrest⟩ := bind_eq_ok _ _ _ hr
    have he : entryValue (k, v) = v := by
      unfold entryValue
      by_cases hk : k = Key.nan
      · exfalso
        unfold entryValue at hc
        simp only [hk, if_true] at hc
        cases hc
      · simp only [hk, if_false]
    rw [he] at hc
    have hp := (convertsFully_value hatch t v).2.1 h.1 o2 hc
    exact convertsFully_entries hatch t rest _ r h.2 hrest
      (PlainMap_mapassign hatch _ o2 acc hp hacc)
termination_by structural es => es
theorem convertsFully_fields (hatch : Bool) (t : String) :
    (fs : List (StructField × Value)) → (acc r : List (Key × Value)) →
      FlatFields hatch t fs = true → convertFromStructDeep ⟨t, hatch⟩ fs acc = .ok r →
      PlainMap hatch acc → PlainMap hatch r
  | [], acc, r, _, hr, hacc => by
    have h2 : (Except.ok acc : Except Panic (List (Key × Value))) = .ok r := hr
    injection h2 with h3
    rw [← h3]
    exact hacc
  | (f, v) :: rest, acc, r, h, hr, hacc => by
    rw [FlatFields_cons, Bool.and_eq_true] at h
    rw [structDeep_step] at hr
    obtain ⟨r2, hstep, hrest⟩ := bind_eq_ok _ _ _ hr
    have hmid : PlainMap hatch r2 := by
      unfold fieldStep at hstep
      by_cases ha : f.Anonymous = true
      · rw [if_pos ha] at hstep
        have h1 := h.1
        rw [if_pos ha] at h1
        exact (convertsFully_value hatch t v).2.2 h1 acc r2 hstep hacc
      · rw [if_neg ha] at hstep
        rcases namedField_ok_inv _ f v acc r2 hstep with hsame | ⟨hk, o2, hc, hr2⟩
        · rw [hsame]
          exact hacc
        · have h1 := h.1
          rw [if_neg ha, if_pos hk] at h1
          have hp := (convertsFully_value hatch t v).2.1 h1 o2 hc
          rw [hr2]
          exact PlainMap_mapassign hatch _ o2 acc hp hacc
    exact convertsFully_fields hatch t rest r2 r h.2 hrest hmid
termination_by structural fs => fs
end

/-- The output of a conversion that converts all of its input is plain and
is returned unchanged by a second conversion -/
theorem full_conversion (hatch : Bool) (t : String) (v : Value)
    (hf : Flat hatch t v = true) (hp : PanicFree v = true) :
    ∃ o, ConvertToValue ⟨t, hatch⟩ v = .ok o ∧ Plain hatch o = true ∧
      ConvertToValue ⟨t, hatch⟩ o = .ok o := by
  obtain ⟨o, ho⟩ := ConvertToValue_returns ⟨t, hatch⟩ v hp
  have hplain := (convertsFully_value hatch t v).1 hf o ho
  exact ⟨o, ho, hplain, (reconverts_value ⟨t, hatch⟩ o).1 hplain⟩

/-- C16, as stated, fails: with the escape hatch off the output for a pointer
to a pointer to a struct is a pointer to the struct (ConvertToValue
dereferences one level only), the output for an array of structs is the array
itself and the output for a pointer to an interface variable holding a struct
is the struct: outputs that are, or contain, a pointer or a struct. -/
theorem C16_counterexample :
    fluentConfig.useMsgPack = false ∧
    ConvertToValue fluentConfig doublePointer = .ok singlePointer ∧
    singlePointer.Kind = Kind.Ptr ∧ singlePointer.Elem.Kind = Kind.Struct ∧
    ConvertToValue fluentConfig structArray = .ok (Value.array false [person "bob" 1]) ∧
    (person "bob" 1).Kind = Kind.Struct ∧
    ConvertToValue fluentConfig interfacePointer = .ok (person "bob" 1) :=
  ⟨rfl, rfl, rfl, rfl, rfl, rfl, rfl⟩

/-- C16, amended. For every tag key, with the escape hatch off, and every input
that the conversion converts completely (every pointer that it dereferences
points to a struct, map, slice, channel, boolean, number or string, every value
that it returns as it is is a boolean, number or string, and it reaches no map
with a NaN key), ConvertToValue returns an output that is plain: nil, a
boolean, number or string, a string-keyed map of plain outputs or a slice of
plain outputs, so with no struct and no pointer at any depth. -/
theorem C16_output_shape (tagName : String) (v : Value)
    (hf : Flat false tagName v = true) (hp : PanicFree v = true) :
    ∃ o, ConvertToValue ⟨tagName, false⟩ v = .ok o ∧ Plain false o = true := by
  obtain ⟨o, ho, hplain, _⟩ := full_conversion false tagName v hf hp
  exact ⟨o, ho, hplain⟩

theorem C16_output_shape_witness :
    Flat false "fluent" team = true ∧ PanicFree team = true ∧
    ∃ o, ConvertToValue ⟨"fluent", false⟩ team = .ok o ∧ Plain false o = true :=
  ⟨rfl, rfl, C16_output_shape "fluent" team rfl rfl⟩

/-- C11, as stated, fails: the output for a pointer to a pointer to a struct
is the pointer to the struct, and converting that output again flattens the
struct to a map, which is not the output. -/
theorem C11_counterexample :
    ConvertToValue fluentConfig doublePointer = .ok singlePointer ∧
    ConvertToValue fluentConfig singlePointer ≠ .ok singlePointer := by
  refine ⟨rfl, ?_⟩
  rw [show ConvertToValue fluentConfig singlePointer =
    .ok (Value.map false (some [(Key.str "name", Value.iface (Value.str false "bob")),
      (Key.str "age", Value.iface (Value.int false 1))])) from rfl]
  intro h
  injection h with h2
  cases h2

/-- C11, amended. Idempotence on plain data: for every config and every value
v that the conversion converts completely (every pointer that it dereferences
points to a struct, map, slice, channel, boolean, number or string, every value
that it returns as it is is a boolean, number or string or, with the hatch on,
has the capability, and it reaches no map with a NaN key), ConvertToValue
returns an output o and converting o again returns o unchanged; and every
plain value (nil, boolean, number, string, string-keyed map or slice of plain
values) is returned unchanged. -/
theorem C11_idempotence_on_plain_data (config : conversionConfiguration) (v : Value)
    (hf : Flat config.useMsgPack config.tagName v = true) (hp : PanicFree v = true) :
    (∃ o, ConvertToValue config v = .ok o ∧ ConvertToValue config o = .ok o) ∧
    (∀ o, Plain config.useMsgPack o = true → ConvertToValue config o = .ok o) := by
  refine ⟨?_, fun o h => (reconverts_value config o).1 h⟩
  obtain ⟨o, ho, _, hre⟩ := full_conversion config.useMsgPack config.tagName v hf hp
  exact ⟨o, ho, hre⟩

theorem C11_idempotence_on_plain_data_witness :
    Flat msgpConfig.useMsgPack msgpConfig.tagName team = true ∧ PanicFree team = true ∧
    (∃ o, ConvertToValue msgpConfig team = .ok o ∧ ConvertToValue msgpConfig o = .ok o) ∧
    (∀ o, Plain msgpConfig.useMsgPack o = true → ConvertToValue msgpConfig o = .ok o) :=
  ⟨rfl, rfl, C11_idempotence_on_plain_data msgpConfig team rfl rfl⟩

end LogrusFluent
